import Mathlib

/-!
# LZHAM command line test application: container header and streaming pumps

A shallow embedding of `compress_streaming` and `decompress_file` of
`cli/lzhamtest.cpp`.  Files are lists of bytes, the codec behind `ilzham` is an
arbitrary state machine, and every call that touches a file or the codec is
recorded in a trace so that properties of the exit paths can be stated.
-/

namespace Lzham

/-! ## Bytes, machine integers and constants -/

/-- One `unsigned char` of a file or buffer. -/
abbrev Byte := Fin 256

/-- Conversion of an `int` to `unsigned char`, as `fputc` applies to its argument. -/
def toByte (c : Int) : Byte := ⟨(c % 256).toNat, by omega⟩

/-- The `int` value of a character literal. -/
def chr (c : Char) : Int := (c.toNat : Int)

/-- Conversion `static_cast<uint64>(int)`. -/
def toU64 (c : Int) : Nat := (c % (2 ^ 64 : Int)).toNat

/-- Conversion `static_cast<uint>(x)` of an unsigned value. -/
def toUint (x : Nat) : Nat := x % 2 ^ 32

/-- Subtraction of two `uint` values. -/
def uintSub (a b : Nat) : Nat := (a + 2 ^ 32 - b % 2 ^ 32) % 2 ^ 32

/-- The preprocessor configuration the file is compiled under. -/
structure Build where
  /-- The macro `_WIN64` is defined. -/
  win64 : Bool
  /-- The macro `_XBOX` is defined. -/
  xbox : Bool
deriving DecidableEq, Repr

/-- Modelled from the spec: `LZHAM_MIN_DICT_SIZE_LOG2` of `lzham.h` (not under src/),
15 by the usage text `-d[15-29]`. -/
def LZHAM_MIN_DICT_SIZE_LOG2 : Int := 15

/-- Modelled from the spec: `LZHAM_MAX_DICT_SIZE_LOG2_X86` of `lzham.h` (not under src/),
26 by the usage text "max. is 26 on x86 platforms". -/
def LZHAM_MAX_DICT_SIZE_LOG2_X86 : Int := 26

/-- Modelled from the spec: `LZHAM_MAX_DICT_SIZE_LOG2_X64` of `lzham.h` (not under src/),
29 by the usage text "29 on x64". -/
def LZHAM_MAX_DICT_SIZE_LOG2_X64 : Int := 29

/-- The macro `LZHAMTEST_MAX_POSSIBLE_DICT_SIZE` (lines 64-72). -/
def LZHAMTEST_MAX_POSSIBLE_DICT_SIZE (b : Build) : Int :=
  if b.win64 then LZHAM_MAX_DICT_SIZE_LOG2_X64 else LZHAM_MAX_DICT_SIZE_LOG2_X86

/-- The macro `LZHAMTEST_DEFAULT_DICT_SIZE` (lines 64-72). -/
def LZHAMTEST_DEFAULT_DICT_SIZE (b : Build) : Int :=
  if b.win64 then 28 else LZHAM_MAX_DICT_SIZE_LOG2_X86

/-- The macro `LZHAMTEST_COMP_INPUT_BUFFER_SIZE`. -/
def LZHAMTEST_COMP_INPUT_BUFFER_SIZE : Nat := 65536 * 4

/-- The macro `LZHAMTEST_COMP_OUTPUT_BUFFER_SIZE`. -/
def LZHAMTEST_COMP_OUTPUT_BUFFER_SIZE : Nat := 65536 * 4

/-- The macro `LZHAMTEST_DECOMP_INPUT_BUFFER_SIZE`. -/
def LZHAMTEST_DECOMP_INPUT_BUFFER_SIZE : Nat := 65536 * 4

/-- The macro `LZHAMTEST_DECOMP_OUTPUT_BUFFER_SIZE`. -/
def LZHAMTEST_DECOMP_OUTPUT_BUFFER_SIZE : Nat := 65536 * 4

/-- Modelled from the spec: the level `LZHAM_COMP_LEVEL_UBER` of `lzham.h` (not under
src/), 4 by the usage text `-m[0-4]`. -/
def LZHAM_COMP_LEVEL_UBER : Int := 4

/-- The struct `comp_options` (lines 83-123). -/
structure comp_options where
  m_comp_level : Int
  m_dict_size_log2 : Int
  m_compute_adler32_during_decomp : Bool
  m_max_helper_threads : Int
  m_unbuffered_decompression : Bool
  m_verify_compressed_data : Bool
  m_force_polar_codes : Bool
  m_randomize_params : Bool
  m_extreme_parsing : Bool
  m_deterministic_parsing : Bool
deriving DecidableEq, Repr

/-- The constructor `comp_options()` (lines 85-97). -/
def comp_options.default (b : Build) : comp_options where
  m_comp_level := LZHAM_COMP_LEVEL_UBER
  m_dict_size_log2 := LZHAMTEST_DEFAULT_DICT_SIZE b
  m_compute_adler32_during_decomp := true
  m_max_helper_threads := 0
  m_unbuffered_decompression := false
  m_verify_compressed_data := false
  m_force_polar_codes := false
  m_randomize_params := false
  m_extreme_parsing := false
  m_deterministic_parsing := false

/-! ## The codec behind `ilzham` -/

/-- Modelled from the spec: the status values of `lzham.h` (not under src/) that the
pumps tell apart: the two that keep the loop going, success, and any other value. -/
inductive Status where
  | NOT_FINISHED
  | NEEDS_MORE_INPUT
  | SUCCESS
  | FAILED (code : Nat)
deriving DecidableEq, Repr

/-- The loop condition of both pumps (lines 412 and 643), negated: the status asks for
another call. -/
def Status.continues : Status → Bool
  | .NOT_FINISHED => true
  | .NEEDS_MORE_INPUT => true
  | _ => false

/-- The compression flags a pump can set in `m_compress_flags`. -/
inductive CompFlag where
  | FORCE_POLAR_CODING
  | EXTREME_PARSING
  | DETERMINISTIC_PARSING
deriving DecidableEq, Repr

/-- The fields of `lzham_compress_params` that `compress_streaming` fills in. -/
structure lzham_compress_params where
  m_dict_size_log2 : Int
  m_max_helper_threads : Int
  m_level : Int
  m_compress_flags : List CompFlag
deriving DecidableEq, Repr

/-- The fields of `lzham_decompress_params` that `decompress_file` fills in. -/
structure lzham_decompress_params where
  m_dict_size_log2 : Int
  m_compute_adler32 : Bool
  m_output_unbuffered : Bool
deriving DecidableEq, Repr

/-- The arguments of one call of `lzham_compress` or `lzham_decompress`. -/
structure StepCall where
  /-- The bytes of the input chunk from `pIn_bytes` on. -/
  in_bytes : List Byte
  /-- The value of `*pIn_buf_size` on entry. -/
  num_in_bytes : Nat
  /-- The value of `*pOut_buf_size` on entry. -/
  out_buf_size : Nat
  no_more_input_bytes_flag : Bool
deriving DecidableEq, Repr

/-- What one call of the codec hands back. -/
structure StepResult (σ : Type) where
  state : σ
  status : Status
  /-- The value of `*pIn_buf_size` on return: the bytes reported consumed. -/
  num_in_bytes : Nat
  /-- The bytes stored at `pOut_bytes`; `*pOut_buf_size` on return is their number. -/
  out_bytes : List Byte

/-- One direction of the codec: an arbitrary state machine with parameters `π` and
state `σ`. -/
structure Codec (π σ : Type) where
  /-- The init call; `none` is the NULL state pointer. -/
  init : π → Option σ
  step : σ → StepCall → StepResult σ
  /-- The deinit call, returning the adler32. -/
  deinit : σ → Nat

/-- The two directions of the codec interface. -/
inductive Dir where
  | comp
  | decomp
deriving DecidableEq, Repr

/-- The two files a pump works on. -/
inductive FileId where
  | pInFile
  | pOutFile
deriving DecidableEq, Repr

/-- The messages passed to `print_error` by the two pumps. -/
inductive Err where
  | unable_to_read
  | unable_to_create
  | too_small
  | invalid_header
  | out_of_memory
  | failed_allocating_output
  | failed_initializing
  | failure_reading
  | failure_writing
  | wrote_too_many
  | failed_with_status (s : Status)
  | failed_to_consume_input
  | failed_to_output
  | failed_to_read (n : Nat)
deriving DecidableEq, Repr

/-- The calls a pump makes on its files and on the codec, in program order. -/
inductive Event where
  | fopen (f : FileId) (ok : Bool)
  | fclose (f : FileId)
  | fgetc (c : Int)
  | fputc (b : Byte)
  | fread (requested got : Nat)
  | fwrite (requested got : Nat)
  | init (d : Dir) (ok : Bool)
  | step (d : Dir) (call : StepCall) (status : Status) (num_in_bytes : Nat)
      (out_bytes : List Byte)
  | deinit (d : Dir)
  | print_error (e : Err)
deriving DecidableEq, Repr

/-- The outside world of one pump run. -/
structure Env where
  /-- The content of the file at `pSrc_filename`; `none` when it cannot be opened. -/
  src : Option (List Byte)
  /-- Whether `fopen(pDst_filename, "wb")` succeeds. -/
  dst_ok : Bool
  /-- Whether the allocation of `in_file_buf` succeeds. -/
  malloc_in_ok : Bool
  /-- Whether the allocation of `out_file_buf` succeeds. -/
  malloc_out_ok : Bool
  /-- The count the `k`-th `fread` of `n` bytes would return, capped by `n` and by the
  bytes left in the file. -/
  fread_ret : Nat → Nat → Nat
  /-- The count the `k`-th `fwrite` of `n` bytes would return, capped by `n`. -/
  fwrite_ret : Nat → Nat → Nat

/-! ## The pump session -/

/-- The locals of a pump while its loop runs. -/
structure Session (σ : Type) where
  /-- The codec state `pComp_state` or `pDecomp_state`. -/
  state : σ
  /-- The bytes of `pInFile` from the file position on. -/
  file : List Byte
  /-- The bytes written to `pOutFile` so far. -/
  out : List Byte
  src_bytes_left : Nat
  /-- The bytes of `in_file_buf` filled by the last `fread`. -/
  in_file_buf : List Byte
  in_file_buf_size : Nat
  in_file_buf_ofs : Nat
  /-- Used by `decompress_file` only. -/
  dst_bytes_left : Nat
  /-- Used by `compress_streaming` only. -/
  total_output_bytes : Nat
  /-- The number of `fread` calls made so far. -/
  reads : Nat
  /-- The number of `fwrite` calls made so far. -/
  writes : Nat
  trace : List Event

/-- The observable state of a pump run: the return value once it has returned, the
destination file, the trace, and the locals as they stand. -/
structure Run where
  /-- The value returned; `none` while the loop is still running. -/
  ret : Option Bool
  /-- The bytes written to the destination file. -/
  dst : List Byte
  trace : List Event
  src_bytes_left : Nat
  dst_bytes_left : Nat
  in_file_buf_size : Nat
  in_file_buf_ofs : Nat
deriving DecidableEq, Repr

/-- A return before any local of the loop exists. -/
def Run.early (ret : Bool) (dst : List Byte) (trace : List Event) : Run :=
  { ret := some ret, dst := dst, trace := trace, src_bytes_left := 0, dst_bytes_left := 0,
    in_file_buf_size := 0, in_file_buf_ofs := 0 }

/-- The run as it stands in session `s`, after the further calls `evs`. -/
def Session.exit {σ : Type} (s : Session σ) (ret : Option Bool) (evs : List Event) : Run :=
  { ret := ret, dst := s.out, trace := s.trace ++ evs, src_bytes_left := s.src_bytes_left,
    dst_bytes_left := s.dst_bytes_left, in_file_buf_size := s.in_file_buf_size,
    in_file_buf_ofs := s.in_file_buf_ofs }

/-- The loop `for ( ; ; )` run for at most `fuel` iterations of `body`: an iteration
either hands over the session of the next one or leaves the function. -/
def pump {σ : Type} (body : Session σ → Session σ ⊕ Run) : Nat → Session σ → Run
  | 0, s => s.exit none []
  | fuel + 1, s =>
    match body s with
    | .inl s1 => pump body fuel s1
    | .inr r => r

/-- The statements `if (in_file_buf_ofs == in_file_buf_size) { ... }` at the head of
both loops (lines 361-380 and 579-597); `onFail` is the cleanup of the failed read. -/
def refill {σ : Type} (env : Env) (cInBufSize : Nat) (onFail : List Event)
    (s : Session σ) : Session σ ⊕ Run :=
  if s.in_file_buf_ofs = s.in_file_buf_size then
    let in_file_buf_size := toUint (min cInBufSize s.src_bytes_left)
    let got := min in_file_buf_size (min (env.fread_ret s.reads in_file_buf_size) s.file.length)
    let s1 : Session σ :=
      { s with
        in_file_buf_size := in_file_buf_size
        in_file_buf := s.file.take got
        file := s.file.drop got
        reads := s.reads + 1
        trace := s.trace ++ [Event.fread in_file_buf_size got] }
    if got ≠ in_file_buf_size then
      .inr (s1.exit (some false) onFail)
    else
      .inl { s1 with
        src_bytes_left := s1.src_bytes_left - in_file_buf_size
        in_file_buf_ofs := 0 }
  else
    .inl s

/-- The arguments both loops pass to the codec (lines 382-387 and 599-607). -/
def Session.call {σ : Type} (s : Session σ) (out_buf_size : Nat) : StepCall :=
  { in_bytes := s.in_file_buf.drop s.in_file_buf_ofs
    num_in_bytes := uintSub s.in_file_buf_size s.in_file_buf_ofs
    out_buf_size := out_buf_size
    no_more_input_bytes_flag := s.src_bytes_left == 0 }

/-- The statements `if (num_in_bytes) { in_file_buf_ofs += (uint)num_in_bytes; ... }`
(lines 389-393 and 611-615); the assertion is compiled out and stated as a property. -/
def advance {σ : Type} (s : Session σ) (num_in_bytes : Nat) : Session σ :=
  if num_in_bytes ≠ 0 then
    { s with in_file_buf_ofs := toUint (s.in_file_buf_ofs + toUint num_in_bytes) }
  else s

/-- The session after a call of the codec in direction `d` (lines 387-393 and
607-615): the call is recorded, the codec state replaced and the cursor advanced. -/
def Session.stepped {σ : Type} (s : Session σ) (d : Dir) (call : StepCall)
    (res : StepResult σ) : Session σ :=
  advance
    { s with
      state := res.state
      trace := s.trace ++ [Event.step d call res.status res.num_in_bytes res.out_bytes] }
    res.num_in_bytes

/-- The call `fwrite(out_file_buf, 1, static_cast<uint>(out_num_bytes), pOutFile)`:
the session after it and the count it returns. -/
def fwrite {σ : Type} (env : Env) (s : Session σ) (out_bytes : List Byte) : Session σ × Nat :=
  let requested := toUint out_bytes.length
  let got := min requested (env.fwrite_ret s.writes requested)
  ({ s with
      out := s.out ++ out_bytes.take got
      writes := s.writes + 1
      trace := s.trace ++ [Event.fwrite requested got] }, got)

/-! ## `compress_streaming` -/

/-- The header bytes written by lines 274-283. -/
def write_header (dict_size_log2 : Int) (src_file_size : Nat) : List Byte :=
  [toByte (chr 'L'), toByte (chr 'Z'), toByte (chr 'H'), toByte (chr '0'),
    toByte dict_size_log2] ++
  (List.range 8).map fun i => toByte (((src_file_size >>> (i * 8)) &&& 0xFF : Nat) : Int)

/-- The parameters set up by lines 309-328. -/
def compress_params (options : comp_options) : lzham_compress_params :=
  { m_dict_size_log2 := options.m_dict_size_log2
    m_max_helper_threads := options.m_max_helper_threads
    m_level := options.m_comp_level
    m_compress_flags :=
      (if options.m_force_polar_codes then [CompFlag.FORCE_POLAR_CODING] else []) ++
      (if options.m_extreme_parsing then [CompFlag.EXTREME_PARSING] else []) ++
      (if options.m_deterministic_parsing then [CompFlag.DETERMINISTIC_PARSING] else []) }

/-- The cleanup of the failing exits inside the loop of `compress_streaming`
(lines 367-374 and 399-406). -/
def compress_cleanup (e : Err) : List Event :=
  [Event.print_error e, Event.fclose FileId.pInFile, Event.fclose FileId.pOutFile,
    Event.deinit Dir.decomp]

/-- The statements after the loop of `compress_streaming` (lines 421-458). -/
def compress_finish {σ : Type} (s : Session σ) (status : Status) : Run :=
  let s1 : Session σ :=
    { s with
      src_bytes_left :=
        (s.src_bytes_left + uintSub s.in_file_buf_size s.in_file_buf_ofs) % 2 ^ 64
      trace := s.trace ++
        [Event.deinit Dir.comp, Event.fclose FileId.pInFile, Event.fclose FileId.pOutFile] }
  if status ≠ Status.SUCCESS then
    s1.exit (some false) [Event.print_error (Err.failed_with_status status)]
  else if s1.src_bytes_left ≠ 0 then
    s1.exit (some false) [Event.print_error Err.failed_to_consume_input]
  else
    s1.exit (some true) []

/-- The part of an iteration of the loop of `compress_streaming` after the refill
(lines 382-414), with the statements after the loop when it breaks. -/
def compress_step {σ : Type} (env : Env) (c : Codec lzham_compress_params σ)
    (s1 : Session σ) : Session σ ⊕ Run :=
  let call := s1.call LZHAMTEST_COMP_OUTPUT_BUFFER_SIZE
  let res := c.step s1.state call
  let s3 := s1.stepped Dir.comp call res
  let written : Session σ ⊕ Run :=
    if res.out_bytes.length ≠ 0 then
      let w := fwrite env s3 res.out_bytes
      if w.2 ≠ res.out_bytes.length then
        .inr (w.1.exit (some false) (compress_cleanup Err.failure_writing))
      else
        .inl { w.1 with
          total_output_bytes := (w.1.total_output_bytes + res.out_bytes.length) % 2 ^ 64 }
    else .inl s3
  match written with
  | .inr r => .inr r
  | .inl s5 =>
    if res.status.continues then .inl s5 else .inr (compress_finish s5 res.status)

/-- One iteration of the loop of `compress_streaming` (lines 347-414): the refill of
the input chunk, then the call of the codec and what follows it. -/
def compress_body {σ : Type} (env : Env) (c : Codec lzham_compress_params σ)
    (s : Session σ) : Session σ ⊕ Run :=
  match refill env LZHAMTEST_COMP_INPUT_BUFFER_SIZE (compress_cleanup Err.failure_reading)
      s with
  | .inr r => .inr r
  | .inl s1 => compress_step env c s1

/-- The locals of `compress_streaming` when its loop is entered (lines 300-305), with
the source `file`, the header already written and the calls made so far. -/
def compress_start {σ : Type} (file header : List Byte) (trace : List Event) (st : σ) :
    Session σ :=
  { state := st
    file := file
    out := header
    src_bytes_left := file.length % 2 ^ 64
    in_file_buf := []
    in_file_buf_size := 0
    in_file_buf_ofs := 0
    dst_bytes_left := 0
    total_output_bytes := 0
    reads := 0
    writes := 0
    trace := trace }

/-- The function `compress_streaming` (lines 252-459), its loop run for at most `fuel`
iterations. -/
def compress_streaming {σ : Type} (env : Env) (c : Codec lzham_compress_params σ)
    (options : comp_options) (fuel : Nat) : Run :=
  match env.src with
  | none =>
    Run.early false [] [Event.fopen FileId.pInFile false, Event.print_error Err.unable_to_read]
  | some file =>
    if !env.dst_ok then
      Run.early false []
        [Event.fopen FileId.pInFile true, Event.fopen FileId.pOutFile false,
          Event.print_error Err.unable_to_create]
    else
      let src_file_size := file.length % 2 ^ 64
      let header := write_header options.m_dict_size_log2 src_file_size
      let opened := [Event.fopen FileId.pInFile true, Event.fopen FileId.pOutFile true] ++
        header.map Event.fputc
      if !env.malloc_in_ok || !env.malloc_out_ok then
        Run.early false header
          (opened ++ [Event.print_error Err.out_of_memory, Event.fclose FileId.pInFile,
            Event.fclose FileId.pOutFile])
      else
        match c.init (compress_params options) with
        | none =>
          Run.early false header
            (opened ++ [Event.init Dir.comp false, Event.print_error Err.failed_initializing,
              Event.fclose FileId.pInFile, Event.fclose FileId.pOutFile])
        | some st =>
          pump (compress_body env c) fuel
            (compress_start file header (opened ++ [Event.init Dir.comp true]) st)

/-! ## `decompress_file` -/

/-- The call `fgetc`: the value returned and the file from the new position on. -/
def fgetc (file : List Byte) : Int × List Byte :=
  match file with
  | [] => (-1, [])
  | b :: rest => ((b.val : Int), rest)

/-- One iteration `orig_file_size |= (static_cast<uint64>(fgetc(pInFile)) << (i * 8))`
of the loop of lines 508-511, on the triple of `orig_file_size`, the file and the
trace. -/
def read_size_byte (acc : Nat × List Byte × List Event) (i : Nat) :
    Nat × List Byte × List Event :=
  let r := fgetc acc.2.1
  (acc.1 ||| ((toU64 r.1 <<< (i * 8)) % 2 ^ 64), r.2, acc.2.2 ++ [Event.fgetc r.1])

/-- The loop of lines 507-511: `orig_file_size`, the file after it and the calls made. -/
def read_orig_file_size (file : List Byte) : Nat × List Byte × List Event :=
  (List.range 8).foldl read_size_byte (0, file, [])

/-- What `decompress_file` has in hand once the header is read (line 513). -/
structure Header where
  src_file_size : Nat
  dict_size : Int
  orig_file_size : Nat
  total_header_bytes : Nat
  /-- The bytes of `pInFile` after the header. -/
  file : List Byte
  trace : List Event
deriving DecidableEq, Repr

/-- Lines 463-513 of `decompress_file`: the size check, the tag, the dictionary size,
the creation of the destination file and the original length.  An early return is
the run it ends with. -/
def decompress_header (env : Env) : Except Run Header :=
  match env.src with
  | none =>
    .error (Run.early false []
      [Event.fopen FileId.pInFile false, Event.print_error Err.unable_to_read])
  | some file =>
    let src_file_size := file.length % 2 ^ 64
    if src_file_size < 5 + 9 then
      .error (Run.early false []
        [Event.fopen FileId.pInFile true, Event.print_error Err.too_small,
          Event.fclose FileId.pInFile])
    else
      let (h0, f0) := fgetc file
      let (h1, f1) := fgetc f0
      let (h2, f2) := fgetc f1
      let (h3, f3) := fgetc f2
      let (dict_size, f4) := fgetc f3
      let t4 := [Event.fopen FileId.pInFile true, Event.fgetc h0, Event.fgetc h1,
        Event.fgetc h2, Event.fgetc h3, Event.fgetc dict_size]
      if (h0 != chr 'L') || (h1 != chr 'Z') || (h2 != chr 'H') || (h3 != chr '0') then
        .error (Run.early false []
          (t4 ++ [Event.print_error Err.invalid_header, Event.fclose FileId.pInFile]))
      else if decide (dict_size < LZHAM_MIN_DICT_SIZE_LOG2) ||
          decide (dict_size > LZHAM_MAX_DICT_SIZE_LOG2_X64) then
        .error (Run.early false []
          (t4 ++ [Event.print_error Err.invalid_header, Event.fclose FileId.pInFile]))
      else if !env.dst_ok then
        .error (Run.early false []
          (t4 ++ [Event.fopen FileId.pOutFile false, Event.print_error Err.unable_to_create,
            Event.fclose FileId.pInFile]))
      else
        let (orig_file_size, f5, t5) := read_orig_file_size f4
        .ok { src_file_size := src_file_size
              dict_size := dict_size
              orig_file_size := orig_file_size
              total_header_bytes := file.length - f5.length
              file := f5
              trace := t4 ++ [Event.fopen FileId.pOutFile true] ++ t5 }

/-- The size above which unbuffered decompression is switched off (lines 516-520). -/
def unbuffered_ceiling (b : Build) : Nat :=
  if b.xbox then 128 * 1024 * 1024 else 1024 * 1024 * 1024

/-- The value of `options.m_unbuffered_decompression` after lines 515-524. -/
def unbuffered (b : Build) (options : comp_options) (orig_file_size : Nat) : Bool :=
  if options.m_unbuffered_decompression && decide (orig_file_size > unbuffered_ceiling b) then
    false
  else options.m_unbuffered_decompression

/-- The capacity `out_buf_size` of the output buffer (line 534). -/
def decomp_out_buf_size (b : Build) (options : comp_options) (orig_file_size : Nat) : Nat :=
  if unbuffered b options orig_file_size then toUint orig_file_size
  else LZHAMTEST_DECOMP_OUTPUT_BUFFER_SIZE

/-- The parameters set up by lines 551-556. -/
def decompress_params (b : Build) (options : comp_options) (h : Header) :
    lzham_decompress_params :=
  { m_dict_size_log2 := h.dict_size
    m_compute_adler32 := options.m_compute_adler32_during_decomp
    m_output_unbuffered := unbuffered b options h.orig_file_size }

/-- The cleanup shared by the failing exits inside the loop of `decompress_file`. -/
def decompress_cleanup (e : Err) : List Event :=
  [Event.print_error e, Event.deinit Dir.decomp, Event.fclose FileId.pInFile,
    Event.fclose FileId.pOutFile]

/-- The statements after the loop of `decompress_file` (lines 646-689). -/
def decompress_finish {σ : Type} (s : Session σ) (status : Status) : Run :=
  let s1 : Session σ :=
    { s with
      src_bytes_left :=
        (s.src_bytes_left + uintSub s.in_file_buf_size s.in_file_buf_ofs) % 2 ^ 64
      trace := s.trace ++
        [Event.deinit Dir.decomp, Event.fclose FileId.pInFile, Event.fclose FileId.pOutFile] }
  if status ≠ Status.SUCCESS then
    s1.exit (some false) [Event.print_error (Err.failed_with_status status)]
  else if s1.dst_bytes_left ≠ 0 then
    s1.exit (some false) [Event.print_error Err.failed_to_output]
  else if s1.src_bytes_left ≠ 0 then
    s1.exit (some true) [Event.print_error (Err.failed_to_read s1.src_bytes_left)]
  else
    s1.exit (some true) []

/-- The part of an iteration of the loop of `decompress_file` after the refill
(lines 599-645), with the statements after the loop when it breaks. -/
def decompress_step {σ : Type} (env : Env) (c : Codec lzham_decompress_params σ)
    (out_buf_size : Nat) (s1 : Session σ) : Session σ ⊕ Run :=
  let call := s1.call out_buf_size
  let res := c.step s1.state call
  let s3 := s1.stepped Dir.decomp call res
  let written : Session σ ⊕ Run :=
    if res.out_bytes.length ≠ 0 then
      let w := fwrite env s3 res.out_bytes
      if w.2 ≠ res.out_bytes.length then
        .inr (w.1.exit (some false) (decompress_cleanup Err.failure_writing))
      else if res.out_bytes.length > w.1.dst_bytes_left then
        .inr (w.1.exit (some false) (decompress_cleanup Err.wrote_too_many))
      else
        .inl { w.1 with dst_bytes_left := w.1.dst_bytes_left - res.out_bytes.length }
    else .inl s3
  match written with
  | .inr r => .inr r
  | .inl s5 =>
    if res.status.continues then .inl s5 else .inr (decompress_finish s5 res.status)

/-- One iteration of the loop of `decompress_file` (lines 577-645): the refill of the
input chunk, then the call of the codec and what follows it. -/
def decompress_body {σ : Type} (env : Env) (c : Codec lzham_decompress_params σ)
    (out_buf_size : Nat) (s : Session σ) : Session σ ⊕ Run :=
  match refill env LZHAMTEST_DECOMP_INPUT_BUFFER_SIZE
      (decompress_cleanup Err.failure_reading) s with
  | .inr r => .inr r
  | .inl s1 => decompress_step env c out_buf_size s1

/-- The locals of `decompress_file` when its loop is entered (lines 545-549). -/
def decompress_start {σ : Type} (h : Header) (st : σ) : Session σ :=
  { state := st
    file := h.file
    out := []
    src_bytes_left := h.src_file_size - h.total_header_bytes
    in_file_buf := []
    in_file_buf_size := 0
    in_file_buf_ofs := 0
    dst_bytes_left := h.orig_file_size
    total_output_bytes := 0
    reads := 0
    writes := 0
    trace := h.trace ++ [Event.init Dir.decomp true] }

/-- Lines 515-690 of `decompress_file`: what follows the header.  The allocation of
`in_file_buf` is not checked by the source and is taken to succeed. -/
def decompress_from {σ : Type} (b : Build) (env : Env)
    (c : Codec lzham_decompress_params σ) (options : comp_options) (h : Header)
    (fuel : Nat) : Run :=
  if !env.malloc_out_ok then
    Run.early false []
      (h.trace ++ [Event.print_error Err.failed_allocating_output,
        Event.fclose FileId.pInFile, Event.fclose FileId.pOutFile])
  else
    match c.init (decompress_params b options h) with
    | none =>
      Run.early false []
        (h.trace ++ [Event.init Dir.decomp false, Event.print_error Err.failed_initializing,
          Event.fclose FileId.pInFile, Event.fclose FileId.pOutFile])
    | some st =>
      pump (decompress_body env c (decomp_out_buf_size b options h.orig_file_size)) fuel
        (decompress_start h st)

/-- The function `decompress_file` (lines 461-690), its loop run for at most `fuel`
iterations. -/
def decompress_file {σ : Type} (b : Build) (env : Env)
    (c : Codec lzham_decompress_params σ) (options : comp_options) (fuel : Nat) : Run :=
  match decompress_header env with
  | .error r => r
  | .ok h => decompress_from b env c options h fuel

/-! ## Codecs and inputs used to run the pumps on concrete data -/

/-- A codec following a script: call `k` gives the `k`-th scripted answer, and the
last answer is repeated once the script is used up. -/
def scripted {π : Type} (script : List (Status × Nat × List Byte))
    (last : Status × Nat × List Byte) : Codec π Nat :=
  { init := fun _ => some 0
    step := fun k _ =>
      let a := script.getD k last
      { state := k + 1, status := a.1, num_in_bytes := a.2.1, out_bytes := a.2.2 }
    deinit := fun _ => 1 }

/-- A world in which every file opens, every allocation succeeds and every read and
write is complete. -/
def Env.ideal (src : List Byte) : Env :=
  { src := some src, dst_ok := true, malloc_in_ok := true, malloc_out_ok := true,
    fread_ret := fun _ n => n, fwrite_ret := fun _ n => n }

/-- The build without `_WIN64` and without `_XBOX`. -/
def x86 : Build := { win64 := false, xbox := false }

/-- A container declaring one original byte, with one payload byte. -/
def container_of_one : List Byte := write_header 26 1 ++ [0]

/-- A decompressor that puts out two bytes in its first call and asks to go on. -/
def two_byte_codec : Codec lzham_decompress_params Nat :=
  scripted [(Status.NOT_FINISHED, 1, [7, 8])] (Status.SUCCESS, 0, [])

/-- A container declaring three original bytes, with two payload bytes. -/
def container_of_three : List Byte := write_header 26 3 ++ [1, 2]

/-- A decompressor that puts out two bytes, then one, and succeeds. -/
def three_byte_codec : Codec lzham_decompress_params Nat :=
  scripted [(Status.NOT_FINISHED, 1, [7, 8]), (Status.SUCCESS, 1, [9])] (Status.SUCCESS, 0, [])

/-- A compressor that puts out one byte per call and succeeds in its second call. -/
def two_call_codec : Codec lzham_compress_params Nat :=
  scripted [(Status.NOT_FINISHED, 1, [7]), (Status.SUCCESS, 2, [9])] (Status.SUCCESS, 0, [])

/-- A container declaring no original bytes, with two payload bytes. -/
def container_with_spare_byte : List Byte := write_header 26 0 ++ [1, 2]

/-- A codec that reports success in its first call after consuming one byte. -/
def one_byte_codec {π : Type} : Codec π Nat :=
  scripted [] (Status.SUCCESS, 1, [])

/-- A world like `Env.ideal` in which every `fread` comes back empty. -/
def Env.unreadable (src : List Byte) : Env :=
  { Env.ideal src with fread_ret := fun _ _ => 0 }

/-- A container with a valid tag, the dictionary-size exponent 27, no original bytes
and one payload byte. -/
def container_exponent_27 : List Byte := write_header 27 0 ++ [0]

/-- A codec that reports success in its first call without consuming or producing. -/
def idle_codec {π : Type} : Codec π Nat :=
  scripted [] (Status.SUCCESS, 0, [])

/-! ## Quantities read off a file or a trace -/

/-- The value of a sequence of bytes read as a little-endian unsigned number. -/
def le_value : List Byte → Nat
  | [] => 0
  | b :: bs => b.val + 256 * le_value bs

/-- The original length a container declares: the eight bytes at offsets 5 to 12,
little-endian. -/
def declared_length (file : List Byte) : Nat := le_value ((file.drop 5).take 8)

/-- The bytes the codec produced in one call, for the other events none. -/
def Event.output : Event → List Byte
  | .step _ _ _ _ out_bytes => out_bytes
  | _ => []

/-- All the bytes the codec produced in the calls of a trace, in call order. -/
def codec_output : List Event → List Byte
  | [] => []
  | e :: t => e.output ++ codec_output t

/-- Whether an event is a call of the codec. -/
def Event.isCodec : Event → Bool
  | .init _ _ => true
  | .step _ _ _ _ _ => true
  | .deinit _ => true
  | _ => false

/-- The calls of the codec in a trace. -/
def codec_calls (t : List Event) : List Event := t.filter Event.isCodec

/-- The sink invariant of a pump whose destination file starts with `hdr`: the file
is `hdr` followed by everything the codec has produced. -/
def SinkInv {σ : Type} (hdr : List Byte) (s : Session σ) : Prop :=
  s.out = hdr ++ codec_output s.trace

/-- What the sink invariant gives for a run: the destination file is `hdr` followed by
a prefix of what the codec has produced, all of it unless the run has failed. -/
def SinkPost (hdr : List Byte) (r : Run) : Prop :=
  (∃ k, r.dst = hdr ++ (codec_output r.trace).take k) ∧
  (r.ret ≠ some false → r.dst = hdr ++ codec_output r.trace)

/-- The calls `compress_streaming` makes before it allocates its buffers. -/
def compress_opened (header : List Byte) : List Event :=
  [Event.fopen FileId.pInFile true, Event.fopen FileId.pOutFile true] ++
    header.map Event.fputc

/-- The status returned by a call of the codec, for the other events none. -/
def Event.status? : Event → Option Status
  | .step _ _ status _ _ => some status
  | _ => none

/-- The statuses returned by the calls of the codec in a trace, in call order. -/
def statuses (t : List Event) : List Status := t.filterMap Event.status?

/-- One of the errors `errs` has been reported in the trace. -/
def halted (errs : List Err) (t : List Event) : Prop :=
  ∃ e ∈ errs, Event.print_error e ∈ t

instance (errs : List Err) (t : List Event) : Decidable (halted errs t) := by
  unfold halted
  infer_instance

/-- The errors reported for a short read and a short write. -/
def io_errors : List Err := [Err.failure_reading, Err.failure_writing]

/-- The errors that end the loop of `decompress_file` whatever the status: the I/O
errors and the output overrun. -/
def decompress_stops : List Err :=
  [Err.failure_reading, Err.failure_writing, Err.wrote_too_many]

/-- What the part of an iteration after the refill does to the statuses, started in
session `s`: it makes one call; the loop goes on only with a status that asks for
another call and without a new error of `errs`; if the function returns, either an
error of `errs` was reported and the result is failure, or the status ended the loop
and the result is failure unless the status is success. -/
def StepSpec {σ : Type} (errs : List Err) (s : Session σ) : Session σ ⊕ Run → Prop
  | .inl s1 => ∃ st, st.continues = true ∧ statuses s1.trace = statuses s.trace ++ [st] ∧
      (halted errs s1.trace ↔ halted errs s.trace)
  | .inr r => r.ret ≠ none ∧ ∃ st, statuses r.trace = statuses s.trace ++ [st] ∧
      ((st.continues = true ∧ halted errs r.trace ∧ r.ret = some false) ∨
        (st.continues = false ∧ (st ≠ Status.SUCCESS → r.ret = some false)))

/-- What a whole iteration does to the statuses, started in session `s`: as `StepSpec`,
or the refill fails and the function returns failure without a call of the codec. -/
def IterSpec {σ : Type} (errs : List Err) (s : Session σ) : Session σ ⊕ Run → Prop
  | .inl s1 => StepSpec errs s (.inl s1)
  | .inr r =>
      (r.ret = some false ∧ statuses r.trace = statuses s.trace ∧
        Event.print_error Err.failure_reading ∈ r.trace) ∨ StepSpec errs s (.inr r)

/-- Status propagation of a pump `f` (the run as a function of the number of loop
iterations allowed) whose loop is ended by the errors `errs`.  At every point of the
run: every status but the last asked for another call; after a last status that does
not ask for another call the function has returned, with failure unless the status is
success, and no call follows; after a last status that asks for another call the loop
is still running exactly when no error of `errs` has been reported, the next iteration
then calls the codec again unless the read refilling the input chunk fails, and once
the function has returned no call follows. -/
def StatusPropagation (errs : List Err) (f : Nat → Run) : Prop :=
  ∀ fuel,
    (∀ st ∈ (statuses (f fuel).trace).dropLast, st.continues = true) ∧
    (∀ st, (statuses (f fuel).trace).getLast? = some st →
      (st.continues = false →
        (f fuel).ret ≠ none ∧ (st ≠ Status.SUCCESS → (f fuel).ret = some false) ∧
        statuses (f (fuel + 1)).trace = statuses (f fuel).trace) ∧
      (st.continues = true →
        ((f fuel).ret = none ↔ ¬ halted errs (f fuel).trace) ∧
        ((f fuel).ret = none →
          (∃ st1, statuses (f (fuel + 1)).trace = statuses (f fuel).trace ++ [st1]) ∨
          (Event.print_error Err.failure_reading ∈ (f (fuel + 1)).trace ∧
            statuses (f (fuel + 1)).trace = statuses (f fuel).trace)) ∧
        ((f fuel).ret ≠ none → statuses (f (fuel + 1)).trace = statuses (f fuel).trace)))

/-- The invariant of a loop that is still running: every status so far asked for
another call and no error of `errs` has been reported. -/
def LoopInv {σ : Type} (errs : List Err) (s : Session σ) : Prop :=
  (∀ st ∈ statuses s.trace, st.continues = true) ∧ ¬ halted errs s.trace

/-- The four ways a run can stand: still in the loop; returned with failure after an
error of `errs`; returned after a status that ended the loop; returned with failure
before any call of the codec. -/
def RunMode (errs : List Err) (r : Run) : Prop :=
  (r.ret = none ∧ (∀ st ∈ statuses r.trace, st.continues = true) ∧ ¬ halted errs r.trace) ∨
  (r.ret = some false ∧ (∀ st ∈ statuses r.trace, st.continues = true) ∧
    halted errs r.trace) ∨
  (r.ret ≠ none ∧ ∃ pre st, statuses r.trace = pre ++ [st] ∧
    (∀ x ∈ pre, x.continues = true) ∧ st.continues = false ∧
    (st ≠ Status.SUCCESS → r.ret = some false)) ∨
  (r.ret = some false ∧ statuses r.trace = [])

/-- How the run allowed one more iteration relates to a run: the same if that one has
returned; otherwise one more call of the codec, or a failed read and no call. -/
def SuccRel (r r1 : Run) : Prop :=
  (r.ret ≠ none → r1 = r) ∧
  (r.ret = none →
    (∃ st1, statuses r1.trace = statuses r.trace ++ [st1]) ∨
    (Event.print_error Err.failure_reading ∈ r1.trace ∧
      statuses r1.trace = statuses r.trace))

/-- A world like `Env.ideal` in which every `fwrite` writes nothing. -/
def Env.unwritable (src : List Byte) : Env :=
  { Env.ideal src with fwrite_ret := fun _ _ => 0 }

/-- The number of calls of the deinit function of direction `d` in a trace. -/
def deinit_calls (d : Dir) (t : List Event) : Nat := t.count (Event.deinit d)

/-- The deinit discipline of `decompress_file` while its loop runs: the decompressor
has been initialised and no deinit function has been called. -/
def DeinitInv {σ : Type} (s : Session σ) : Prop :=
  Event.init Dir.decomp true ∈ s.trace ∧ deinit_calls Dir.decomp s.trace = 0 ∧
    deinit_calls Dir.comp s.trace = 0

/-- The deinit discipline of a run of `decompress_file`: `lzham_compress_deinit` is
never called, and `lzham_decompress_deinit` is called exactly once when the
decompressor was initialised and the function has returned, and not at all
otherwise. -/
def DeinitPost (r : Run) : Prop :=
  deinit_calls Dir.comp r.trace = 0 ∧
  deinit_calls Dir.decomp r.trace =
    if Event.init Dir.decomp true ∈ r.trace ∧ r.ret ≠ none then 1 else 0

/-- The count returned by the last `fwrite` call of a trace, 0 when there is none. -/
def last_fwrite (t : List Event) : Nat :=
  t.foldl (fun acc e => match e with
    | Event.fwrite _ got => got
    | _ => acc) 0

/-- The calls `decompress_file` makes up to the dictionary-size byte. -/
def header_prefix_trace (b0 b1 b2 b3 b4 : Byte) : List Event :=
  [Event.fopen FileId.pInFile true, Event.fgetc b0.val, Event.fgetc b1.val,
    Event.fgetc b2.val, Event.fgetc b3.val, Event.fgetc b4.val]

/-- The budget invariant of the loop of `decompress_file` for declared length `L`. -/
def BudgetInv {σ : Type} (L : Nat) (s : Session σ) : Prop :=
  s.out.length + s.dst_bytes_left = L ∧ (codec_output s.trace).length = s.out.length

/-- What the budget invariant gives for a run. -/
def BudgetPost (L : Nat) (r : Run) : Prop :=
  ((codec_output r.trace).length > L → r.ret = some false) ∧
  (r.ret = some true → r.dst.length = L ∧ r.dst_bytes_left = 0) ∧
  (r.ret ≠ some false → r.dst.length ≤ L) ∧
  r.dst.length ≤ L + last_fwrite r.trace

/-- The header `decompress_file` has in hand after reading thirteen bytes followed by
`rest`, the destination file created. -/
def header_of (b4 b5 b6 b7 b8 b9 b10 b11 b12 : Byte) (rest : List Byte) (t : List Event) :
    Header :=
  { src_file_size := (rest.length + 13) % 2 ^ 64
    dict_size := b4.val
    orig_file_size := le_value [b5, b6, b7, b8, b9, b10, b11, b12]
    total_header_bytes := 13
    file := rest
    trace := t ++ [Event.fopen FileId.pOutFile true] ++
      [Event.fgetc b5.val, Event.fgetc b6.val, Event.fgetc b7.val, Event.fgetc b8.val,
        Event.fgetc b9.val, Event.fgetc b10.val, Event.fgetc b11.val, Event.fgetc b12.val] }

/-! ## The shape of the trace of a pump -/

/-- The calls made inside the loop of the pump of direction `d` whose output buffer
holds `X` bytes: reads of the source, writes of the output, and calls of the codec of
that direction passing that capacity. -/
def Event.inLoop (d : Dir) (X : Nat) : Event → Bool
  | .fread _ _ => true
  | .fwrite _ _ => true
  | .step d1 call _ _ _ => decide (d1 = d) && decide (call.out_buf_size = X)
  | _ => false

/-- The calls made on the way out of a loop: messages, deinit calls and closes. -/
def Event.isClosing : Event → Bool
  | .print_error _ => true
  | .deinit _ => true
  | .fclose _ => true
  | _ => false

/-- Whether an event is a successful `fopen` of file `f`. -/
def Event.opens (f : FileId) : Event → Bool
  | .fopen g true => decide (g = f)
  | _ => false

/-- Whether an event is an `fclose` of file `f`. -/
def Event.closes (f : FileId) : Event → Bool
  | .fclose g => decide (g = f)
  | _ => false

/-- The number of successful `fopen` calls for file `f` in a trace. -/
def opened (f : FileId) : List Event → Nat
  | [] => 0
  | e :: t => (if e.opens f then 1 else 0) + opened f t

/-- The number of `fclose` calls for file `f` in a trace. -/
def closed (f : FileId) : List Event → Nat
  | [] => 0
  | e :: t => (if e.closes f then 1 else 0) + closed f t

/-- The trace `t` is `t0` followed by calls of the loop only. -/
def LoopTrace (d : Dir) (X : Nat) (t0 t : List Event) : Prop :=
  ∃ u, t = t0 ++ u ∧ ∀ e ∈ u, Event.inLoop d X e = true

/-- The calls `tail` close both files once each and are otherwise messages and deinit
calls. -/
def Closing (tail : List Event) : Prop :=
  (∀ e ∈ tail, Event.isClosing e = true) ∧ closed FileId.pInFile tail = 1 ∧
    closed FileId.pOutFile tail = 1

/-- The trace of a run whose loop was entered after the calls `t0`: calls of the loop,
then, once the function has returned, the calls of its way out. -/
def PumpTrace (d : Dir) (X : Nat) (t0 : List Event) (r : Run) : Prop :=
  ∃ u tail, r.trace = t0 ++ u ++ tail ∧ (∀ e ∈ u, Event.inLoop d X e = true) ∧
    (r.ret = none → tail = []) ∧ (r.ret ≠ none → Closing tail)

/-- The capacity `out_num_bytes` of the output buffer passed in a call of the codec. -/
def Event.capacity? : Event → Option Nat
  | .step _ call _ _ _ => some call.out_buf_size
  | _ => none

/-- The output capacities passed in the calls of the codec of a trace, in order. -/
def capacities (t : List Event) : List Nat := t.filterMap Event.capacity?

/-- A container declaring 2 ^ 30 + 1 original bytes, one more than the ceiling of
unbuffered decompression on builds other than Xbox. -/
def container_over_ceiling : List Byte := write_header 26 (1024 * 1024 * 1024 + 1) ++ [0]

/-! ## File handles -/

/-- Once the function has returned, each file was closed as often as it was opened. -/
def NoLeak (r : Run) : Prop :=
  r.ret ≠ none →
    closed FileId.pInFile r.trace = opened FileId.pInFile r.trace ∧
    closed FileId.pOutFile r.trace = opened FileId.pOutFile r.trace

/-! ## The last-chunk flag -/

/-- The number of source bytes the `fread` calls of a trace have read. -/
def bytes_read : List Event → Nat
  | [] => 0
  | Event.fread _ got :: t => got + bytes_read t
  | _ :: t => bytes_read t

/-- The flag discipline along a trace that starts with `a` bytes of a source of `P`
bytes already read: at every call of the codec, the flag `no_more_input_bytes_flag` is
set exactly when all `P` bytes have been read by then, and no more than `P` bytes have
been read. -/
def FlagsOk (P : Nat) : Nat → List Event → Prop
  | _, [] => True
  | a, Event.fread _ got :: t => FlagsOk P (a + got) t
  | a, Event.step _ call _ _ _ :: t =>
    (call.no_more_input_bytes_flag = true ↔ a = P) ∧ a ≤ P ∧ FlagsOk P a t
  | a, _ :: t => FlagsOk P a t

/-- The invariant of both loops for a source of `P` bytes: the flag discipline holds
so far, the bytes read and the bytes still in the file make up the source, and
`src_bytes_left` counts the bytes still in the file. -/
def ReadInv {σ : Type} (P : Nat) (s : Session σ) : Prop :=
  FlagsOk P 0 s.trace ∧ bytes_read s.trace + s.file.length = P ∧
    s.src_bytes_left = s.file.length

/-- The calls that neither read the source nor call the codec. -/
def Event.quiet : Event → Bool
  | .fread _ _ => false
  | .step _ _ _ _ _ => false
  | _ => true

/-! ## `main_internal` -/

/-- Modelled from the spec: `LZHAM_MAX_HELPER_THREADS` of `lzham.h` (not under src/),
16 by the usage text `-t[0-16]`. -/
def LZHAM_MAX_HELPER_THREADS : Int := 16

/-- The value `EXIT_SUCCESS` of `stdlib.h`. -/
def EXIT_SUCCESS : Int := 0

/-- The value `EXIT_FAILURE` of `stdlib.h`. -/
def EXIT_FAILURE : Int := 1

/-- The enumeration `op_mode_t` of `main_internal` (lines 1061-1067). -/
inductive op_mode_t where
  | OP_MODE_INVALID
  | OP_MODE_COMPRESS
  | OP_MODE_DECOMPRESS
  | OP_MODE_ALL
deriving DecidableEq, Repr

/-- The calls `main_internal` makes besides printing, in program order. -/
inductive Call where
  | srand (seed : Int)
  | simple_test (options : comp_options)
  | compress_streaming (src dst : String) (options : comp_options)
  | decompress_file (src dst : String) (options : comp_options)
  | compare_files (a b : String)
  | test_recursive (path : String) (options : comp_options)
  | remove (name : String)
deriving DecidableEq, Repr

/-- The options an operation is started with. -/
def Call.options? : Call → Option comp_options
  | .simple_test options => some options
  | .compress_streaming _ _ options => some options
  | .decompress_file _ _ options => some options
  | .test_recursive _ options => some options
  | _ => none

/-- The calls that start an operation: the self-test, a pump, the comparison or the
corpus run. -/
def Call.isOperation : Call → Bool
  | .srand _ => false
  | .remove _ => false
  | _ => true

/-- What the functions called by `main_internal` return, and the name it gives the
temporary file of the verification (lines 1241-1245). -/
structure Ops where
  simple_test : comp_options → Int
  compress_streaming : String → String → comp_options → Bool
  decompress_file : String → String → comp_options → Bool
  compare_files : String → String → Bool
  test_recursive : String → comp_options → Bool
  decomp_file : String

/-- What `main_internal` returns and the calls it made. -/
structure MainRun where
  exit_status : Int
  calls : List Call
deriving DecidableEq, Repr

/-- The body of `switch (tolower(str[1]))` (lines 1080-1153) for the lowered letter `c`
and the text `arg` at `str.c_str() + 2`: the options after it and the calls made, or
`none` when it returns `EXIT_FAILURE`.  The C function `atoi` is a parameter. -/
def parse_option (b : Build) (atoi : String → Int) (c : Char) (arg : String)
    (options : comp_options) : Option (comp_options × List Call) :=
  if c = 'u' then some ({ options with m_unbuffered_decompression := true }, [])
  else if c = 'd' then
    let dict_size := atoi arg
    if dict_size < LZHAM_MIN_DICT_SIZE_LOG2 ∨ dict_size > LZHAMTEST_MAX_POSSIBLE_DICT_SIZE b
    then none
    else some ({ options with m_dict_size_log2 := dict_size }, [])
  else if c = 'm' then
    let comp_level := atoi arg
    if comp_level < 0 ∨ comp_level > LZHAM_COMP_LEVEL_UBER then none
    else some ({ options with m_comp_level := comp_level }, [])
  else if c = 't' then
    let num_threads := atoi arg
    if num_threads < 0 ∨ num_threads > LZHAM_MAX_HELPER_THREADS then none
    else some ({ options with m_max_helper_threads := num_threads }, [])
  else if c = 'c' then some ({ options with m_compute_adler32_during_decomp := false }, [])
  else if c = 'v' then some ({ options with m_verify_compressed_data := true }, [])
  else if c = 'r' then some ({ options with m_randomize_params := true }, [])
  else if c = 'p' then some ({ options with m_force_polar_codes := true }, [])
  else if c = 'x' then some ({ options with m_extreme_parsing := true }, [])
  else if c = 'e' then some ({ options with m_deterministic_parsing := true }, [])
  else if c = 's' then some (options, [Call.srand (atoi arg)])
  else none

/-- The body of `switch (tolower(str[0]))` (lines 1166-1189): the mode a letter
selects. -/
def parse_mode (c : Char) : Option op_mode_t :=
  if c = 'c' then some op_mode_t.OP_MODE_COMPRESS
  else if c = 'd' then some op_mode_t.OP_MODE_DECOMPRESS
  else if c = 'a' then some op_mode_t.OP_MODE_ALL
  else none

/-- The locals of `main_internal` after its parsing loop. -/
structure Parsed where
  op_mode : op_mode_t
  /-- The tokens left in `cmd_line`. -/
  cmd_line : List String
  options : comp_options
  calls : List Call
deriving DecidableEq, Repr

/-- The loop of lines 1071-1192 over `cmd_line`.  Every token it handles is erased and
the index stays at 0, so the loop walks the list from its head: option tokens update
the options, the first other token sets the mode and ends the loop.  An error is a
return of `EXIT_FAILURE`, with the calls made before it.  For the empty token `str[0]`
is the terminator, which is not `-`, and `str.size()` is not 1. -/
def parse_cmd_line (b : Build) (atoi : String → Int) :
    List String → comp_options → List Call → Except (List Call) Parsed
  | [], options, calls =>
    .ok { op_mode := op_mode_t.OP_MODE_INVALID, cmd_line := [], options := options,
          calls := calls }
  | str :: rest, options, calls =>
    match str.data with
    | [] => .error calls
    | c0 :: tl =>
      if c0 = '-' then
        match tl with
        | [] => .error calls
        | c :: arg =>
          match parse_option b atoi c.toLower (String.mk arg) options with
          | none => .error calls
          | some r => parse_cmd_line b atoi rest r.1 (calls ++ r.2)
      else if tl ≠ [] then .error calls
      else
        match parse_mode c0.toLower with
        | none => .error calls
        | some op_mode =>
          .ok { op_mode := op_mode, cmd_line := rest, options := options, calls := calls }

/-- Lines 1203-1310 of `main_internal`: the operation of the mode. -/
def run_mode (ops : Ops) (p : Parsed) : MainRun :=
  match p.op_mode with
  | .OP_MODE_INVALID => { exit_status := EXIT_FAILURE, calls := p.calls }
  | .OP_MODE_COMPRESS =>
    match p.cmd_line with
    | [src_file, cmp_file] =>
      let comp_result := ops.compress_streaming src_file cmp_file p.options
      let calls := p.calls ++ [Call.compress_streaming src_file cmp_file p.options]
      if comp_result && p.options.m_verify_compressed_data then
        if !ops.decompress_file cmp_file ops.decomp_file p.options then
          { exit_status := EXIT_FAILURE
            calls := calls ++ [Call.decompress_file cmp_file ops.decomp_file p.options] }
        else if !ops.compare_files ops.decomp_file src_file then
          { exit_status := EXIT_FAILURE
            calls := calls ++ [Call.decompress_file cmp_file ops.decomp_file p.options,
              Call.compare_files ops.decomp_file src_file] }
        else
          { exit_status := EXIT_SUCCESS
            calls := calls ++ [Call.decompress_file cmp_file ops.decomp_file p.options,
              Call.compare_files ops.decomp_file src_file, Call.remove ops.decomp_file] }
      else
        { exit_status := if comp_result then EXIT_SUCCESS else EXIT_FAILURE, calls := calls }
    | _ => { exit_status := EXIT_FAILURE, calls := p.calls }
  | .OP_MODE_DECOMPRESS =>
    match p.cmd_line with
    | [src_file, dst_file] =>
      { exit_status :=
          if ops.decompress_file src_file dst_file p.options then EXIT_SUCCESS
          else EXIT_FAILURE
        calls := p.calls ++ [Call.decompress_file src_file dst_file p.options] }
    | _ => { exit_status := EXIT_FAILURE, calls := p.calls }
  | .OP_MODE_ALL =>
    match p.cmd_line with
    | [path] =>
      { exit_status :=
          if ops.test_recursive path p.options then EXIT_SUCCESS else EXIT_FAILURE
        calls := p.calls ++ [Call.test_recursive path p.options] }
    | _ => { exit_status := EXIT_FAILURE, calls := p.calls }

/-- The options `main_internal` starts from (lines 1048-1053). -/
def initial_options (b : Build) (num_helper_threads : Int) : comp_options :=
  let options := { comp_options.default b with m_max_helper_threads := num_helper_threads }
  if b.xbox then { options with m_dict_size_log2 := 21 } else options

/-- The function `main_internal` (lines 1046-1311). -/
def main_internal (b : Build) (atoi : String → Int) (ops : Ops) (cmd_line : List String)
    (num_helper_threads : Int) : MainRun :=
  let options := initial_options b num_helper_threads
  if cmd_line.length = 0 then
    { exit_status := ops.simple_test options, calls := [Call.simple_test options] }
  else
    match parse_cmd_line b atoi cmd_line options [] with
    | .error calls => { exit_status := EXIT_FAILURE, calls := calls }
    | .ok p => run_mode ops p

/-- The value of `num_helper_threads` that `main` passes to `main_internal` (lines
1352-1365), on a build with or without `WIN32` and a machine reporting
`dwNumberOfProcessors` processors. -/
def main_num_helper_threads (b : Build) (win32 : Bool) (dwNumberOfProcessors : Nat) : Int :=
  if b.xbox then 5
  else if win32 then
    if dwNumberOfProcessors > 1 then (dwNumberOfProcessors : Int) - 1 else 0
  else 7

/-- The value of the decimal digits at the head of a text. -/
def digits_value (l : List Char) : Int :=
  (l.takeWhile Char.isDigit).foldl (fun acc c => acc * 10 + ((c.toNat : Int) - 48)) 0

/-- A reading of `atoi` used to run `main_internal` on concrete command lines: leading
white space (the space and the characters 9 to 13) is skipped, then an optional sign
and the decimal digits are read.  It is the value of `atoi` on every text whose number
fits an `int`; beyond that C leaves the result undefined. -/
def atoi_decimal (s : String) : Int :=
  match s.data.dropWhile (fun c => c == ' ' || (decide (9 ≤ c.toNat) && decide (c.toNat ≤ 13)))
    with
  | [] => 0
  | c :: rest =>
    if c = '-' then - digits_value rest
    else if c = '+' then digits_value rest
    else digits_value (c :: rest)

/-- Operations that all succeed, used to run `main_internal` on concrete command
lines. -/
def Ops.succeeding : Ops :=
  { simple_test := fun _ => EXIT_SUCCESS
    compress_streaming := fun _ _ _ => true
    decompress_file := fun _ _ _ => true
    compare_files := fun _ _ => true
    test_recursive := fun _ _ => true
    decomp_file := "__decomp_temp_0__.tmp" }

/-- Whether the token `str` starts with `-`, which is how the loop of `main_internal`
tells an option from the mode token. -/
def is_option (str : String) : Bool := str.data.head? == some '-'

/-- A token `-d`, `-m` or `-t` (in either case of the letter) whose value as read by
`atoi` lies outside the range of the option. -/
def out_of_range (b : Build) (atoi : String → Int) (str : String) : Prop :=
  ∃ c arg, str.data = '-' :: c :: arg ∧
    ((c.toLower = 'd' ∧ (atoi (String.mk arg) < 15 ∨
        atoi (String.mk arg) > LZHAMTEST_MAX_POSSIBLE_DICT_SIZE b)) ∨
     (c.toLower = 'm' ∧ (atoi (String.mk arg) < 0 ∨ atoi (String.mk arg) > 4)) ∨
     (c.toLower = 't' ∧ (atoi (String.mk arg) < 0 ∨ atoi (String.mk arg) > 16)))

/-- The dictionary-size exponent of `options` lies between `LZHAM_MIN_DICT_SIZE_LOG2`
and the platform maximum of build `b`. -/
def dict_size_in_range (b : Build) (options : comp_options) : Prop :=
  LZHAM_MIN_DICT_SIZE_LOG2 ≤ options.m_dict_size_log2 ∧
    options.m_dict_size_log2 ≤ LZHAMTEST_MAX_POSSIBLE_DICT_SIZE b

/-- The helper-thread budget of `options` lies between 0 and
`LZHAM_MAX_HELPER_THREADS`. -/
def helper_threads_in_range (options : comp_options) : Prop :=
  0 ≤ options.m_max_helper_threads ∧ options.m_max_helper_threads ≤ LZHAM_MAX_HELPER_THREADS

/-! ## `test_recursive` -/

/-- Modelled from the spec: `LZHAM_TOTAL_COMP_LEVELS` of `lzham.h` (not under src/), 5:
the levels 0 to 4 of the usage text `-m[0-4]`. -/
def LZHAM_TOTAL_COMP_LEVELS : Int := 5

/-- The function `ensure_file_is_writable` (lines 181-195): up to eight attempts to
create the file, `attempt i` telling whether the `i`-th `fopen(pFilename, "wb")`
succeeds. -/
def ensure_file_is_writable (attempt : Nat → Bool) : Bool := (List.range 8).any attempt

/-- What the outside world holds for one enumerated file while `test_recursive` works
on it. -/
structure CorpusFile where
  name : String
  /-- Whether `fopen(src_file, "rb")` succeeds (line 932). -/
  readable : Bool
  /-- The size `_ftelli64` reports (line 939). -/
  src_file_size : Nat
  /-- The attempts of `ensure_file_is_writable(cmp_file)` (line 942). -/
  cmp_writable : Nat → Bool
  /-- What `compress_streaming` returns for the options it is given (line 965). -/
  compress_streaming : comp_options → Bool
  /-- The attempts of `ensure_file_is_writable(decomp_file)` (line 976). -/
  decomp_writable : Nat → Bool
  /-- What `decompress_file` returns (line 982). -/
  decompress_file : comp_options → Bool
  /-- What `compare_files` returns (line 991). -/
  compare_files : Bool
  /-- The size of `cmp_file` when it can be opened after the work (lines 1002-1009). -/
  cmp_file_size : Option Nat

/-- The per-file options drawn by lines 950-962, from the calls `k`, `k + 1`, ...,
`k + 5` of `rand`; the draw of `m_extreme_parsing` is compiled out by
`LZHAMTEST_NO_RANDOM_EXTREME_PARSING`. -/
def randomize (b : Build) (rand : Nat → Int) (k : Nat) (options : comp_options) :
    comp_options :=
  { options with
    m_comp_level := Int.tmod (rand k) LZHAM_TOTAL_COMP_LEVELS
    m_dict_size_log2 := LZHAM_MIN_DICT_SIZE_LOG2 +
      Int.tmod (rand (k + 1)) (LZHAMTEST_MAX_POSSIBLE_DICT_SIZE b - LZHAM_MIN_DICT_SIZE_LOG2 + 1)
    m_max_helper_threads := Int.tmod (rand (k + 2)) (LZHAM_MAX_HELPER_THREADS + 1)
    m_unbuffered_decompression := Int.land (rand (k + 3)) 1 != 0
    m_force_polar_codes := Int.land (rand (k + 4)) 1 != 0
    m_deterministic_parsing := Int.land (rand (k + 5)) 1 != 0 }

/-- The locals of `test_recursive` and what it has done so far. -/
structure CorpusState where
  total_files_compressed : Nat
  total_source_size : Nat
  total_comp_size : Nat
  /-- The number of calls of `rand` made so far. -/
  rands : Nat
  /-- The files reported as skipped. -/
  skipped : List String
  /-- The calls of the pumps, of the comparison and of `remove` made so far. -/
  calls : List Call
  /-- Whether `cmp_file` has been created and not removed. -/
  cmp_file_exists : Bool
  /-- Whether `decomp_file` has been created and not removed. -/
  decomp_file_exists : Bool

/-- What `test_recursive` returns and leaves behind. -/
structure CorpusRun where
  ret : Bool
  /-- The totals printed by lines 1035-1037: files processed, source size, compressed
  size. -/
  report : Option (Nat × Nat × Nat)
  skipped : List String
  calls : List Call
  cmp_file_exists : Bool
  decomp_file_exists : Bool
  rands : Nat
deriving DecidableEq, Repr

/-- A `return false` inside the loop of `test_recursive`. -/
def CorpusState.abort (s : CorpusState) : CorpusRun :=
  { ret := false, report := none, skipped := s.skipped, calls := s.calls,
    cmp_file_exists := s.cmp_file_exists, decomp_file_exists := s.decomp_file_exists,
    rands := s.rands }

/-- The statements of lines 1002-1013: the totals after file `f` has been processed. -/
def CorpusState.count (s : CorpusState) (f : CorpusFile) : CorpusState :=
  { s with
    total_files_compressed := (s.total_files_compressed + 1) % 2 ^ 32
    total_source_size := (s.total_source_size + f.src_file_size) % 2 ^ 64
    total_comp_size := (s.total_comp_size + f.cmp_file_size.getD 0) % 2 ^ 64 }

/-- The loop of `test_recursive` over the files still to do (lines 925-1028), then the
statements after it (lines 1030-1043).  A successful `remove` is taken to delete the
file. -/
def test_files (b : Build) (rand : Nat → Int) (cmp_file decomp_file : String)
    (options : comp_options) : List CorpusFile → CorpusState → CorpusRun
  | [], s =>
    { ret := true
      report := some (s.total_files_compressed, s.total_source_size, s.total_comp_size)
      skipped := s.skipped
      calls := s.calls ++ [Call.remove cmp_file, Call.remove decomp_file]
      cmp_file_exists := false
      decomp_file_exists := false
      rands := s.rands }
  | f :: rest, s =>
    if !f.readable then
      test_files b rand cmp_file decomp_file options rest
        { s with skipped := s.skipped ++ [f.name] }
    else if !ensure_file_is_writable f.cmp_writable then s.abort
    else
      let file_options :=
        if options.m_randomize_params then randomize b rand s.rands options else options
      let s2 : CorpusState :=
        { s with
          cmp_file_exists := true
          rands := if options.m_randomize_params then s.rands + 6 else s.rands
          calls := s.calls ++ [Call.compress_streaming f.name cmp_file file_options] }
      if !f.compress_streaming file_options then s2.abort
      else if file_options.m_verify_compressed_data then
        if !ensure_file_is_writable f.decomp_writable then s2.abort
        else
          let s3 : CorpusState :=
            { s2 with
              decomp_file_exists := true
              calls := s2.calls ++ [Call.decompress_file cmp_file decomp_file file_options] }
          if !f.decompress_file file_options then s3.abort
          else
            let s4 : CorpusState :=
              { s3 with calls := s3.calls ++ [Call.compare_files decomp_file f.name] }
            if !f.compare_files then s4.abort
            else test_files b rand cmp_file decomp_file options rest (s4.count f)
      else test_files b rand cmp_file decomp_file options rest (s2.count f)

/-- The locals of `test_recursive` before its loop (lines 903-923). -/
def CorpusState.initial : CorpusState :=
  { total_files_compressed := 0, total_source_size := 0, total_comp_size := 0, rands := 0,
    skipped := [], calls := [], cmp_file_exists := false, decomp_file_exists := false }

/-- The function `test_recursive` (lines 894-1044) on the list `find_files` gives,
`none` when `find_files` fails; `cmp_file` and `decomp_file` are the names made up from
the tick count, `rand k` is what the `k`-th call of `rand` returns. -/
def test_recursive (b : Build) (rand : Nat → Int) (files : Option (List CorpusFile))
    (cmp_file decomp_file : String) (options : comp_options) : CorpusRun :=
  match files with
  | none => CorpusState.initial.abort
  | some files => test_files b rand cmp_file decomp_file options files CorpusState.initial

/-- A file of `size` bytes on which every step of `test_recursive` succeeds. -/
def CorpusFile.good (name : String) (size : Nat) : CorpusFile :=
  { name := name, readable := true, src_file_size := size, cmp_writable := fun _ => true,
    compress_streaming := fun _ => true, decomp_writable := fun _ => true,
    decompress_file := fun _ => true, compare_files := true, cmp_file_size := some 1 }

/-- A file that cannot be opened for reading. -/
def CorpusFile.unreadable (name : String) : CorpusFile :=
  { CorpusFile.good name 0 with readable := false }

/-- The enumerated files that can be opened for reading. -/
def readable_files (files : List CorpusFile) : List CorpusFile :=
  files.filter fun f => f.readable

/-- The enumerated files that cannot be opened for reading. -/
def unreadable_files (files : List CorpusFile) : List CorpusFile :=
  files.filter fun f => !f.readable

/-- The sum of the sizes of a list of files. -/
def total_size (files : List CorpusFile) : Nat := (files.map fun f => f.src_file_size).sum

/-- Every step `test_recursive` takes on file `f` succeeds: the temporary files can be
created, and compression, decompression and comparison succeed whatever the options. -/
def CorpusFile.succeeds (f : CorpusFile) : Prop :=
  ensure_file_is_writable f.cmp_writable = true ∧ (∀ o, f.compress_streaming o = true) ∧
  ensure_file_is_writable f.decomp_writable = true ∧ (∀ o, f.decompress_file o = true) ∧
  f.compare_files = true

/-- The temporary files are left as the pumps made them: no call of `remove` is among
`calls`, the compressed file exists once a compression into it has been started, and
the decompressed file exists once a decompression into it has been started. -/
def TempsKept (cmp_file decomp_file : String) (calls : List Call)
    (cmp_file_exists decomp_file_exists : Bool) : Prop :=
  (∀ name, Call.remove name ∉ calls) ∧
  ((∃ src o, Call.compress_streaming src cmp_file o ∈ calls) → cmp_file_exists = true) ∧
  ((∃ o, Call.decompress_file cmp_file decomp_file o ∈ calls) → decomp_file_exists = true)

/-- A file whose compression fails. -/
def CorpusFile.incompressible (name : String) (size : Nat) : CorpusFile :=
  { CorpusFile.good name size with compress_streaming := fun _ => false }

/-! ## `compare_files` -/

/-- The value of a file length returned by `_ftelli64` as an `int64`. -/
def toInt64 (n : Nat) : Int := ((n + 2 ^ 63) % 2 ^ 64 : Nat) - 2 ^ 63

/-- The conversion `static_cast<uint>` of an `int64` value. -/
def uintOfInt64 (x : Int) : Nat := (x % 2 ^ 32).toNat

/-- The function `open_file_with_retries` (lines 167-179): up to eight attempts to open
the file, `attempt i` telling whether the `i`-th `fopen` succeeds; the result is the
content of the file opened. -/
def open_file_with_retries (attempt : Nat → Bool) (content : List Byte) :
    Option (List Byte) :=
  if (List.range 8).any attempt then some content else none

/-- The outside world of one call of `compare_files`. -/
structure CompareEnv where
  /-- The content of the file at `pFilename1`. -/
  content1 : List Byte
  /-- The content of the file at `pFilename2`. -/
  content2 : List Byte
  /-- Whether the `i`-th attempt to open the first file succeeds. -/
  open1 : Nat → Bool
  /-- Whether the `i`-th attempt to open the second file succeeds. -/
  open2 : Nat → Bool
  /-- Whether the `k`-th `fread` on the first file reads its item when the bytes are
  there. -/
  fread1_ok : Nat → Bool
  /-- Whether the `k`-th `fread` on the second file reads its item when the bytes are
  there. -/
  fread2_ok : Nat → Bool

/-- The messages of `compare_files`. -/
inductive CompareErr where
  | failed_opening_1
  | failed_opening_2
  | not_the_same_size
  | failed_reading_1
  | failed_reading_2
  | comparison_failed
deriving DecidableEq, Repr

/-- What a call of `compare_files` returns and does. -/
structure CompareRun where
  /-- The value returned; `none` while the loop is still running. -/
  ret : Option Bool
  error : Option CompareErr
  /-- The number of `fread` calls made. -/
  reads : Nat
deriving DecidableEq, Repr

/-- The locals of the loop of `compare_files`. -/
structure CompareState where
  /-- The bytes of the first file from the file position on. -/
  rest1 : List Byte
  /-- The bytes of the second file from the file position on. -/
  rest2 : List Byte
  bytes_remaining : Int
  /-- The number of iterations done. -/
  chunks : Nat

/-- The call `fread(buf, bytes_to_read, 1, pFile) != 1` negated: the one item is read
when it is not empty, the bytes are there and the read does not fail. -/
def fread_item (ok : Bool) (bytes_to_read : Nat) (rest : List Byte) : Bool :=
  decide (bytes_to_read ≠ 0) && decide (bytes_to_read ≤ rest.length) && ok

/-- The loop `while (bytes_remaining)` of `compare_files` (lines 729-757) with buffers
of `cBufSize` bytes, run for at most `fuel` iterations. -/
def compare_loop (env : CompareEnv) (cBufSize : Nat) : Nat → CompareState → CompareRun
  | fuel, s =>
    if s.bytes_remaining = 0 then
      { ret := some true, error := none, reads := 2 * s.chunks }
    else
      match fuel with
      | 0 => { ret := none, error := none, reads := 2 * s.chunks }
      | fuel + 1 =>
        let bytes_to_read := uintOfInt64 (min (cBufSize : Int) s.bytes_remaining)
        if !fread_item (env.fread1_ok s.chunks) bytes_to_read s.rest1 then
          { ret := some false, error := some CompareErr.failed_reading_1,
            reads := 2 * s.chunks + 1 }
        else if !fread_item (env.fread2_ok s.chunks) bytes_to_read s.rest2 then
          { ret := some false, error := some CompareErr.failed_reading_2,
            reads := 2 * s.chunks + 2 }
        else if s.rest1.take bytes_to_read ≠ s.rest2.take bytes_to_read then
          { ret := some false, error := some CompareErr.comparison_failed,
            reads := 2 * s.chunks + 2 }
        else
          compare_loop env cBufSize fuel
            { rest1 := s.rest1.drop bytes_to_read
              rest2 := s.rest2.drop bytes_to_read
              bytes_remaining := s.bytes_remaining - bytes_to_read
              chunks := s.chunks + 1 }

/-- The function `compare_files` (lines 692-764), its loop run for at most `fuel`
iterations. -/
def compare_files (env : CompareEnv) (fuel : Nat) : CompareRun :=
  match open_file_with_retries env.open1 env.content1 with
  | none => { ret := some false, error := some CompareErr.failed_opening_1, reads := 0 }
  | some file1 =>
    match open_file_with_retries env.open2 env.content2 with
    | none => { ret := some false, error := some CompareErr.failed_opening_2, reads := 0 }
    | some file2 =>
      let fileSize1 := toInt64 file1.length
      let fileSize2 := toInt64 file2.length
      if fileSize1 ≠ fileSize2 then
        { ret := some false, error := some CompareErr.not_the_same_size, reads := 0 }
      else
        compare_loop env (1024 * 1024) fuel
          { rest1 := file1, rest2 := file2, bytes_remaining := fileSize1, chunks := 0 }

/-- Two files that open at the first attempt and whose reads all succeed. -/
def CompareEnv.ideal (content1 content2 : List Byte) : CompareEnv :=
  { content1 := content1, content2 := content2, open1 := fun _ => true,
    open2 := fun _ => true, fread1_ok := fun _ => true, fread2_ok := fun _ => true }

/-- Both files of `env` can be opened and every read of them succeeds. -/
def CompareEnv.readable (env : CompareEnv) : Prop :=
  (List.range 8).any env.open1 = true ∧ (List.range 8).any env.open2 = true ∧
  (∀ k, env.fread1_ok k = true) ∧ (∀ k, env.fread2_ok k = true)

/-! ## `simple_test` -/

/-- The two memory-to-memory calls of `ilzham` used by `simple_test`.  Each is given
the parameters, the capacity of the destination buffer and the source bytes, and hands
back its status, the bytes it stored (their number is `*pDst_len` on return) and the
value it stored at `pAdler32`.  The functions behind them are not under src/, so they
are arbitrary here. -/
structure MemoryCodec where
  lzham_compress_memory : lzham_compress_params → Nat → List Byte → Status × List Byte × Nat
  lzham_decompress_memory :
    lzham_decompress_params → Nat → List Byte → Status × List Byte × Nat

/-- The bytes of a C string literal of ASCII characters. -/
def c_string (s : String) : List Byte := s.data.map fun c => toByte (chr c)

/-- The text compressed by `simple_test` (line 213). -/
def simple_test_text : List Byte :=
  c_string
    "This is a test.This is a test.This is a test.1234567This is a test.This is a test.123456"

/-- The function `simple_test` (lines 197-250).  The `memcmp` over the first
`uncomp_len` bytes of `decomp_buf` is reached only when `decomp_size` equals
`uncomp_len`, so it reads bytes the decompressor stored. -/
def simple_test (codec : MemoryCodec) (options : comp_options) : Int :=
  let comp_params : lzham_compress_params :=
    { m_dict_size_log2 := options.m_dict_size_log2, m_max_helper_threads := 1,
      m_level := options.m_comp_level, m_compress_flags := [] }
  let p := simple_test_text
  let uncomp_len := p.length
  let comp := codec.lzham_compress_memory comp_params 1024 p
  if comp.1 ≠ Status.SUCCESS then EXIT_FAILURE
  else
    let decomp_params : lzham_decompress_params :=
      { m_dict_size_log2 := options.m_dict_size_log2
        m_compute_adler32 := options.m_compute_adler32_during_decomp
        m_output_unbuffered := false }
    let decomp := codec.lzham_decompress_memory decomp_params 1024 comp.2.1
    if decomp.1 ≠ Status.SUCCESS then EXIT_FAILURE
    else if comp.2.2 ≠ decomp.2.2 ∨ decomp.2.1.length ≠ uncomp_len ∨
        decomp.2.1.take uncomp_len ≠ p then EXIT_FAILURE
    else EXIT_SUCCESS

/-! ## The input cursor -/

/-- The number of bytes the codec has reported consumed in the calls of a trace. -/
def consumed : List Event → Nat
  | [] => 0
  | Event.step _ _ _ n _ :: t => n + consumed t
  | _ :: t => consumed t

/-- The input cursor as the calls of a trace determine it, starting from `ofs`: every
`fread` sets it back to 0, every call of the codec advances it by the number of bytes
the codec reports consumed. -/
def cursor_from : Nat → List Event → Nat
  | ofs, [] => ofs
  | _, Event.fread _ _ :: t => cursor_from 0 t
  | ofs, Event.step _ _ _ n _ :: t => cursor_from (ofs + n) t
  | ofs, _ :: t => cursor_from ofs t

/-- The size of the input chunk as the calls of a trace determine it, starting from
`size`: the number of bytes asked of the last `fread`. -/
def chunk_from : Nat → List Event → Nat
  | size, [] => size
  | _, Event.fread requested _ :: t => chunk_from requested t
  | size, _ :: t => chunk_from size t

/-- The cursor discipline along a trace that starts with a chunk of `size` bytes and the
cursor at `ofs`: every `fread` comes when the cursor equals the chunk size, every call
of the codec is offered the bytes between the cursor and the end of the chunk, and the
cursor advanced by what the call reports consumed does not pass the end of the
chunk. -/
def CursorOk : Nat → Nat → List Event → Prop
  | _, _, [] => True
  | size, ofs, Event.fread requested _ :: t => ofs = size ∧ CursorOk requested 0 t
  | size, ofs, Event.step _ call _ n _ :: t =>
    call.num_in_bytes = size - ofs ∧ ofs + n ≤ size ∧ CursorOk size (ofs + n) t
  | size, ofs, _ :: t => CursorOk size ofs t

/-- The feeding discipline along a trace that starts with `r` bytes of `payload` read
and `c` of them consumed: every `fread` comes when all the bytes read are consumed,
and every call of the codec is offered exactly the bytes read and not yet consumed, in
the order of `payload`, and reports consuming no more than those. -/
def Feeds (payload : List Byte) : Nat → Nat → List Event → Prop
  | _, _, [] => True
  | r, c, Event.fread _ got :: t => c = r ∧ Feeds payload (r + got) c t
  | r, c, Event.step _ call _ n _ :: t =>
    call.in_bytes = (payload.take r).drop c ∧ call.num_in_bytes = r - c ∧ c + n ≤ r ∧
      r ≤ payload.length ∧ Feeds payload r (c + n) t
  | r, c, _ :: t => Feeds payload r c t

/-- The codec never reports consuming more bytes than it was offered. -/
def Codec.within_offer {π σ : Type} (c : Codec π σ) : Prop :=
  ∀ st call, (c.step st call).num_in_bytes ≤ call.num_in_bytes

/-- The invariant of both loops for the source `payload` of the loop. -/
def FeedInv {σ : Type} (payload : List Byte) (s : Session σ) : Prop :=
  Feeds payload 0 0 s.trace ∧ CursorOk 0 0 s.trace ∧
  s.in_file_buf_ofs ≤ s.in_file_buf_size ∧ s.in_file_buf_size < 2 ^ 32 ∧
  s.in_file_buf.drop s.in_file_buf_ofs =
    (payload.take (bytes_read s.trace)).drop (consumed s.trace) ∧
  payload.drop (bytes_read s.trace) = s.file ∧
  bytes_read s.trace ≤ payload.length ∧
  bytes_read s.trace = consumed s.trace + (s.in_file_buf_size - s.in_file_buf_ofs) ∧
  s.src_bytes_left = s.file.length ∧
  s.in_file_buf_ofs = cursor_from 0 s.trace ∧ s.in_file_buf_size = chunk_from 0 s.trace

/-- What the invariant gives for a run: both disciplines hold along its trace, and while
the loop is running the cursor is within the chunk, cursor and chunk size are those the
trace determines, and the bytes not yet read, the bytes of the chunk past the cursor
and the bytes consumed make up the source. -/
def FeedPost (payload : List Byte) (r : Run) : Prop :=
  Feeds payload 0 0 r.trace ∧ CursorOk 0 0 r.trace ∧
  (r.ret = none →
    r.in_file_buf_ofs ≤ r.in_file_buf_size ∧
    r.in_file_buf_ofs = cursor_from 0 r.trace ∧
    r.in_file_buf_size = chunk_from 0 r.trace ∧
    r.src_bytes_left + bytes_read r.trace = payload.length ∧
    r.src_bytes_left + (r.in_file_buf_size - r.in_file_buf_ofs) + consumed r.trace =
      payload.length)

/-- A codec that consumes all it is offered, puts out nothing, and succeeds on the call
that carries the last-chunk flag. -/
def greedy_codec {π : Type} : Codec π Nat :=
  { init := fun _ => some 0
    step := fun k call =>
      { state := k + 1
        status := if call.no_more_input_bytes_flag then Status.SUCCESS
          else Status.NEEDS_MORE_INPUT
        num_in_bytes := call.num_in_bytes
        out_bytes := [] }
    deinit := fun _ => 1 }

/-- A codec that takes one byte per call and puts it out unchanged; it succeeds once it
has been offered at most one byte together with the flag. -/
def copy_codec {π : Type} : Codec π Nat :=
  { init := fun _ => some 0
    step := fun k call =>
      { state := k + 1
        status := if call.no_more_input_bytes_flag && decide (call.num_in_bytes ≤ 1) then
          Status.SUCCESS else Status.NOT_FINISHED
        num_in_bytes := min 1 call.num_in_bytes
        out_bytes := call.in_bytes.take 1 }
    deinit := fun _ => 1 }

/-- The letter of an option token: its second character, lowered as the loop of
`main_internal` lowers it, when the token has one. -/
def option_letter (str : String) : Option Char :=
  match str.data with
  | _ :: c :: _ => some c.toLower
  | _ => none

/-- The text of an option token after its letter, which the loop hands to `atoi`. -/
def option_arg (str : String) : String := String.mk (str.data.drop 2)

/-- The value that the option tokens at the head of a command line, those ahead of the
first token that is not an option, give to the option `letter`: what `atoi` reads in
the last of them with that letter, and `start` when there is none. -/
def option_value (atoi : String → Int) (letter : Char) : Int → List String → Int
  | start, [] => start
  | start, str :: rest =>
    if is_option str then
      option_value atoi letter
        (if option_letter str = some letter then atoi (option_arg str) else start) rest
    else start

/-- Whether an option with the letter `letter` stands among the option tokens at the head
of a command line, that is ahead of the first token that is not an option. -/
def option_given (letter : Char) : List String → Bool
  | [] => false
  | str :: rest =>
    is_option str && (option_letter str == some letter || option_given letter rest)

/-- A token `-d`, `-m` or `-t` (in either case of the letter) whose value as read by
`atoi` lies inside the range of the option, or a token of one of the other options the
loop of `main_internal` knows. -/
def accepted_option (b : Build) (atoi : String → Int) (str : String) : Prop :=
  ∃ c arg, str.data = '-' :: c :: arg ∧
    ((c.toLower = 'd' ∧ 15 ≤ atoi (String.mk arg) ∧
        atoi (String.mk arg) ≤ LZHAMTEST_MAX_POSSIBLE_DICT_SIZE b) ∨
     (c.toLower = 'm' ∧ 0 ≤ atoi (String.mk arg) ∧ atoi (String.mk arg) ≤ 4) ∨
     (c.toLower = 't' ∧ 0 ≤ atoi (String.mk arg) ∧ atoi (String.mk arg) ≤ 16) ∨
     c.toLower ∈ ['u', 'c', 'v', 'r', 'p', 'x', 'e', 's'])

/-! # Properties -/

/-! ## Machine arithmetic -/

theorem toByte_val_natCast (x : Nat) : (toByte (x : Int)).val = x % 256 := by
  simp only [toByte]
  omega

theorem toByte_val_int (e : Int) (h0 : 0 ≤ e) (h1 : e < 256) : ((toByte e).val : Int) = e := by
  simp only [toByte]
  omega

theorem toU64_byte (b : Byte) : toU64 (b.val : Int) = b.val := by
  have := b.isLt
  simp only [toU64]
  omega

theorem or_shifted_byte (acc a k : Nat) (hacc : acc < 2 ^ k) :
    acc ||| a * 2 ^ k = acc + a * 2 ^ k := by
  rw [Nat.or_comm, Nat.mul_comm, ← Nat.mul_add_lt_is_or hacc, Nat.add_comm]

theorem or_chain_eq (a0 a1 a2 a3 a4 a5 a6 a7 : Nat) (h0 : a0 < 256) (h1 : a1 < 256)
    (h2 : a2 < 256) (h3 : a3 < 256) (h4 : a4 < 256) (h5 : a5 < 256) (h6 : a6 < 256)
    (h7 : a7 < 256) :
    (a0 * 2 ^ (0 * 8) % 2 ^ 64 ||| a1 * 2 ^ (1 * 8) % 2 ^ 64 ||| a2 * 2 ^ (2 * 8) % 2 ^ 64 |||
      a3 * 2 ^ (3 * 8) % 2 ^ 64 ||| a4 * 2 ^ (4 * 8) % 2 ^ 64 ||| a5 * 2 ^ (5 * 8) % 2 ^ 64 |||
      a6 * 2 ^ (6 * 8) % 2 ^ 64 ||| a7 * 2 ^ (7 * 8) % 2 ^ 64) =
    a0 + 256 * (a1 + 256 * (a2 + 256 * (a3 + 256 * (a4 + 256 * (a5 + 256 * (a6 +
      256 * (a7 + 256 * 0))))))) := by
  have m0 : a0 * 2 ^ (0 * 8) % 2 ^ 64 = a0 := by omega
  have m1 : a1 * 2 ^ (1 * 8) % 2 ^ 64 = a1 * 2 ^ 8 := by omega
  have m2 : a2 * 2 ^ (2 * 8) % 2 ^ 64 = a2 * 2 ^ 16 := by omega
  have m3 : a3 * 2 ^ (3 * 8) % 2 ^ 64 = a3 * 2 ^ 24 := by omega
  have m4 : a4 * 2 ^ (4 * 8) % 2 ^ 64 = a4 * 2 ^ 32 := by omega
  have m5 : a5 * 2 ^ (5 * 8) % 2 ^ 64 = a5 * 2 ^ 40 := by omega
  have m6 : a6 * 2 ^ (6 * 8) % 2 ^ 64 = a6 * 2 ^ 48 := by omega
  have m7 : a7 * 2 ^ (7 * 8) % 2 ^ 64 = a7 * 2 ^ 56 := by omega
  rw [m0, m1, m2, m3, m4, m5, m6, m7]
  rw [or_shifted_byte a0 a1 8 (by omega), or_shifted_byte _ a2 16 (by omega),
    or_shifted_byte _ a3 24 (by omega), or_shifted_byte _ a4 32 (by omega),
    or_shifted_byte _ a5 40 (by omega), or_shifted_byte _ a6 48 (by omega),
    or_shifted_byte _ a7 56 (by omega)]
  omega

/-- The loop of lines 507-511 on a file with at least eight bytes left reads the
little-endian value of the next eight bytes and stops after them. -/
theorem read_orig_file_size_eq (b0 b1 b2 b3 b4 b5 b6 b7 : Byte) (rest : List Byte) :
    read_orig_file_size (b0 :: b1 :: b2 :: b3 :: b4 :: b5 :: b6 :: b7 :: rest) =
      (le_value [b0, b1, b2, b3, b4, b5, b6, b7], rest,
        [Event.fgetc b0.val, Event.fgetc b1.val, Event.fgetc b2.val, Event.fgetc b3.val,
          Event.fgetc b4.val, Event.fgetc b5.val, Event.fgetc b6.val, Event.fgetc b7.val]) := by
  have h0 := b0.isLt
  have h1 := b1.isLt
  have h2 := b2.isLt
  have h3 := b3.isLt
  have h4 := b4.isLt
  have h5 := b5.isLt
  have h6 := b6.isLt
  have h7 := b7.isLt
  have hr : List.range 8 = [0, 1, 2, 3, 4, 5, 6, 7] := by decide
  simp only [read_orig_file_size, hr, List.foldl_cons, List.foldl_nil, read_size_byte, fgetc,
    toU64_byte, le_value, List.nil_append, List.cons_append, Prod.mk.injEq, and_true]
  simp only [Nat.shiftLeft_eq]
  rw [Nat.zero_or]
  exact or_chain_eq _ _ _ _ _ _ _ _ h0 h1 h2 h3 h4 h5 h6 h7

/-! ## The header as `decompress_file` reads it -/

theorem chr_values : chr 'L' = 76 ∧ chr 'Z' = 90 ∧ chr 'H' = 72 ∧ chr '0' = 48 := by
  decide

/-- A list with at least thirteen elements starts with thirteen elements. -/
theorem exists_header_bytes (file : List Byte) (h : 13 ≤ file.length) :
    ∃ b0 b1 b2 b3 b4 b5 b6 b7 b8 b9 b10 b11 b12 rest,
      file = b0 :: b1 :: b2 :: b3 :: b4 :: b5 :: b6 :: b7 :: b8 :: b9 :: b10 :: b11 :: b12 ::
        rest := by
  match file, h with
  | b0 :: b1 :: b2 :: b3 :: b4 :: b5 :: b6 :: b7 :: b8 :: b9 :: b10 :: b11 :: b12 :: rest, _ =>
    exact ⟨b0, b1, b2, b3, b4, b5, b6, b7, b8, b9, b10, b11, b12, rest, rfl⟩

/-- The header part of `decompress_file` on a file of at least fourteen bytes, with the
reads resolved. -/
theorem decompress_header_cons (env : Env) (b0 b1 b2 b3 b4 b5 b6 b7 b8 b9 b10 b11 b12 : Byte)
    (rest : List Byte)
    (hsrc : env.src = some
      (b0 :: b1 :: b2 :: b3 :: b4 :: b5 :: b6 :: b7 :: b8 :: b9 :: b10 :: b11 :: b12 :: rest))
    (hlen : 14 ≤ (rest.length + 13) % 2 ^ 64) :
    decompress_header env =
      if ((b0.val : Int) != 76 || (b1.val : Int) != 90 || (b2.val : Int) != 72 ||
          (b3.val : Int) != 48) then
        .error (Run.early false [] (header_prefix_trace b0 b1 b2 b3 b4 ++
          [Event.print_error Err.invalid_header, Event.fclose FileId.pInFile]))
      else if (decide ((b4.val : Int) < 15) || decide ((b4.val : Int) > 29)) then
        .error (Run.early false [] (header_prefix_trace b0 b1 b2 b3 b4 ++
          [Event.print_error Err.invalid_header, Event.fclose FileId.pInFile]))
      else if !env.dst_ok then
        .error (Run.early false [] (header_prefix_trace b0 b1 b2 b3 b4 ++
          [Event.fopen FileId.pOutFile false, Event.print_error Err.unable_to_create,
            Event.fclose FileId.pInFile]))
      else
        .ok { src_file_size := (rest.length + 13) % 2 ^ 64
              dict_size := b4.val
              orig_file_size := le_value [b5, b6, b7, b8, b9, b10, b11, b12]
              total_header_bytes := 13
              file := rest
              trace := header_prefix_trace b0 b1 b2 b3 b4 ++
                [Event.fopen FileId.pOutFile true] ++
                [Event.fgetc b5.val, Event.fgetc b6.val, Event.fgetc b7.val,
                  Event.fgetc b8.val, Event.fgetc b9.val, Event.fgetc b10.val,
                  Event.fgetc b11.val, Event.fgetc b12.val] } := by
  have hlen2 : ¬ (rest.length + 13) % 2 ^ 64 < 5 + 9 := by omega
  obtain ⟨cL, cZ, cH, c0⟩ := chr_values
  simp only [decompress_header, hsrc, List.length_cons, hlen2, if_false, fgetc,
    read_orig_file_size_eq, cL, cZ, cH, c0, LZHAM_MIN_DICT_SIZE_LOG2,
    LZHAM_MAX_DICT_SIZE_LOG2_X64, header_prefix_trace]
  have e1 : rest.length + 1 + 1 + 1 + 1 + 1 + 1 + 1 + 1 + 1 + 1 + 1 + 1 + 1 =
      rest.length + 13 := by omega
  have e2 : rest.length + 13 - rest.length = 13 := by omega
  simp only [e1, e2]

theorem and_255 (x : Nat) : x &&& 0xFF = x % 256 :=
  Nat.and_pow_two_sub_one_eq_mod x 8

/-- The eight length bytes of `write_header` carry the little-endian digits of the
length. -/
theorem write_header_eq (e : Int) (n : Nat) :
    write_header e n =
      [toByte 76, toByte 90, toByte 72, toByte 48, toByte e,
        toByte ((n % 256 : Nat) : Int), toByte ((n / 2 ^ 8 % 256 : Nat) : Int),
        toByte ((n / 2 ^ 16 % 256 : Nat) : Int), toByte ((n / 2 ^ 24 % 256 : Nat) : Int),
        toByte ((n / 2 ^ 32 % 256 : Nat) : Int), toByte ((n / 2 ^ 40 % 256 : Nat) : Int),
        toByte ((n / 2 ^ 48 % 256 : Nat) : Int), toByte ((n / 2 ^ 56 % 256 : Nat) : Int)] := by
  have hr : List.range 8 = [0, 1, 2, 3, 4, 5, 6, 7] := by decide
  obtain ⟨cL, cZ, cH, c0⟩ := chr_values
  simp only [write_header, hr, cL, cZ, cH, c0, List.map_cons, List.map_nil, and_255,
    Nat.shiftRight_eq_div_pow, List.cons_append, List.nil_append]
  simp

/-- Claim C1. Header round trip: from the thirteen bytes `compress_streaming` writes for a
dictionary-size exponent `e` in the valid range and a length `n < 2^64`, followed by
at least one payload byte, `decompress_file` decodes exactly `(e, n)`, accepts the
header, is left with the payload and goes on with the decoded values. -/
theorem header_round_trip (b : Build) (env : Env) (e : Int) (n : Nat) (p : Byte)
    (ps : List Byte) (he1 : LZHAM_MIN_DICT_SIZE_LOG2 ≤ e)
    (he2 : e ≤ LZHAMTEST_MAX_POSSIBLE_DICT_SIZE b) (hn : n < 2 ^ 64)
    (hsrc : env.src = some (write_header e n ++ p :: ps))
    (hsize : (write_header e n ++ p :: ps).length < 2 ^ 64) (hdst : env.dst_ok = true) :
    ∃ h, decompress_header env = .ok h ∧ h.dict_size = e ∧ h.orig_file_size = n ∧
      h.total_header_bytes = 13 ∧ h.file = p :: ps ∧
      ∀ (σ : Type) (c : Codec lzham_decompress_params σ) (options : comp_options)
        (fuel : Nat),
        decompress_file b env c options fuel = decompress_from b env c options h fuel := by
  have hmax : LZHAMTEST_MAX_POSSIBLE_DICT_SIZE b ≤ 29 := by
    unfold LZHAMTEST_MAX_POSSIBLE_DICT_SIZE LZHAM_MAX_DICT_SIZE_LOG2_X64
      LZHAM_MAX_DICT_SIZE_LOG2_X86
    split <;> decide
  have hmin : (15 : Int) ≤ e := he1
  have hb : ((toByte e).val : Int) = e := toByte_val_int e (by omega) (by omega)
  rw [write_header_eq] at hsrc hsize
  simp only [List.cons_append, List.nil_append, List.length_cons] at hsrc hsize
  rw [decompress_header_cons env _ _ _ _ _ _ _ _ _ _ _ _ _ _ hsrc
    (by simp only [List.length_cons]; omega)]
  have t0 : ((toByte 76).val : Int) = 76 := by decide
  have t1 : ((toByte 90).val : Int) = 90 := by decide
  have t2 : ((toByte 72).val : Int) = 72 := by decide
  have t3 : ((toByte 48).val : Int) = 48 := by decide
  have c1 : ¬ ((toByte e).val : Int) < 15 := by omega
  have c2 : ¬ ((toByte e).val : Int) > 29 := by omega
  simp only [t0, t1, t2, t3, bne_self_eq_false, Bool.or_self, Bool.false_eq_true, if_false,
    c1, c2, decide_False, hdst, Bool.not_true]
  refine ⟨_, rfl, hb, ?_, rfl, rfl, ?_⟩
  · simp only [le_value, toByte_val_natCast]
    omega
  · intro σ c options fuel
    rw [decompress_file, decompress_header_cons env _ _ _ _ _ _ _ _ _ _ _ _ _ _ hsrc
      (by simp only [List.length_cons]; omega)]
    simp only [t0, t1, t2, t3, bne_self_eq_false, Bool.or_self, Bool.false_eq_true, if_false,
      c1, c2, decide_False, hdst, Bool.not_true]

/-! ## Reasoning about the loop -/

/-- Invariant rule for the loop: if every iteration started in a session satisfying
`Inv` hands over a session satisfying `Inv` or leaves with a run satisfying `Post`,
then the run satisfies `Post` whatever the number of iterations. -/
theorem pump_induction {σ : Type} (body : Session σ → Session σ ⊕ Run)
    (Inv : Session σ → Prop) (Post : Run → Prop)
    (hsnap : ∀ s, Inv s → Post (s.exit none []))
    (hbody : ∀ s, Inv s → Sum.elim Inv Post (body s)) :
    ∀ fuel s, Inv s → Post (pump body fuel s) := by
  intro fuel
  induction fuel with
  | zero => intro s hs; exact hsnap s hs
  | succ k ih =>
    intro s hs
    unfold pump
    have hb := hbody s hs
    cases hbs : body s with
    | inl s1 =>
      rw [hbs] at hb
      exact ih s1 hb
    | inr r =>
      rw [hbs] at hb
      exact hb

@[simp] theorem codec_output_append (t u : List Event) :
    codec_output (t ++ u) = codec_output t ++ codec_output u := by
  induction t with
  | nil => rfl
  | cons e t ih => simp [codec_output, ih]

/-- Effect of a refill that lets the iteration go on: either the cursor is inside the
chunk and nothing happens, or a complete chunk is read. -/
theorem refill_inl {σ : Type} (env : Env) (n : Nat) (onFail : List Event) (s s1 : Session σ)
    (h : refill env n onFail s = .inl s1) :
    (s.in_file_buf_ofs ≠ s.in_file_buf_size ∧ s1 = s) ∨
    (s.in_file_buf_ofs = s.in_file_buf_size ∧
      ∃ k, k = toUint (min n s.src_bytes_left) ∧ k ≤ s.file.length ∧ s1 = { s with
        in_file_buf_size := k
        in_file_buf := s.file.take k
        file := s.file.drop k
        reads := s.reads + 1
        trace := s.trace ++ [Event.fread k k]
        src_bytes_left := s.src_bytes_left - k
        in_file_buf_ofs := 0 }) := by
  unfold refill at h
  split at h
  · rename_i hofs
    simp only [] at h
    split at h
    · simp at h
    · rename_i hne
      simp only [ne_eq, Decidable.not_not] at hne
      simp only [Sum.inl.injEq] at h
      right
      refine ⟨hofs, toUint (min n s.src_bytes_left), rfl, ?_, ?_⟩
      · rw [← hne]
        exact le_trans (min_le_right _ _) (min_le_right _ _)
      · rw [← h, hne]
  · rename_i hofs
    left
    simp only [Sum.inl.injEq] at h
    exact ⟨hofs, h.symm⟩

/-- Effect of a refill whose read comes back short. -/
theorem refill_inr {σ : Type} (env : Env) (n : Nat) (onFail : List Event) (s : Session σ)
    (r : Run) (h : refill env n onFail s = .inr r) :
    ∃ k got, got ≠ k ∧ r =
      { ret := some false, dst := s.out, trace := s.trace ++ [Event.fread k got] ++ onFail,
        src_bytes_left := s.src_bytes_left, dst_bytes_left := s.dst_bytes_left,
        in_file_buf_size := k, in_file_buf_ofs := s.in_file_buf_ofs } := by
  unfold refill at h
  split at h
  · simp only [] at h
    split at h
    · rename_i hne
      simp only [Sum.inr.injEq] at h
      exact ⟨_, _, hne, by rw [← h]; rfl⟩
    · simp at h
  · simp at h

@[simp] theorem advance_state {σ : Type} (s : Session σ) (n : Nat) :
    (advance s n).state = s.state := by
  unfold advance; split <;> rfl

@[simp] theorem advance_file {σ : Type} (s : Session σ) (n : Nat) :
    (advance s n).file = s.file := by
  unfold advance; split <;> rfl

@[simp] theorem advance_out {σ : Type} (s : Session σ) (n : Nat) :
    (advance s n).out = s.out := by
  unfold advance; split <;> rfl

@[simp] theorem advance_src_bytes_left {σ : Type} (s : Session σ) (n : Nat) :
    (advance s n).src_bytes_left = s.src_bytes_left := by
  unfold advance; split <;> rfl

@[simp] theorem advance_in_file_buf {σ : Type} (s : Session σ) (n : Nat) :
    (advance s n).in_file_buf = s.in_file_buf := by
  unfold advance; split <;> rfl

@[simp] theorem advance_in_file_buf_size {σ : Type} (s : Session σ) (n : Nat) :
    (advance s n).in_file_buf_size = s.in_file_buf_size := by
  unfold advance; split <;> rfl

@[simp] theorem advance_dst_bytes_left {σ : Type} (s : Session σ) (n : Nat) :
    (advance s n).dst_bytes_left = s.dst_bytes_left := by
  unfold advance; split <;> rfl

@[simp] theorem advance_total_output_bytes {σ : Type} (s : Session σ) (n : Nat) :
    (advance s n).total_output_bytes = s.total_output_bytes := by
  unfold advance; split <;> rfl

@[simp] theorem advance_reads {σ : Type} (s : Session σ) (n : Nat) :
    (advance s n).reads = s.reads := by
  unfold advance; split <;> rfl

@[simp] theorem advance_writes {σ : Type} (s : Session σ) (n : Nat) :
    (advance s n).writes = s.writes := by
  unfold advance; split <;> rfl

@[simp] theorem advance_trace {σ : Type} (s : Session σ) (n : Nat) :
    (advance s n).trace = s.trace := by
  unfold advance; split <;> rfl

@[simp] theorem fwrite_state {σ : Type} (env : Env) (s : Session σ) (o : List Byte) :
    (fwrite env s o).1.state = s.state := rfl

@[simp] theorem fwrite_file {σ : Type} (env : Env) (s : Session σ) (o : List Byte) :
    (fwrite env s o).1.file = s.file := rfl

@[simp] theorem fwrite_src_bytes_left {σ : Type} (env : Env) (s : Session σ) (o : List Byte) :
    (fwrite env s o).1.src_bytes_left = s.src_bytes_left := rfl

@[simp] theorem fwrite_in_file_buf {σ : Type} (env : Env) (s : Session σ) (o : List Byte) :
    (fwrite env s o).1.in_file_buf = s.in_file_buf := rfl

@[simp] theorem fwrite_in_file_buf_size {σ : Type} (env : Env) (s : Session σ) (o : List Byte) :
    (fwrite env s o).1.in_file_buf_size = s.in_file_buf_size := rfl

@[simp] theorem fwrite_in_file_buf_ofs {σ : Type} (env : Env) (s : Session σ) (o : List Byte) :
    (fwrite env s o).1.in_file_buf_ofs = s.in_file_buf_ofs := rfl

@[simp] theorem fwrite_dst_bytes_left {σ : Type} (env : Env) (s : Session σ) (o : List Byte) :
    (fwrite env s o).1.dst_bytes_left = s.dst_bytes_left := rfl

@[simp] theorem fwrite_total_output_bytes {σ : Type} (env : Env) (s : Session σ) (o : List Byte) :
    (fwrite env s o).1.total_output_bytes = s.total_output_bytes := rfl

@[simp] theorem fwrite_reads {σ : Type} (env : Env) (s : Session σ) (o : List Byte) :
    (fwrite env s o).1.reads = s.reads := rfl

@[simp] theorem fwrite_out {σ : Type} (env : Env) (s : Session σ) (o : List Byte) :
    (fwrite env s o).1.out = s.out ++ o.take (fwrite env s o).2 := rfl

@[simp] theorem fwrite_writes {σ : Type} (env : Env) (s : Session σ) (o : List Byte) :
    (fwrite env s o).1.writes = s.writes + 1 := rfl

@[simp] theorem fwrite_trace {σ : Type} (env : Env) (s : Session σ) (o : List Byte) :
    (fwrite env s o).1.trace = s.trace ++ [Event.fwrite (toUint o.length) (fwrite env s o).2] :=
  rfl

theorem fwrite_count_le {σ : Type} (env : Env) (s : Session σ) (o : List Byte) :
    (fwrite env s o).2 ≤ o.length := by
  simp only [fwrite, toUint]
  exact le_trans (min_le_left _ _) (Nat.mod_le _ _)

@[simp] theorem stepped_file {σ : Type} (s : Session σ) (d : Dir) (call : StepCall)
    (res : StepResult σ) : (s.stepped d call res).file = s.file := by
  simp [Session.stepped]

@[simp] theorem stepped_out {σ : Type} (s : Session σ) (d : Dir) (call : StepCall)
    (res : StepResult σ) : (s.stepped d call res).out = s.out := by
  simp [Session.stepped]

@[simp] theorem stepped_src_bytes_left {σ : Type} (s : Session σ) (d : Dir) (call : StepCall)
    (res : StepResult σ) : (s.stepped d call res).src_bytes_left = s.src_bytes_left := by
  simp [Session.stepped]

@[simp] theorem stepped_in_file_buf {σ : Type} (s : Session σ) (d : Dir) (call : StepCall)
    (res : StepResult σ) : (s.stepped d call res).in_file_buf = s.in_file_buf := by
  simp [Session.stepped]

@[simp] theorem stepped_in_file_buf_size {σ : Type} (s : Session σ) (d : Dir) (call : StepCall)
    (res : StepResult σ) : (s.stepped d call res).in_file_buf_size = s.in_file_buf_size := by
  simp [Session.stepped]

@[simp] theorem stepped_dst_bytes_left {σ : Type} (s : Session σ) (d : Dir) (call : StepCall)
    (res : StepResult σ) : (s.stepped d call res).dst_bytes_left = s.dst_bytes_left := by
  simp [Session.stepped]

@[simp] theorem stepped_total_output_bytes {σ : Type} (s : Session σ) (d : Dir) (call : StepCall)
    (res : StepResult σ) : (s.stepped d call res).total_output_bytes = s.total_output_bytes := by
  simp [Session.stepped]

@[simp] theorem stepped_reads {σ : Type} (s : Session σ) (d : Dir) (call : StepCall)
    (res : StepResult σ) : (s.stepped d call res).reads = s.reads := by
  simp [Session.stepped]

@[simp] theorem stepped_writes {σ : Type} (s : Session σ) (d : Dir) (call : StepCall)
    (res : StepResult σ) : (s.stepped d call res).writes = s.writes := by
  simp [Session.stepped]

@[simp] theorem stepped_state {σ : Type} (s : Session σ) (d : Dir) (call : StepCall)
    (res : StepResult σ) : (s.stepped d call res).state = res.state := by
  simp [Session.stepped]

@[simp] theorem stepped_trace {σ : Type} (s : Session σ) (d : Dir) (call : StepCall)
    (res : StepResult σ) :
    (s.stepped d call res).trace =
      s.trace ++ [Event.step d call res.status res.num_in_bytes res.out_bytes] := by
  simp [Session.stepped]

theorem stepped_in_file_buf_ofs {σ : Type} (s : Session σ) (d : Dir) (call : StepCall)
    (res : StepResult σ) :
    (s.stepped d call res).in_file_buf_ofs =
      if res.num_in_bytes ≠ 0 then toUint (s.in_file_buf_ofs + toUint res.num_in_bytes)
      else s.in_file_buf_ofs := by
  simp only [Session.stepped, advance]
  split <;> rfl

@[simp] theorem fwrite_snd {σ : Type} (env : Env) (s : Session σ) (o : List Byte) :
    (fwrite env s o).2 = min (toUint o.length) (env.fwrite_ret s.writes (toUint o.length)) :=
  rfl

/-- The rest of an iteration of `decompress_file` as one decision tree. -/
theorem decompress_step_eq {σ : Type} (env : Env) (c : Codec lzham_decompress_params σ)
    (out_buf_size : Nat) (s : Session σ) :
    decompress_step env c out_buf_size s =
      let res := c.step s.state (s.call out_buf_size)
      let s3 := s.stepped Dir.decomp (s.call out_buf_size) res
      let w := fwrite env s3 res.out_bytes
      if res.out_bytes.length = 0 then
        if res.status.continues then .inl s3 else .inr (decompress_finish s3 res.status)
      else if w.2 ≠ res.out_bytes.length then
        .inr (w.1.exit (some false) (decompress_cleanup Err.failure_writing))
      else if res.out_bytes.length > s.dst_bytes_left then
        .inr (w.1.exit (some false) (decompress_cleanup Err.wrote_too_many))
      else if res.status.continues then
        .inl { w.1 with dst_bytes_left := s.dst_bytes_left - res.out_bytes.length }
      else
        .inr (decompress_finish
          { w.1 with dst_bytes_left := s.dst_bytes_left - res.out_bytes.length } res.status) := by
  simp only [decompress_step, fwrite_dst_bytes_left, stepped_dst_bytes_left]
  split_ifs <;> simp_all

/-- The rest of an iteration of `compress_streaming` as one decision tree. -/
theorem compress_step_eq {σ : Type} (env : Env) (c : Codec lzham_compress_params σ)
    (s : Session σ) :
    compress_step env c s =
      let res := c.step s.state (s.call LZHAMTEST_COMP_OUTPUT_BUFFER_SIZE)
      let s3 := s.stepped Dir.comp (s.call LZHAMTEST_COMP_OUTPUT_BUFFER_SIZE) res
      let w := fwrite env s3 res.out_bytes
      if res.out_bytes.length = 0 then
        if res.status.continues then .inl s3 else .inr (compress_finish s3 res.status)
      else if w.2 ≠ res.out_bytes.length then
        .inr (w.1.exit (some false) (compress_cleanup Err.failure_writing))
      else if res.status.continues then
        .inl { w.1 with
          total_output_bytes := (s.total_output_bytes + res.out_bytes.length) % 2 ^ 64 }
      else
        .inr (compress_finish
          { w.1 with
            total_output_bytes := (s.total_output_bytes + res.out_bytes.length) % 2 ^ 64 }
          res.status) := by
  simp only [compress_step, fwrite_total_output_bytes, stepped_total_output_bytes]
  split_ifs <;> simp_all

theorem last_fwrite_append (t u : List Event) :
    last_fwrite (t ++ u) = u.foldl (fun acc e => match e with
      | Event.fwrite _ got => got
      | _ => acc) (last_fwrite t) := by
  simp [last_fwrite, List.foldl_append]

theorem decompress_finish_budget {σ : Type} (L : Nat) (s : Session σ) (status : Status)
    (hs : BudgetInv L s) : BudgetPost L (decompress_finish s status) := by
  obtain ⟨h1, h2⟩ := hs
  simp only [decompress_finish]
  split_ifs with hst hdst hsrc <;>
    simp only [BudgetPost, Session.exit, codec_output_append, codec_output, Event.output,
      List.length_append, List.length_nil, List.append_nil, Nat.add_zero, ne_eq,
      not_true_eq_false, not_false_eq_true, Option.some.injEq, Bool.false_eq_true,
      Bool.true_eq_false, reduceCtorEq, false_implies, true_implies, implies_true, true_and,
      and_true] <;>
    (try simp only [ne_eq, not_not] at hdst) <;>
    omega

/-- Case analysis of the rest of an iteration of `decompress_file`: nothing produced
(and the loop goes on or breaks), a short write, an overrun, or a complete write within
the budget (and the loop goes on or breaks). -/
theorem decompress_step_elim {σ : Type} (env : Env) (c : Codec lzham_decompress_params σ)
    (out_buf_size : Nat) (s : Session σ) (P : Session σ ⊕ Run → Prop)
    (hquiet : ∀ res s3, res = c.step s.state (s.call out_buf_size) →
      s3 = s.stepped Dir.decomp (s.call out_buf_size) res → res.out_bytes.length = 0 →
      (res.status.continues = true → P (.inl s3)) ∧
      (res.status.continues = false → P (.inr (decompress_finish s3 res.status))))
    (hshort : ∀ res s3, res = c.step s.state (s.call out_buf_size) →
      s3 = s.stepped Dir.decomp (s.call out_buf_size) res → res.out_bytes.length ≠ 0 →
      (fwrite env s3 res.out_bytes).2 ≠ res.out_bytes.length →
      P (.inr ((fwrite env s3 res.out_bytes).1.exit (some false)
        (decompress_cleanup Err.failure_writing))))
    (hover : ∀ res s3, res = c.step s.state (s.call out_buf_size) →
      s3 = s.stepped Dir.decomp (s.call out_buf_size) res → res.out_bytes.length ≠ 0 →
      (fwrite env s3 res.out_bytes).2 = res.out_bytes.length →
      res.out_bytes.length > s.dst_bytes_left →
      P (.inr ((fwrite env s3 res.out_bytes).1.exit (some false)
        (decompress_cleanup Err.wrote_too_many))))
    (hfull : ∀ res s3 s5, res = c.step s.state (s.call out_buf_size) →
      s3 = s.stepped Dir.decomp (s.call out_buf_size) res → res.out_bytes.length ≠ 0 →
      (fwrite env s3 res.out_bytes).2 = res.out_bytes.length →
      res.out_bytes.length ≤ s.dst_bytes_left →
      s5 = { (fwrite env s3 res.out_bytes).1 with
        dst_bytes_left := s.dst_bytes_left - res.out_bytes.length } →
      (res.status.continues = true → P (.inl s5)) ∧
      (res.status.continues = false → P (.inr (decompress_finish s5 res.status)))) :
    P (decompress_step env c out_buf_size s) := by
  rw [decompress_step_eq]
  simp only []
  by_cases hlen : (c.step s.state (s.call out_buf_size)).out_bytes.length = 0
  · obtain ⟨hc, hb⟩ := hquiet _ _ rfl rfl hlen
    rw [if_pos hlen]
    cases hs : (c.step s.state (s.call out_buf_size)).status.continues
    · simpa using hb hs
    · simpa using hc hs
  · rw [if_neg hlen]
    by_cases hgot : (fwrite env (s.stepped Dir.decomp (s.call out_buf_size)
        (c.step s.state (s.call out_buf_size)))
        (c.step s.state (s.call out_buf_size)).out_bytes).2 =
        (c.step s.state (s.call out_buf_size)).out_bytes.length
    · rw [if_neg (not_not.mpr hgot)]
      by_cases hov : (c.step s.state (s.call out_buf_size)).out_bytes.length > s.dst_bytes_left
      · rw [if_pos hov]
        exact hover _ _ rfl rfl hlen hgot hov
      · rw [if_neg hov]
        obtain ⟨hc, hb⟩ := hfull _ _ _ rfl rfl hlen hgot (Nat.le_of_not_gt hov) rfl
        cases hs : (c.step s.state (s.call out_buf_size)).status.continues
        · simpa using hb hs
        · simpa using hc hs
    · rw [if_pos hgot]
      exact hshort _ _ rfl rfl hlen hgot

theorem decompress_step_budget {σ : Type} (env : Env) (c : Codec lzham_decompress_params σ)
    (out_buf_size L : Nat) (s : Session σ) (hs : BudgetInv L s) :
    Sum.elim (BudgetInv L) (BudgetPost L) (decompress_step env c out_buf_size s) := by
  obtain ⟨h1, h2⟩ := hs
  apply decompress_step_elim
  · intro res s3 _ hs3 hlen
    have inv3 : BudgetInv L s3 := by
      subst hs3
      simp only [BudgetInv, stepped_out, stepped_dst_bytes_left, stepped_trace,
        codec_output_append, codec_output, Event.output, List.length_append, List.append_nil]
      omega
    exact ⟨fun _ => inv3, fun _ => decompress_finish_budget L _ _ inv3⟩
  · intro res s3 _ hs3 hlen hgot
    subst hs3
    have hle := fwrite_count_le env (s.stepped Dir.decomp (s.call out_buf_size) res)
      res.out_bytes
    simp only [Sum.elim_inr, BudgetPost, Session.exit, decompress_cleanup, fwrite_out,
      fwrite_trace, stepped_out, stepped_trace, codec_output_append, codec_output,
      Event.output, List.length_append, List.append_nil, List.length_take, List.length_nil,
      last_fwrite_append, List.foldl_cons, List.foldl_nil, ne_eq, not_true_eq_false,
      Bool.true_eq_false, Option.some.injEq, reduceCtorEq, false_implies, true_and,
      implies_true]
    omega
  · intro res s3 _ hs3 hlen hgot hov
    subst hs3
    simp only [Sum.elim_inr, BudgetPost, Session.exit, decompress_cleanup, fwrite_out,
      fwrite_trace, stepped_out, stepped_trace, codec_output_append, codec_output,
      Event.output, List.length_append, List.append_nil, List.length_take, List.length_nil,
      last_fwrite_append, List.foldl_cons, List.foldl_nil, ne_eq, not_true_eq_false,
      Bool.true_eq_false, Option.some.injEq, reduceCtorEq, false_implies, true_and,
      implies_true, hgot]
    omega
  · intro res s3 s5 _ hs3 hlen hgot hov hs5
    have inv5 : BudgetInv L s5 := by
      subst hs5 hs3
      simp only [BudgetInv, fwrite_out, fwrite_trace, stepped_out, stepped_trace,
        codec_output_append, codec_output, Event.output, List.length_append, List.append_nil,
        List.length_take, hgot, List.length_nil]
      omega
    exact ⟨fun _ => inv5, fun _ => decompress_finish_budget L _ _ inv5⟩

theorem decompress_body_budget {σ : Type} (env : Env) (c : Codec lzham_decompress_params σ)
    (out_buf_size L : Nat) (s : Session σ) (hs : BudgetInv L s) :
    Sum.elim (BudgetInv L) (BudgetPost L) (decompress_body env c out_buf_size s) := by
  unfold decompress_body
  cases hr : refill env LZHAMTEST_DECOMP_INPUT_BUFFER_SIZE
      (decompress_cleanup Err.failure_reading) s with
  | inr r =>
    obtain ⟨k, got, _, rfl⟩ := refill_inr _ _ _ _ _ hr
    obtain ⟨h1, h2⟩ := hs
    simp only [Sum.elim_inr, BudgetPost, decompress_cleanup, codec_output_append, codec_output,
      Event.output, List.length_append, List.append_nil, List.length_nil, ne_eq,
      not_true_eq_false, Bool.true_eq_false, Option.some.injEq, reduceCtorEq, false_implies,
      true_and, implies_true]
    omega
  | inl s1 =>
    simp only []
    apply decompress_step_budget
    rcases refill_inl _ _ _ _ _ hr with ⟨_, rfl⟩ | ⟨_, k, _, _, rfl⟩
    · exact hs
    · obtain ⟨h1, h2⟩ := hs
      simp only [BudgetInv, codec_output_append, codec_output, Event.output, List.append_nil]
      exact ⟨h1, h2⟩

/-- The possible outcomes of the header part of `decompress_file`. -/
theorem decompress_header_cases (env : Env) :
    (env.src = none ∧ decompress_header env = .error (Run.early false []
      [Event.fopen FileId.pInFile false, Event.print_error Err.unable_to_read])) ∨
    (∃ file, env.src = some file ∧ file.length % 2 ^ 64 < 14 ∧
      decompress_header env = .error (Run.early false []
        [Event.fopen FileId.pInFile true, Event.print_error Err.too_small,
          Event.fclose FileId.pInFile])) ∨
    (∃ b0 b1 b2 b3 b4 b5 b6 b7 b8 b9 b10 b11 b12 rest,
      env.src = some (b0 :: b1 :: b2 :: b3 :: b4 :: b5 :: b6 :: b7 :: b8 :: b9 :: b10 ::
        b11 :: b12 :: rest) ∧ 14 ≤ (rest.length + 13) % 2 ^ 64) := by
  cases hsrc : env.src with
  | none =>
    left
    simp [decompress_header, hsrc]
  | some file =>
    right
    by_cases hsmall : file.length % 2 ^ 64 < 14
    · left
      refine ⟨file, rfl, hsmall, ?_⟩
      simp only [decompress_header, hsrc]
      rw [if_pos (by omega)]
    · right
      have hle : file.length % 2 ^ 64 ≤ file.length := Nat.mod_le _ _
      obtain ⟨b0, b1, b2, b3, b4, b5, b6, b7, b8, b9, b10, b11, b12, rest, rfl⟩ :=
        exists_header_bytes file (by omega)
      refine ⟨b0, b1, b2, b3, b4, b5, b6, b7, b8, b9, b10, b11, b12, rest, rfl, ?_⟩
      simp only [List.length_cons] at hsmall
      omega

theorem budget_post_early (L : Nat) (t : List Event) : BudgetPost L (Run.early false [] t) := by
  simp [BudgetPost, Run.early]

theorem budget_snapshot {σ : Type} (L : Nat) (s : Session σ) (hs : BudgetInv L s) :
    BudgetPost L (s.exit none []) := by
  obtain ⟨h1, h2⟩ := hs
  simp only [BudgetPost, Session.exit, List.append_nil, reduceCtorEq, false_implies, ne_eq,
    not_false_eq_true, true_implies, true_and, imp_false]
  omega

theorem declared_length_cons (b0 b1 b2 b3 b4 b5 b6 b7 b8 b9 b10 b11 b12 : Byte)
    (rest : List Byte) :
    declared_length (b0 :: b1 :: b2 :: b3 :: b4 :: b5 :: b6 :: b7 :: b8 :: b9 :: b10 :: b11 ::
      b12 :: rest) = le_value [b5, b6, b7, b8, b9, b10, b11, b12] := by
  simp [declared_length]

/-- Case analysis of `decompress_file` up to the point where the header is read. -/
theorem decompress_file_elim {σ : Type} (b : Build) (env : Env)
    (c : Codec lzham_decompress_params σ) (options : comp_options)
    (P : (Nat → Run) → Prop)
    (hnoread : env.src = none → P (fun _ => Run.early false []
      [Event.fopen FileId.pInFile false, Event.print_error Err.unable_to_read]))
    (hsmall : ∀ file, env.src = some file → file.length % 2 ^ 64 < 14 →
      P (fun _ => Run.early false []
        [Event.fopen FileId.pInFile true, Event.print_error Err.too_small,
          Event.fclose FileId.pInFile]))
    (hlong : ∀ b0 b1 b2 b3 b4 b5 b6 b7 b8 b9 b10 b11 b12 rest,
      env.src = some (b0 :: b1 :: b2 :: b3 :: b4 :: b5 :: b6 :: b7 :: b8 :: b9 :: b10 ::
        b11 :: b12 :: rest) → 14 ≤ (rest.length + 13) % 2 ^ 64 →
      (¬ (b0.val = 76 ∧ b1.val = 90 ∧ b2.val = 72 ∧ b3.val = 48) →
        P (fun _ => Run.early false [] (header_prefix_trace b0 b1 b2 b3 b4 ++
          [Event.print_error Err.invalid_header, Event.fclose FileId.pInFile]))) ∧
      ((b0.val = 76 ∧ b1.val = 90 ∧ b2.val = 72 ∧ b3.val = 48) →
        ¬ (15 ≤ b4.val ∧ b4.val ≤ 29) →
        P (fun _ => Run.early false [] (header_prefix_trace b0 b1 b2 b3 b4 ++
          [Event.print_error Err.invalid_header, Event.fclose FileId.pInFile]))) ∧
      ((b0.val = 76 ∧ b1.val = 90 ∧ b2.val = 72 ∧ b3.val = 48) →
        (15 ≤ b4.val ∧ b4.val ≤ 29) → env.dst_ok = false →
        P (fun _ => Run.early false [] (header_prefix_trace b0 b1 b2 b3 b4 ++
          [Event.fopen FileId.pOutFile false, Event.print_error Err.unable_to_create,
            Event.fclose FileId.pInFile]))) ∧
      ((b0.val = 76 ∧ b1.val = 90 ∧ b2.val = 72 ∧ b3.val = 48) →
        (15 ≤ b4.val ∧ b4.val ≤ 29) → env.dst_ok = true →
        P (fun fuel => decompress_from b env c options
          (header_of b4 b5 b6 b7 b8 b9 b10 b11 b12 rest (header_prefix_trace b0 b1 b2 b3 b4))
          fuel))) :
    P (fun fuel => decompress_file b env c options fuel) := by
  unfold decompress_file
  rcases decompress_header_cases env with ⟨hnone, hh⟩ | ⟨f, hf, hlt, hh⟩ |
    ⟨b0, b1, b2, b3, b4, b5, b6, b7, b8, b9, b10, b11, b12, rest, hs, hlen⟩
  · rw [hh]
    exact hnoread hnone
  · rw [hh]
    exact hsmall f hf hlt
  · obtain ⟨hmagic, hdict, hdst, hok⟩ :=
      hlong b0 b1 b2 b3 b4 b5 b6 b7 b8 b9 b10 b11 b12 rest hs hlen
    rw [decompress_header_cons env _ _ _ _ _ _ _ _ _ _ _ _ _ _ hs hlen]
    by_cases hm : (b0.val = 76 ∧ b1.val = 90 ∧ b2.val = 72 ∧ b3.val = 48)
    · have hm' : ((b0.val : Int) != 76 || (b1.val : Int) != 90 || (b2.val : Int) != 72 ||
          (b3.val : Int) != 48) = false := by
        obtain ⟨m0, m1, m2, m3⟩ := hm
        simp [m0, m1, m2, m3]
      rw [hm']
      simp only [Bool.false_eq_true, if_false]
      by_cases hd : (15 ≤ b4.val ∧ b4.val ≤ 29)
      · have hd' : (decide ((b4.val : Int) < 15) || decide ((b4.val : Int) > 29)) = false := by
          simp only [Bool.or_eq_false_iff, decide_eq_false_iff_not]
          omega
        rw [hd']
        simp only [Bool.false_eq_true, if_false]
        cases hdo : env.dst_ok
        · simpa using hdst hm hd hdo
        · simpa [header_of] using hok hm hd hdo
      · have hd' : (decide ((b4.val : Int) < 15) || decide ((b4.val : Int) > 29)) = true := by
          simp only [Bool.or_eq_true, decide_eq_true_eq]
          omega
        rw [hd']
        simpa using hdict hm hd
    · have hm' : ((b0.val : Int) != 76 || (b1.val : Int) != 90 || (b2.val : Int) != 72 ||
          (b3.val : Int) != 48) = true := by
        simp only [Bool.or_eq_true, bne_iff_ne, ne_eq]
        by_contra hcon
        apply hm
        simp only [not_or, not_not] at hcon
        omega
      rw [hm']
      simpa using hmagic hm

/-- Case analysis of `decompress_file` after the header. -/
theorem decompress_from_elim {σ : Type} (b : Build) (env : Env)
    (c : Codec lzham_decompress_params σ) (options : comp_options) (h : Header)
    (P : (Nat → Run) → Prop)
    (hmalloc : env.malloc_out_ok = false → P (fun _ => Run.early false []
      (h.trace ++ [Event.print_error Err.failed_allocating_output,
        Event.fclose FileId.pInFile, Event.fclose FileId.pOutFile])))
    (hinit : env.malloc_out_ok = true → c.init (decompress_params b options h) = none →
      P (fun _ => Run.early false []
        (h.trace ++ [Event.init Dir.decomp false, Event.print_error Err.failed_initializing,
          Event.fclose FileId.pInFile, Event.fclose FileId.pOutFile])))
    (hpump : env.malloc_out_ok = true → ∀ st, c.init (decompress_params b options h) = some st →
      P (fun fuel =>
        pump (decompress_body env c (decomp_out_buf_size b options h.orig_file_size)) fuel
          (decompress_start h st))) :
    P (fun fuel => decompress_from b env c options h fuel) := by
  unfold decompress_from
  cases hm : env.malloc_out_ok
  · simpa using hmalloc hm
  · simp only [Bool.not_true, Bool.false_eq_true, if_false]
    cases hi : c.init (decompress_params b options h) with
    | none => simpa using hinit hm hi
    | some st => simpa using hpump hm st hi

/-- The budget property of a whole run of `decompress_file` on a source that opens. -/
theorem decompress_file_budget {σ : Type} (b : Build) (env : Env)
    (c : Codec lzham_decompress_params σ) (options : comp_options) (fuel : Nat)
    (file : List Byte) (hsrc : env.src = some file) :
    BudgetPost (declared_length file) (decompress_file b env c options fuel) := by
  refine decompress_file_elim b env c options
    (fun f => BudgetPost (declared_length file) (f fuel)) ?_ ?_ ?_
  · intro _
    exact budget_post_early _ _
  · intro _ _ _
    exact budget_post_early _ _
  · intro b0 b1 b2 b3 b4 b5 b6 b7 b8 b9 b10 b11 b12 rest hs _
    have hfile : file = b0 :: b1 :: b2 :: b3 :: b4 :: b5 :: b6 :: b7 :: b8 :: b9 :: b10 ::
        b11 :: b12 :: rest := by
      rw [hsrc] at hs
      exact Option.some.inj hs
    rw [hfile, declared_length_cons]
    refine ⟨fun _ => budget_post_early _ _, fun _ _ => budget_post_early _ _,
      fun _ _ _ => budget_post_early _ _, fun _ _ _ => ?_⟩
    refine decompress_from_elim b env c options _
      (fun f => BudgetPost (le_value [b5, b6, b7, b8, b9, b10, b11, b12]) (f fuel)) ?_ ?_ ?_
    · intro _
      exact budget_post_early _ _
    · intro _ _
      exact budget_post_early _ _
    · intro _ st _
      apply pump_induction _ (BudgetInv (le_value [b5, b6, b7, b8, b9, b10, b11, b12]))
      · exact budget_snapshot _
      · exact decompress_body_budget env c _ _
      · simp [BudgetInv, decompress_start, header_of, codec_output, Event.output,
          header_prefix_trace]

/-! ## The destination budget of `decompress_file` -/

/-- Claim C3, amended. Overrun guard: for every container declaring original length `L`
and every codec, once the cumulative output of the codec exceeds `L` the run of
`decompress_file` has returned failure; a run that has not failed has written at most
`L` bytes; and the bytes written never exceed `L` by more than the count of the last
`fwrite` call, which is made before the overrun is detected. -/
theorem overrun_guard {σ : Type} (b : Build) (env : Env)
    (c : Codec lzham_decompress_params σ) (options : comp_options) (fuel : Nat)
    (file : List Byte) (hsrc : env.src = some file) :
    ((codec_output (decompress_file b env c options fuel).trace).length > declared_length file →
      (decompress_file b env c options fuel).ret = some false) ∧
    ((decompress_file b env c options fuel).ret ≠ some false →
      (decompress_file b env c options fuel).dst.length ≤ declared_length file) ∧
    (decompress_file b env c options fuel).dst.length ≤
      declared_length file + last_fwrite (decompress_file b env c options fuel).trace := by
  obtain ⟨h1, _, h3, h4⟩ := decompress_file_budget b env c options fuel file hsrc
  exact ⟨h1, h3, h4⟩

/-- Witness of `overrun_guard`: the run on a container of one declared byte whose
decompressor puts out two. -/
theorem overrun_guard_witness :
    (decompress_file x86 (Env.ideal container_of_one) two_byte_codec
      (comp_options.default x86) 1).ret = some false ∧
    (decompress_file x86 (Env.ideal container_of_one) two_byte_codec
      (comp_options.default x86) 1).dst.length ≤ declared_length container_of_one + 2 :=
  ⟨(overrun_guard x86 (Env.ideal container_of_one) two_byte_codec (comp_options.default x86) 1
      container_of_one rfl).1 (by decide),
   (overrun_guard x86 (Env.ideal container_of_one) two_byte_codec (comp_options.default x86) 1
      container_of_one rfl).2.2⟩

/-- Claim C3 as stated fails: with one declared byte and a decompressor that puts out
two bytes in one call, both bytes are in the destination file when the overrun is
reported. -/
theorem overrun_guard_writes_past_budget :
    declared_length container_of_one = 1 ∧
    (decompress_file x86 (Env.ideal container_of_one) two_byte_codec
      (comp_options.default x86) 1).ret = some false ∧
    (decompress_file x86 (Env.ideal container_of_one) two_byte_codec
      (comp_options.default x86) 1).dst = [7, 8] ∧
    ¬ (decompress_file x86 (Env.ideal container_of_one) two_byte_codec
      (comp_options.default x86) 1).dst.length ≤ declared_length container_of_one := by
  decide

/-- Claim C5. Short output is an error: whenever `decompress_file` returns success, the
bytes it wrote to the destination are exactly as many as the header declares, for
every codec. -/
theorem success_writes_declared_length {σ : Type} (b : Build) (env : Env)
    (c : Codec lzham_decompress_params σ) (options : comp_options) (fuel : Nat)
    (file : List Byte) (hsrc : env.src = some file)
    (hret : (decompress_file b env c options fuel).ret = some true) :
    (decompress_file b env c options fuel).dst.length = declared_length file ∧
    (decompress_file b env c options fuel).dst_bytes_left = 0 :=
  (decompress_file_budget b env c options fuel file hsrc).2.1 hret

/-- Witness of `success_writes_declared_length`: a run that returns success on a
container of three declared bytes. -/
theorem success_writes_declared_length_witness :
    (decompress_file x86 (Env.ideal container_of_three) three_byte_codec
      (comp_options.default x86) 5).ret = some true ∧
    (decompress_file x86 (Env.ideal container_of_three) three_byte_codec
      (comp_options.default x86) 5).dst.length = declared_length container_of_three ∧
    (decompress_file x86 (Env.ideal container_of_three) three_byte_codec
      (comp_options.default x86) 5).dst_bytes_left = 0 :=
  ⟨by decide, success_writes_declared_length x86 (Env.ideal container_of_three)
    three_byte_codec (comp_options.default x86) 5 container_of_three rfl (by decide)⟩

/-! ## The destination file of `compress_streaming` -/

/-- Case analysis of the rest of an iteration of `compress_streaming`: nothing produced,
a short write, or a complete write (and the loop goes on or breaks). -/
theorem compress_step_elim {σ : Type} (env : Env) (c : Codec lzham_compress_params σ)
    (s : Session σ) (P : Session σ ⊕ Run → Prop)
    (hquiet : ∀ res s3, res = c.step s.state (s.call LZHAMTEST_COMP_OUTPUT_BUFFER_SIZE) →
      s3 = s.stepped Dir.comp (s.call LZHAMTEST_COMP_OUTPUT_BUFFER_SIZE) res →
      res.out_bytes.length = 0 →
      (res.status.continues = true → P (.inl s3)) ∧
      (res.status.continues = false → P (.inr (compress_finish s3 res.status))))
    (hshort : ∀ res s3, res = c.step s.state (s.call LZHAMTEST_COMP_OUTPUT_BUFFER_SIZE) →
      s3 = s.stepped Dir.comp (s.call LZHAMTEST_COMP_OUTPUT_BUFFER_SIZE) res →
      res.out_bytes.length ≠ 0 →
      (fwrite env s3 res.out_bytes).2 ≠ res.out_bytes.length →
      P (.inr ((fwrite env s3 res.out_bytes).1.exit (some false)
        (compress_cleanup Err.failure_writing))))
    (hfull : ∀ res s3 s5, res = c.step s.state (s.call LZHAMTEST_COMP_OUTPUT_BUFFER_SIZE) →
      s3 = s.stepped Dir.comp (s.call LZHAMTEST_COMP_OUTPUT_BUFFER_SIZE) res →
      res.out_bytes.length ≠ 0 →
      (fwrite env s3 res.out_bytes).2 = res.out_bytes.length →
      s5 = { (fwrite env s3 res.out_bytes).1 with
        total_output_bytes := (s.total_output_bytes + res.out_bytes.length) % 2 ^ 64 } →
      (res.status.continues = true → P (.inl s5)) ∧
      (res.status.continues = false → P (.inr (compress_finish s5 res.status)))) :
    P (compress_step env c s) := by
  rw [compress_step_eq]
  simp only []
  by_cases hlen : (c.step s.state (s.call LZHAMTEST_COMP_OUTPUT_BUFFER_SIZE)).out_bytes.length = 0
  · obtain ⟨hc, hb⟩ := hquiet _ _ rfl rfl hlen
    rw [if_pos hlen]
    cases hs : (c.step s.state (s.call LZHAMTEST_COMP_OUTPUT_BUFFER_SIZE)).status.continues
    · simpa using hb hs
    · simpa using hc hs
  · rw [if_neg hlen]
    by_cases hgot : (fwrite env (s.stepped Dir.comp (s.call LZHAMTEST_COMP_OUTPUT_BUFFER_SIZE)
        (c.step s.state (s.call LZHAMTEST_COMP_OUTPUT_BUFFER_SIZE)))
        (c.step s.state (s.call LZHAMTEST_COMP_OUTPUT_BUFFER_SIZE)).out_bytes).2 =
        (c.step s.state (s.call LZHAMTEST_COMP_OUTPUT_BUFFER_SIZE)).out_bytes.length
    · rw [if_neg (not_not.mpr hgot)]
      obtain ⟨hc, hb⟩ := hfull _ _ _ rfl rfl hlen hgot rfl
      cases hs : (c.step s.state (s.call LZHAMTEST_COMP_OUTPUT_BUFFER_SIZE)).status.continues
      · simpa using hb hs
      · simpa using hc hs
    · rw [if_pos hgot]
      exact hshort _ _ rfl rfl hlen hgot

/-- Case analysis of an iteration of `compress_streaming`: a short read, or the rest of
the iteration from the session the refill leaves. -/
theorem compress_body_elim {σ : Type} (env : Env) (c : Codec lzham_compress_params σ)
    (s : Session σ) (P : Session σ ⊕ Run → Prop)
    (hfail : ∀ r, refill env LZHAMTEST_COMP_INPUT_BUFFER_SIZE
      (compress_cleanup Err.failure_reading) s = .inr r → P (.inr r))
    (hgo : ∀ s1, refill env LZHAMTEST_COMP_INPUT_BUFFER_SIZE
      (compress_cleanup Err.failure_reading) s = .inl s1 → P (compress_step env c s1)) :
    P (compress_body env c s) := by
  unfold compress_body
  cases hr : refill env LZHAMTEST_COMP_INPUT_BUFFER_SIZE
      (compress_cleanup Err.failure_reading) s with
  | inr r => exact hfail r hr
  | inl s1 => exact hgo s1 hr

/-- Case analysis of an iteration of `decompress_file`: a short read, or the rest of
the iteration from the session the refill leaves. -/
theorem decompress_body_elim {σ : Type} (env : Env) (c : Codec lzham_decompress_params σ)
    (out_buf_size : Nat) (s : Session σ) (P : Session σ ⊕ Run → Prop)
    (hfail : ∀ r, refill env LZHAMTEST_DECOMP_INPUT_BUFFER_SIZE
      (decompress_cleanup Err.failure_reading) s = .inr r → P (.inr r))
    (hgo : ∀ s1, refill env LZHAMTEST_DECOMP_INPUT_BUFFER_SIZE
      (decompress_cleanup Err.failure_reading) s = .inl s1 →
      P (decompress_step env c out_buf_size s1)) :
    P (decompress_body env c out_buf_size s) := by
  unfold decompress_body
  cases hr : refill env LZHAMTEST_DECOMP_INPUT_BUFFER_SIZE
      (decompress_cleanup Err.failure_reading) s with
  | inr r => exact hfail r hr
  | inl s1 => exact hgo s1 hr

/-- Case analysis of `compress_streaming`. -/
theorem compress_streaming_elim {σ : Type} (env : Env) (c : Codec lzham_compress_params σ)
    (options : comp_options) (P : (Nat → Run) → Prop)
    (hnoread : env.src = none → P (fun _ => Run.early false []
      [Event.fopen FileId.pInFile false, Event.print_error Err.unable_to_read]))
    (hnodst : ∀ file, env.src = some file → env.dst_ok = false → P (fun _ => Run.early false []
      [Event.fopen FileId.pInFile true, Event.fopen FileId.pOutFile false,
        Event.print_error Err.unable_to_create]))
    (hopen : ∀ file header, env.src = some file → env.dst_ok = true →
      header = write_header options.m_dict_size_log2 (file.length % 2 ^ 64) →
      ((env.malloc_in_ok = false ∨ env.malloc_out_ok = false) →
        P (fun _ => Run.early false header (compress_opened header ++
          [Event.print_error Err.out_of_memory, Event.fclose FileId.pInFile,
            Event.fclose FileId.pOutFile]))) ∧
      (env.malloc_in_ok = true → env.malloc_out_ok = true →
        c.init (compress_params options) = none →
        P (fun _ => Run.early false header (compress_opened header ++
          [Event.init Dir.comp false, Event.print_error Err.failed_initializing,
            Event.fclose FileId.pInFile, Event.fclose FileId.pOutFile]))) ∧
      (env.malloc_in_ok = true → env.malloc_out_ok = true →
        ∀ st, c.init (compress_params options) = some st →
        P (fun fuel => pump (compress_body env c) fuel
          (compress_start file header (compress_opened header ++ [Event.init Dir.comp true])
            st)))) :
    P (fun fuel => compress_streaming env c options fuel) := by
  unfold compress_streaming
  cases hsrc : env.src with
  | none => simpa using hnoread hsrc
  | some file =>
    simp only []
    cases hdst : env.dst_ok
    · simpa using hnodst file hsrc hdst
    · obtain ⟨hoom, hinit, hpump⟩ := hopen file _ hsrc hdst rfl
      simp only [Bool.not_true, Bool.false_eq_true, if_false]
      cases hmi : env.malloc_in_ok
      · simpa [compress_opened] using hoom (Or.inl hmi)
      · cases hmo : env.malloc_out_ok
        · simpa [compress_opened] using hoom (Or.inr hmo)
        · simp only [Bool.not_true, Bool.or_self, Bool.false_eq_true, if_false]
          cases hi : c.init (compress_params options) with
          | none => simpa [compress_opened] using hinit hmi hmo hi
          | some st => simpa [compress_opened] using hpump hmi hmo st hi

theorem sink_post_of_inv {σ : Type} (hdr : List Byte) (s : Session σ) (ret : Option Bool)
    (evs : List Event) (hevs : codec_output evs = []) (hs : SinkInv hdr s) :
    SinkPost hdr (s.exit ret evs) := by
  unfold SinkInv at hs
  simp only [SinkPost, Session.exit, codec_output_append, hevs, List.append_nil, hs]
  exact ⟨⟨(codec_output s.trace).length, by rw [List.take_length]⟩, fun _ => trivial⟩

theorem sink_post_early (hdr : List Byte) (t : List Event) (ht : codec_output t = []) :
    SinkPost hdr (Run.early false hdr t) := by
  simp [SinkPost, Run.early, ht]

theorem refill_sink {σ : Type} (env : Env) (n : Nat) (onFail : List Event)
    (honFail : codec_output onFail = []) (hdr : List Byte) (s : Session σ)
    (hs : SinkInv hdr s) :
    Sum.elim (SinkInv hdr) (SinkPost hdr) (refill env n onFail s) := by
  cases hr : refill env n onFail s with
  | inr r =>
    obtain ⟨k, got, _, rfl⟩ := refill_inr _ _ _ _ _ hr
    unfold SinkInv at hs
    simp only [Sum.elim_inr, SinkPost, codec_output_append, codec_output, Event.output,
      honFail, List.append_nil, hs]
    exact ⟨⟨(codec_output s.trace).length, by rw [List.take_length]⟩, fun _ => trivial⟩
  | inl s1 =>
    rcases refill_inl _ _ _ _ _ hr with ⟨_, rfl⟩ | ⟨_, k, _, _, rfl⟩
    · exact hs
    · unfold SinkInv at hs
      simp only [Sum.elim_inl, SinkInv, codec_output_append, codec_output, Event.output,
        List.append_nil, hs]

theorem compress_finish_sink {σ : Type} (hdr : List Byte) (s : Session σ) (status : Status)
    (hs : SinkInv hdr s) : SinkPost hdr (compress_finish s status) := by
  simp only [compress_finish]
  split_ifs <;>
  · apply sink_post_of_inv
    · rfl
    · unfold SinkInv at hs
      simp only [SinkInv, codec_output_append, codec_output, Event.output, List.append_nil, hs]

theorem compress_step_sink {σ : Type} (env : Env) (c : Codec lzham_compress_params σ)
    (hdr : List Byte) (s : Session σ) (hs : SinkInv hdr s) :
    Sum.elim (SinkInv hdr) (SinkPost hdr) (compress_step env c s) := by
  unfold SinkInv at hs
  apply compress_step_elim
  · intro res s3 _ hs3 hlen
    have inv3 : SinkInv hdr s3 := by
      subst hs3
      simp only [SinkInv, stepped_out, stepped_trace, codec_output_append, codec_output,
        Event.output, List.append_nil, hs, List.length_eq_zero.mp hlen]
    exact ⟨fun _ => inv3, fun _ => compress_finish_sink hdr _ _ inv3⟩
  · intro res s3 _ hs3 hlen hgot
    subst hs3
    simp only [Sum.elim_inr, SinkPost, Session.exit, compress_cleanup, fwrite_out, fwrite_trace,
      stepped_out, stepped_trace, codec_output_append, codec_output, Event.output,
      List.append_nil, hs, ne_eq, not_true_eq_false, false_implies, and_true,
      List.append_assoc]
    refine ⟨(codec_output s.trace).length +
      (fwrite env (s.stepped Dir.comp (s.call LZHAMTEST_COMP_OUTPUT_BUFFER_SIZE) res)
        res.out_bytes).2, ?_⟩
    rw [List.take_append]
  · intro res s3 s5 _ hs3 hlen hgot hs5
    have inv5 : SinkInv hdr s5 := by
      subst hs5 hs3
      simp only [SinkInv, fwrite_out, fwrite_trace, stepped_out, stepped_trace,
        codec_output_append, codec_output, Event.output, List.append_nil, hs, hgot,
        List.take_length, List.append_assoc]
    exact ⟨fun _ => inv5, fun _ => compress_finish_sink hdr _ _ inv5⟩

theorem compress_body_sink {σ : Type} (env : Env) (c : Codec lzham_compress_params σ)
    (hdr : List Byte) (s : Session σ) (hs : SinkInv hdr s) :
    Sum.elim (SinkInv hdr) (SinkPost hdr) (compress_body env c s) := by
  have hr := refill_sink env LZHAMTEST_COMP_INPUT_BUFFER_SIZE
    (compress_cleanup Err.failure_reading) rfl hdr s hs
  apply compress_body_elim
  · intro r h
    rw [h] at hr
    exact hr
  · intro s1 h
    rw [h] at hr
    exact compress_step_sink env c hdr s1 hr

theorem codec_output_fputc (l : List Byte) : codec_output (l.map Event.fputc) = [] := by
  induction l with
  | nil => rfl
  | cons b l ih => simp [codec_output, Event.output, ih]

/-- The destination file of a run of `compress_streaming` that opened both files is the
header followed by what the codec has produced. -/
theorem compress_streaming_sink {σ : Type} (env : Env) (c : Codec lzham_compress_params σ)
    (options : comp_options) (fuel : Nat) (file : List Byte) (hsrc : env.src = some file)
    (hdst : env.dst_ok = true) :
    SinkPost (write_header options.m_dict_size_log2 (file.length % 2 ^ 64))
      (compress_streaming env c options fuel) := by
  refine compress_streaming_elim env c options
    (fun f => SinkPost (write_header options.m_dict_size_log2 (file.length % 2 ^ 64)) (f fuel))
    ?_ ?_ ?_
  · intro h
    rw [hsrc] at h
    cases h
  · intro _ _ h
    rw [hdst] at h
    cases h
  · intro f header hf _ hheader
    rw [hsrc] at hf
    cases hf
    subst hheader
    have hopened : codec_output (compress_opened
        (write_header options.m_dict_size_log2 (file.length % 2 ^ 64))) = [] := by
      simp [compress_opened, codec_output, Event.output, codec_output_fputc]
    refine ⟨fun _ => sink_post_early _ _ ?_, fun _ _ _ => sink_post_early _ _ ?_,
      fun _ _ st _ => ?_⟩
    · simp [hopened, codec_output, Event.output]
    · simp [hopened, codec_output, Event.output]
    · apply pump_induction _ (SinkInv _)
      · intro s hs
        exact sink_post_of_inv _ s none [] rfl hs
      · exact compress_body_sink env c _
      · simp [SinkInv, compress_start, hopened, codec_output, Event.output]

theorem length_byte (n i : Nat) (hi : i < 8) :
    (n % 2 ^ 64) / 2 ^ (8 * i) % 256 = (n >>> (8 * i)) &&& 0xFF := by
  rw [and_255, Nat.shiftRight_eq_div_pow]
  interval_cases i <;> omega

/-- Claim C2. Header layout: in every run of `compress_streaming` that opened both files,
for every options value and source, the destination file starts with the four
characters `LZH0`, has the dictionary-size exponent reduced to one byte at offset 4
and the byte `(n >> 8i) & 0xFF` of the source length `n` at offset `5 + i` for
`i < 8`; from offset 13 on it holds the bytes the codec produced, in call order, and
nothing else (all of them unless a write failed). -/
theorem header_layout {σ : Type} (env : Env) (c : Codec lzham_compress_params σ)
    (options : comp_options) (fuel : Nat) (file : List Byte) (hsrc : env.src = some file)
    (hdst : env.dst_ok = true) :
    ((compress_streaming env c options fuel).dst.take 4).map (fun x => Char.ofNat x.val) =
      ['L', 'Z', 'H', '0'] ∧
    ((compress_streaming env c options fuel).dst[4]?).map (fun x => (x.val : Int)) =
      some (options.m_dict_size_log2 % 256) ∧
    (∀ i, i < 8 → ((compress_streaming env c options fuel).dst[5 + i]?).map Fin.val =
      some ((file.length >>> (8 * i)) &&& 0xFF)) ∧
    (∃ k, (compress_streaming env c options fuel).dst.drop 13 =
      (codec_output (compress_streaming env c options fuel).trace).take k) ∧
    ((compress_streaming env c options fuel).ret ≠ some false →
      (compress_streaming env c options fuel).dst.drop 13 =
        codec_output (compress_streaming env c options fuel).trace) := by
  obtain ⟨⟨k, hk⟩, hall⟩ := compress_streaming_sink env c options fuel file hsrc hdst
  rw [write_header_eq] at hk hall
  refine ⟨?_, ?_, ?_, ⟨k, ?_⟩, fun h => ?_⟩
  · rw [hk]
    simp only [List.cons_append, List.take, List.map_cons, List.map_nil]
    decide
  · rw [hk]
    simp only [List.cons_append, List.getElem?_cons_succ, List.getElem?_cons_zero,
      Option.map_some', toByte, Option.some.injEq]
    omega
  · intro i hi
    rw [hk, ← length_byte _ i hi]
    interval_cases i <;>
      simp only [List.cons_append, List.getElem?_cons_succ, List.getElem?_cons_zero,
        Option.map_some', toByte_val_natCast, Option.some.injEq] <;> omega
  · rw [hk]
    rfl
  · rw [hall h]
    rfl

/-- Witness of `header_layout`: a run on a three-byte source. -/
theorem header_layout_witness :
    (compress_streaming (Env.ideal [1, 2, 3]) two_call_codec (comp_options.default x86)
      5).dst = [76, 90, 72, 48, 26, 3, 0, 0, 0, 0, 0, 0, 0, 7, 9] ∧
    (compress_streaming (Env.ideal [1, 2, 3]) two_call_codec (comp_options.default x86)
      5).dst.drop 13 = codec_output (compress_streaming (Env.ideal [1, 2, 3]) two_call_codec
        (comp_options.default x86) 5).trace :=
  ⟨by decide, (header_layout (Env.ideal [1, 2, 3]) two_call_codec (comp_options.default x86) 5
    [1, 2, 3] rfl rfl).2.2.2.2 (by decide)⟩

/-- Witness of `header_round_trip`: the header written for exponent 20 and length 1000,
followed by one payload byte. -/
theorem header_round_trip_witness :
    ∃ h, decompress_header (Env.ideal (write_header 20 1000 ++ [5])) = .ok h ∧
      h.dict_size = 20 ∧ h.orig_file_size = 1000 ∧ h.total_header_bytes = 13 ∧ h.file = [5] ∧
      ∀ (σ : Type) (c : Codec lzham_decompress_params σ) (options : comp_options)
        (fuel : Nat),
        decompress_file x86 (Env.ideal (write_header 20 1000 ++ [5])) c options fuel =
          decompress_from x86 (Env.ideal (write_header 20 1000 ++ [5])) c options h fuel :=
  header_round_trip x86 (Env.ideal (write_header 20 1000 ++ [5])) 20 1000 5 [] (by decide)
    (by decide) (by decide) rfl (by decide) rfl

/-! ## Exits of the pumps on concrete runs -/

/-- Claim C4 fails in `decompress_file`: on a container with two payload bytes whose
decompressor succeeds after consuming one, one source byte is left over, the message
about it is printed, and the function still returns success; `compress_streaming` on
a source of two bytes with the same codec behaviour returns failure. -/
theorem unconsumed_input_accepted_by_decompress_file :
    (decompress_file x86 (Env.ideal container_with_spare_byte) one_byte_codec
      (comp_options.default x86) 3).src_bytes_left = 1 ∧
    Event.print_error (Err.failed_to_read 1) ∈
      (decompress_file x86 (Env.ideal container_with_spare_byte) one_byte_codec
        (comp_options.default x86) 3).trace ∧
    (decompress_file x86 (Env.ideal container_with_spare_byte) one_byte_codec
      (comp_options.default x86) 3).ret = some true ∧
    (compress_streaming (Env.ideal [1, 2]) one_byte_codec (comp_options.default x86)
      3).src_bytes_left = 1 ∧
    (compress_streaming (Env.ideal [1, 2]) one_byte_codec (comp_options.default x86)
      3).ret = some false := by
  decide

/-- Claim C6 fails in `compress_streaming`: when a read of the source comes back short, or
a write of the destination does, the compressor that was initialised is never passed
to `lzham_compress_deinit`; `lzham_decompress_deinit` is called on it instead. -/
theorem compress_streaming_short_read_calls_decompress_deinit :
    (Event.init Dir.comp true ∈
      (compress_streaming (Env.unreadable [1, 2, 3]) idle_codec (comp_options.default x86)
        3).trace ∧
    (compress_streaming (Env.unreadable [1, 2, 3]) idle_codec (comp_options.default x86)
      3).ret = some false ∧
    (compress_streaming (Env.unreadable [1, 2, 3]) idle_codec (comp_options.default x86)
      3).trace.count (Event.deinit Dir.comp) = 0 ∧
    (compress_streaming (Env.unreadable [1, 2, 3]) idle_codec (comp_options.default x86)
      3).trace.count (Event.deinit Dir.decomp) = 1) ∧
    (Event.init Dir.comp true ∈
      (compress_streaming (Env.unwritable [1, 2, 3]) two_call_codec (comp_options.default x86)
        3).trace ∧
    (compress_streaming (Env.unwritable [1, 2, 3]) two_call_codec (comp_options.default x86)
      3).ret = some false ∧
    (compress_streaming (Env.unwritable [1, 2, 3]) two_call_codec (comp_options.default x86)
      3).trace.count (Event.deinit Dir.comp) = 0 ∧
    (compress_streaming (Env.unwritable [1, 2, 3]) two_call_codec (comp_options.default x86)
      3).trace.count (Event.deinit Dir.decomp) = 1) := by
  decide

/-! ## Rejected containers -/

/-- A source of fewer than fourteen bytes makes `decompress_file` return right after
the size check. -/
theorem decompress_file_small {σ : Type} (b : Build) (env : Env)
    (c : Codec lzham_decompress_params σ) (options : comp_options) (fuel : Nat)
    (file : List Byte) (hsrc : env.src = some file) (hlen : file.length < 14) :
    decompress_file b env c options fuel = Run.early false []
      [Event.fopen FileId.pInFile true, Event.print_error Err.too_small,
        Event.fclose FileId.pInFile] := by
  have hmod : file.length % 2 ^ 64 < 14 := lt_of_le_of_lt (Nat.mod_le _ _) hlen
  refine decompress_file_elim b env c options (fun f => f fuel = Run.early false []
    [Event.fopen FileId.pInFile true, Event.print_error Err.too_small,
      Event.fclose FileId.pInFile]) ?_ ?_ ?_
  · intro h
    rw [hsrc] at h
    cases h
  · intro _ _ _
    rfl
  · intro b0 b1 b2 b3 b4 b5 b6 b7 b8 b9 b10 b11 b12 rest hs hge
    rw [hsrc] at hs
    cases hs
    simp only [List.length_cons] at hmod
    omega

/-- Claim C9. Truncated header: for every source with fewer bytes than the 13-byte header,
`decompress_file` fails as too small right after the size check; it makes no `fgetc`
call, so no header field is decoded and no end-of-file value is read. -/
theorem truncated_header_rejected {σ : Type} (b : Build) (env : Env)
    (c : Codec lzham_decompress_params σ) (options : comp_options) (fuel : Nat)
    (file : List Byte) (hsrc : env.src = some file) (hlen : file.length < 13) :
    (decompress_file b env c options fuel).ret = some false ∧
    (decompress_file b env c options fuel).trace =
      [Event.fopen FileId.pInFile true, Event.print_error Err.too_small,
        Event.fclose FileId.pInFile] ∧
    (∀ x, Event.fgetc x ∉ (decompress_file b env c options fuel).trace) ∧
    (decompress_file b env c options fuel).dst = [] := by
  rw [decompress_file_small b env c options fuel file hsrc (by omega)]
  simp [Run.early]

/-- Witness of `truncated_header_rejected`: a source of twelve bytes that start like a
valid header. -/
theorem truncated_header_rejected_witness :
    (decompress_file x86 (Env.ideal ((write_header 26 5).take 12)) idle_codec
      (comp_options.default x86) 3).ret = some false ∧
    ∀ x, Event.fgetc x ∉ (decompress_file x86 (Env.ideal ((write_header 26 5).take 12))
      idle_codec (comp_options.default x86) 3).trace :=
  ⟨(truncated_header_rejected x86 (Env.ideal ((write_header 26 5).take 12)) idle_codec
      (comp_options.default x86) 3 ((write_header 26 5).take 12) rfl (by decide)).1,
   (truncated_header_rejected x86 (Env.ideal ((write_header 26 5).take 12)) idle_codec
      (comp_options.default x86) 3 ((write_header 26 5).take 12) rfl (by decide)).2.2.1⟩

theorem codec_calls_header_prefix (b0 b1 b2 b3 b4 : Byte) (u : List Event) :
    codec_calls (header_prefix_trace b0 b1 b2 b3 b4 ++ u) = codec_calls u := by
  simp [codec_calls, header_prefix_trace, Event.isCodec]

/-- Claim C7. Bad magic: for every container, of any length and with any content after the
tag, whose first four bytes are not exactly `LZH0`, `decompress_file` fails, and it
does so without a call of the codec and without creating the destination file. -/
theorem bad_magic_rejected {σ : Type} (b : Build) (env : Env)
    (c : Codec lzham_decompress_params σ) (options : comp_options) (fuel : Nat)
    (file : List Byte) (hsrc : env.src = some file)
    (hmagic : (file.take 4).map (fun x => Char.ofNat x.val) ≠ ['L', 'Z', 'H', '0']) :
    (decompress_file b env c options fuel).ret = some false ∧
    codec_calls (decompress_file b env c options fuel).trace = [] ∧
    (∀ ok, Event.fopen FileId.pOutFile ok ∉ (decompress_file b env c options fuel).trace) := by
  refine decompress_file_elim b env c options (fun f => (f fuel).ret = some false ∧
    codec_calls (f fuel).trace = [] ∧ ∀ ok, Event.fopen FileId.pOutFile ok ∉ (f fuel).trace)
    ?_ ?_ ?_
  · intro h
    rw [hsrc] at h
    cases h
  · intro _ _ _
    simp [Run.early, codec_calls, Event.isCodec]
  · intro b0 b1 b2 b3 b4 b5 b6 b7 b8 b9 b10 b11 b12 rest hs _
    rw [hsrc] at hs
    cases hs
    have hgood : (b0.val = 76 ∧ b1.val = 90 ∧ b2.val = 72 ∧ b3.val = 48) → False := by
      rintro ⟨m0, m1, m2, m3⟩
      apply hmagic
      simp only [List.take, List.map_cons, List.map_nil, m0, m1, m2, m3]
    refine ⟨fun _ => ?_, fun h => (hgood h).elim, fun h => (hgood h).elim,
      fun h => (hgood h).elim⟩
    simp [Run.early, codec_calls_header_prefix, codec_calls, Event.isCodec,
      header_prefix_trace]

/-- Witness of `bad_magic_rejected`: a valid container whose fourth byte is changed from
`0` to `1`. -/
theorem bad_magic_rejected_witness :
    (decompress_file x86 (Env.ideal ([76, 90, 72, 49] ++ (write_header 26 0).drop 4 ++ [0]))
      idle_codec (comp_options.default x86) 3).ret = some false ∧
    codec_calls (decompress_file x86
      (Env.ideal ([76, 90, 72, 49] ++ (write_header 26 0).drop 4 ++ [0]))
      idle_codec (comp_options.default x86) 3).trace = [] :=
  ⟨(bad_magic_rejected x86 (Env.ideal ([76, 90, 72, 49] ++ (write_header 26 0).drop 4 ++ [0]))
      idle_codec (comp_options.default x86) 3 _ rfl (by decide)).1,
   (bad_magic_rejected x86 (Env.ideal ([76, 90, 72, 49] ++ (write_header 26 0).drop 4 ++ [0]))
      idle_codec (comp_options.default x86) 3 _ rfl (by decide)).2.1⟩

/-- Claim C8, amended. Bad dictionary size: on every build, for every container with a
correct tag whose exponent byte lies outside `[LZHAM_MIN_DICT_SIZE_LOG2,
LZHAM_MAX_DICT_SIZE_LOG2_X64] = [15, 29]`, `decompress_file` fails without a call of
the codec and without creating the destination file; the error is the invalid-header
error when the container has at least fourteen bytes, and the too-small error
otherwise. -/
theorem bad_dict_size_rejected {σ : Type} (b : Build) (env : Env)
    (c : Codec lzham_decompress_params σ) (options : comp_options) (fuel : Nat)
    (file : List Byte) (e : Byte) (hsrc : env.src = some file)
    (hmagic : (file.take 4).map (fun x => Char.ofNat x.val) = ['L', 'Z', 'H', '0'])
    (hexp : file[4]? = some e)
    (hout : (e.val : Int) < LZHAM_MIN_DICT_SIZE_LOG2 ∨ LZHAM_MAX_DICT_SIZE_LOG2_X64 < (e.val : Int)) :
    (decompress_file b env c options fuel).ret = some false ∧
    codec_calls (decompress_file b env c options fuel).trace = [] ∧
    (∀ ok, Event.fopen FileId.pOutFile ok ∉ (decompress_file b env c options fuel).trace) ∧
    (14 ≤ file.length → file.length < 2 ^ 64 →
      Event.print_error Err.invalid_header ∈ (decompress_file b env c options fuel).trace) ∧
    (file.length < 14 →
      Event.print_error Err.too_small ∈ (decompress_file b env c options fuel).trace) := by
  refine decompress_file_elim b env c options (fun f => (fun r : Run => r.ret = some false ∧
    codec_calls r.trace = [] ∧ (∀ ok, Event.fopen FileId.pOutFile ok ∉ r.trace) ∧
    (14 ≤ file.length → file.length < 2 ^ 64 → Event.print_error Err.invalid_header ∈ r.trace) ∧
    (file.length < 14 → Event.print_error Err.too_small ∈ r.trace)) (f fuel)) ?_ ?_ ?_
  · intro h
    rw [hsrc] at h
    cases h
  · intro f hf hlt
    rw [hsrc] at hf
    cases hf
    refine ⟨rfl, by simp [Run.early, codec_calls, Event.isCodec], by simp [Run.early], ?_,
      by simp [Run.early]⟩
    intro h14 h64
    rw [Nat.mod_eq_of_lt h64] at hlt
    omega
  · intro b0 b1 b2 b3 b4 b5 b6 b7 b8 b9 b10 b11 b12 rest hs _
    rw [hsrc] at hs
    cases hs
    have he : e = b4 := by
      simp only [List.getElem?_cons_succ, List.getElem?_cons_zero, Option.some.injEq] at hexp
      exact hexp.symm
    subst he
    have hbad : (15 ≤ e.val ∧ e.val ≤ 29) → False := by
      intro h
      simp only [LZHAM_MIN_DICT_SIZE_LOG2, LZHAM_MAX_DICT_SIZE_LOG2_X64] at hout
      omega
    have hrun : ∀ u, u = [Event.print_error Err.invalid_header, Event.fclose FileId.pInFile] →
        (fun r : Run => r.ret = some false ∧ codec_calls r.trace = [] ∧
          (∀ ok, Event.fopen FileId.pOutFile ok ∉ r.trace) ∧
          (14 ≤ (b0 :: b1 :: b2 :: b3 :: e :: b5 :: b6 :: b7 :: b8 :: b9 :: b10 :: b11 ::
            b12 :: rest).length →
            (b0 :: b1 :: b2 :: b3 :: e :: b5 :: b6 :: b7 :: b8 :: b9 :: b10 :: b11 ::
              b12 :: rest).length < 2 ^ 64 → Event.print_error Err.invalid_header ∈ r.trace) ∧
          ((b0 :: b1 :: b2 :: b3 :: e :: b5 :: b6 :: b7 :: b8 :: b9 :: b10 :: b11 ::
            b12 :: rest).length < 14 → Event.print_error Err.too_small ∈ r.trace))
          (Run.early false [] (header_prefix_trace b0 b1 b2 b3 e ++ u)) := by
      intro u hu
      subst hu
      refine ⟨rfl, by simp [Run.early, codec_calls, Event.isCodec, header_prefix_trace],
        by simp [Run.early, header_prefix_trace], fun _ _ => by simp [Run.early], ?_⟩
      intro h
      simp only [List.length_cons] at h
      omega
    exact ⟨fun _ => hrun _ rfl, fun _ _ => hrun _ rfl, fun _ h _ => (hbad h).elim,
      fun _ h _ => (hbad h).elim⟩

/-- Witness of `bad_dict_size_rejected`: a container with the exponent 30. -/
theorem bad_dict_size_rejected_witness :
    (decompress_file x86 (Env.ideal (write_header 30 0 ++ [0])) idle_codec
      (comp_options.default x86) 3).ret = some false ∧
    Event.print_error Err.invalid_header ∈
      (decompress_file x86 (Env.ideal (write_header 30 0 ++ [0])) idle_codec
        (comp_options.default x86) 3).trace :=
  ⟨(bad_dict_size_rejected x86 (Env.ideal (write_header 30 0 ++ [0])) idle_codec
      (comp_options.default x86) 3 (write_header 30 0 ++ [0]) 30 rfl (by decide) (by decide)
      (by decide)).1,
   (bad_dict_size_rejected x86 (Env.ideal (write_header 30 0 ++ [0])) idle_codec
      (comp_options.default x86) 3 (write_header 30 0 ++ [0]) 30 rfl (by decide) (by decide)
      (by decide)).2.2.2.1 (by decide) (by decide)⟩

/-- Claim C8 as stated fails on a build without `_WIN64`: the platform maximum is 26, yet
a container with the exponent 27 passes the header check, the codec is called and
`decompress_file` returns success. -/
theorem exponent_above_platform_max_accepted :
    LZHAMTEST_MAX_POSSIBLE_DICT_SIZE x86 = 26 ∧
    (container_exponent_27.take 4).map (fun x => Char.ofNat x.val) = ['L', 'Z', 'H', '0'] ∧
    container_exponent_27[4]? = some 27 ∧
    (decompress_file x86 (Env.ideal container_exponent_27) one_byte_codec
      (comp_options.default x86) 3).ret = some true ∧
    Event.print_error Err.invalid_header ∉
      (decompress_file x86 (Env.ideal container_exponent_27) one_byte_codec
        (comp_options.default x86) 3).trace ∧
    codec_calls (decompress_file x86 (Env.ideal container_exponent_27) one_byte_codec
      (comp_options.default x86) 3).trace ≠ [] := by
  decide

/-! ## Status propagation -/

@[simp] theorem statuses_append (t u : List Event) :
    statuses (t ++ u) = statuses t ++ statuses u := by
  simp [statuses]

theorem halted_append (errs : List Err) (t u : List Event) :
    halted errs (t ++ u) ↔ halted errs t ∨ halted errs u := by
  simp only [halted, List.mem_append]
  constructor
  · rintro ⟨e, he, h | h⟩
    · exact Or.inl ⟨e, he, h⟩
    · exact Or.inr ⟨e, he, h⟩
  · rintro (⟨e, he, h⟩ | ⟨e, he, h⟩)
    · exact ⟨e, he, Or.inl h⟩
    · exact ⟨e, he, Or.inr h⟩

theorem not_halted_of_no_error (errs : List Err) (u : List Event)
    (hu : ∀ e, Event.print_error e ∉ u) : ¬ halted errs u := by
  rintro ⟨e, _, h⟩
  exact hu e h

theorem compress_finish_status {σ : Type} (s : Session σ) (status : Status) :
    (compress_finish s status).ret ≠ none ∧
    statuses (compress_finish s status).trace = statuses s.trace ∧
    (status ≠ Status.SUCCESS → (compress_finish s status).ret = some false) := by
  simp only [compress_finish]
  split_ifs with h1 h2 <;> simp [Session.exit, statuses, Event.status?, h1]

theorem decompress_finish_status {σ : Type} (s : Session σ) (status : Status) :
    (decompress_finish s status).ret ≠ none ∧
    statuses (decompress_finish s status).trace = statuses s.trace ∧
    (status ≠ Status.SUCCESS → (decompress_finish s status).ret = some false) := by
  simp only [decompress_finish]
  split_ifs with h1 h2 h3 <;> simp [Session.exit, statuses, Event.status?, h1]

theorem halted_step_iff {σ : Type} (errs : List Err) (s : Session σ) (d : Dir)
    (call : StepCall) (res : StepResult σ) :
    halted errs (s.stepped d call res).trace ↔ halted errs s.trace := by
  rw [stepped_trace, halted_append]
  have : ¬ halted errs [Event.step d call res.status res.num_in_bytes res.out_bytes] :=
    not_halted_of_no_error _ _ (by simp)
  tauto

theorem halted_fwrite_iff {σ : Type} (errs : List Err) (env : Env) (s : Session σ)
    (o : List Byte) : halted errs (fwrite env s o).1.trace ↔ halted errs s.trace := by
  rw [fwrite_trace, halted_append]
  have : ¬ halted errs [Event.fwrite (toUint o.length) (fwrite env s o).2] :=
    not_halted_of_no_error _ _ (by simp)
  tauto

theorem compress_step_status {σ : Type} (env : Env) (c : Codec lzham_compress_params σ)
    (errs : List Err) (hw : Err.failure_writing ∈ errs) (s : Session σ) :
    StepSpec errs s (compress_step env c s) := by
  apply compress_step_elim
  · intro res s3 _ hs3 _
    subst hs3
    have hst : statuses (s.stepped Dir.comp (s.call LZHAMTEST_COMP_OUTPUT_BUFFER_SIZE) res).trace =
        statuses s.trace ++ [res.status] := by
      simp [statuses, Event.status?]
    refine ⟨fun hc => ⟨res.status, hc, hst, halted_step_iff _ _ _ _ _⟩, fun hc => ?_⟩
    obtain ⟨f1, f2, f3⟩ := compress_finish_status
      (s.stepped Dir.comp (s.call LZHAMTEST_COMP_OUTPUT_BUFFER_SIZE) res) res.status
    exact ⟨f1, res.status, by rw [f2, hst], Or.inr ⟨hc, f3⟩⟩
  · intro res s3 _ hs3 _ _
    subst hs3
    refine ⟨by simp [Session.exit], res.status,
      by simp [Session.exit, compress_cleanup, statuses, Event.status?], ?_⟩
    have hh : halted errs ((fwrite env (s.stepped Dir.comp
        (s.call LZHAMTEST_COMP_OUTPUT_BUFFER_SIZE) res) res.out_bytes).1.exit (some false)
        (compress_cleanup Err.failure_writing)).trace :=
      ⟨Err.failure_writing, hw, by simp [Session.exit, compress_cleanup]⟩
    cases hc : res.status.continues
    · exact Or.inr ⟨rfl, fun _ => rfl⟩
    · exact Or.inl ⟨rfl, hh, rfl⟩
  · intro res s3 s5 _ hs3 _ _ hs5
    subst hs5 hs3
    have hst : statuses (fwrite env (s.stepped Dir.comp
        (s.call LZHAMTEST_COMP_OUTPUT_BUFFER_SIZE) res) res.out_bytes).1.trace =
        statuses s.trace ++ [res.status] := by
      simp [statuses, Event.status?]
    have hh := (halted_fwrite_iff errs env (s.stepped Dir.comp
      (s.call LZHAMTEST_COMP_OUTPUT_BUFFER_SIZE) res) res.out_bytes).trans
      (halted_step_iff errs s Dir.comp _ res)
    refine ⟨fun hc => ⟨res.status, hc, hst, hh⟩, fun hc => ?_⟩
    obtain ⟨f1, f2, f3⟩ := compress_finish_status
      { (fwrite env (s.stepped Dir.comp (s.call LZHAMTEST_COMP_OUTPUT_BUFFER_SIZE) res)
        res.out_bytes).1 with
        total_output_bytes := (s.total_output_bytes + res.out_bytes.length) % 2 ^ 64 }
      res.status
    exact ⟨f1, res.status, by rw [f2]; exact hst, Or.inr ⟨hc, f3⟩⟩

theorem decompress_step_status {σ : Type} (env : Env) (c : Codec lzham_decompress_params σ)
    (out_buf_size : Nat) (errs : List Err) (hw : Err.failure_writing ∈ errs)
    (ho : Err.wrote_too_many ∈ errs) (s : Session σ) :
    StepSpec errs s (decompress_step env c out_buf_size s) := by
  apply decompress_step_elim
  · intro res s3 _ hs3 _
    subst hs3
    have hst : statuses (s.stepped Dir.decomp (s.call out_buf_size) res).trace =
        statuses s.trace ++ [res.status] := by
      simp [statuses, Event.status?]
    refine ⟨fun hc => ⟨res.status, hc, hst, halted_step_iff _ _ _ _ _⟩, fun hc => ?_⟩
    obtain ⟨f1, f2, f3⟩ := decompress_finish_status
      (s.stepped Dir.decomp (s.call out_buf_size) res) res.status
    exact ⟨f1, res.status, by rw [f2, hst], Or.inr ⟨hc, f3⟩⟩
  · intro res s3 _ hs3 _ _
    subst hs3
    refine ⟨by simp [Session.exit], res.status,
      by simp [Session.exit, decompress_cleanup, statuses, Event.status?], ?_⟩
    have hh : halted errs ((fwrite env (s.stepped Dir.decomp (s.call out_buf_size) res)
        res.out_bytes).1.exit (some false) (decompress_cleanup Err.failure_writing)).trace :=
      ⟨Err.failure_writing, hw, by simp [Session.exit, decompress_cleanup]⟩
    cases hc : res.status.continues
    · exact Or.inr ⟨rfl, fun _ => rfl⟩
    · exact Or.inl ⟨rfl, hh, rfl⟩
  · intro res s3 _ hs3 _ _ _
    subst hs3
    refine ⟨by simp [Session.exit], res.status,
      by simp [Session.exit, decompress_cleanup, statuses, Event.status?], ?_⟩
    have hh : halted errs ((fwrite env (s.stepped Dir.decomp (s.call out_buf_size) res)
        res.out_bytes).1.exit (some false) (decompress_cleanup Err.wrote_too_many)).trace :=
      ⟨Err.wrote_too_many, ho, by simp [Session.exit, decompress_cleanup]⟩
    cases hc : res.status.continues
    · exact Or.inr ⟨rfl, fun _ => rfl⟩
    · exact Or.inl ⟨rfl, hh, rfl⟩
  · intro res s3 s5 _ hs3 _ _ _ hs5
    subst hs5 hs3
    have hst : statuses (fwrite env (s.stepped Dir.decomp (s.call out_buf_size) res)
        res.out_bytes).1.trace = statuses s.trace ++ [res.status] := by
      simp [statuses, Event.status?]
    have hh := (halted_fwrite_iff errs env (s.stepped Dir.decomp (s.call out_buf_size) res)
      res.out_bytes).trans (halted_step_iff errs s Dir.decomp _ res)
    refine ⟨fun hc => ⟨res.status, hc, hst, hh⟩, fun hc => ?_⟩
    obtain ⟨f1, f2, f3⟩ := decompress_finish_status
      { (fwrite env (s.stepped Dir.decomp (s.call out_buf_size) res) res.out_bytes).1 with
        dst_bytes_left := s.dst_bytes_left - res.out_bytes.length } res.status
    exact ⟨f1, res.status, by rw [f2]; exact hst, Or.inr ⟨hc, f3⟩⟩

theorem iter_spec_of_step {σ : Type} (errs : List Err) (s s1 : Session σ)
    (x : Session σ ⊕ Run) (hst : statuses s1.trace = statuses s.trace)
    (hh : halted errs s1.trace ↔ halted errs s.trace) (hx : StepSpec errs s1 x) :
    IterSpec errs s x := by
  cases x with
  | inl s2 =>
    obtain ⟨st, h1, h2, h3⟩ := hx
    exact ⟨st, h1, by rw [h2, hst], h3.trans hh⟩
  | inr r =>
    obtain ⟨h1, st, h2, h3⟩ := hx
    exact Or.inr ⟨h1, st, by rw [h2, hst], h3⟩

theorem refill_status {σ : Type} (env : Env) (n : Nat) (rest : List Event)
    (errs : List Err) (s : Session σ) (x : Session σ ⊕ Run → Session σ ⊕ Run)
    (hrest : statuses rest = [])
    (hr : ∀ r, refill env n (Event.print_error Err.failure_reading :: rest) s = .inr r →
      x (.inr r) = .inr r)
    (hx : ∀ s1, refill env n (Event.print_error Err.failure_reading :: rest) s = .inl s1 →
      StepSpec errs s1 (x (.inl s1))) :
    IterSpec errs s (x (refill env n (Event.print_error Err.failure_reading :: rest) s)) := by
  cases hrf : refill env n (Event.print_error Err.failure_reading :: rest) s with
  | inr r =>
    rw [hr r hrf]
    obtain ⟨k, got, _, rfl⟩ := refill_inr _ _ _ _ _ hrf
    have h1 : statuses (Event.print_error Err.failure_reading :: rest) = [] := by
      simpa [statuses, Event.status?] using hrest
    have h2 : statuses [Event.fread k got] = [] := rfl
    exact Or.inl ⟨rfl, by simp only [statuses_append, h1, h2, List.append_nil], by simp⟩
  | inl s1 =>
    have h1 := hx s1 hrf
    rcases refill_inl _ _ _ _ _ hrf with ⟨_, rfl⟩ | ⟨_, k, _, _, rfl⟩
    · exact iter_spec_of_step errs _ _ _ rfl Iff.rfl h1
    · refine iter_spec_of_step errs _ _ _ ?_ ?_ h1
      · simp [statuses, Event.status?]
      · simp only [halted_append]
        have : ¬ halted errs [Event.fread k k] := not_halted_of_no_error _ _ (by simp)
        tauto

theorem compress_body_status {σ : Type} (env : Env) (c : Codec lzham_compress_params σ)
    (errs : List Err) (hw : Err.failure_writing ∈ errs) (s : Session σ) :
    IterSpec errs s (compress_body env c s) := by
  have h := refill_status env LZHAMTEST_COMP_INPUT_BUFFER_SIZE
    [Event.fclose FileId.pInFile, Event.fclose FileId.pOutFile, Event.deinit Dir.decomp]
    errs s (fun y => match y with
      | .inr r => .inr r
      | .inl s1 => compress_step env c s1) rfl (fun _ _ => rfl)
    (fun s1 _ => compress_step_status env c errs hw s1)
  exact h

theorem decompress_body_status {σ : Type} (env : Env) (c : Codec lzham_decompress_params σ)
    (out_buf_size : Nat) (errs : List Err) (hw : Err.failure_writing ∈ errs)
    (ho : Err.wrote_too_many ∈ errs) (s : Session σ) :
    IterSpec errs s (decompress_body env c out_buf_size s) := by
  have h := refill_status env LZHAMTEST_DECOMP_INPUT_BUFFER_SIZE
    [Event.deinit Dir.decomp, Event.fclose FileId.pInFile, Event.fclose FileId.pOutFile]
    errs s (fun y => match y with
      | .inr r => .inr r
      | .inl s1 => decompress_step env c out_buf_size s1) rfl (fun _ _ => rfl)
    (fun s1 _ => decompress_step_status env c out_buf_size errs hw ho s1)
  exact h

/-- Rule relating the run allowed `fuel + 1` iterations to the run allowed `fuel`. -/
theorem pump_succ_induction {σ : Type} (body : Session σ → Session σ ⊕ Run)
    (Rel : Run → Run → Prop)
    (hbase : ∀ s, Rel (s.exit none []) (pump body 1 s))
    (hdone : ∀ s r, body s = .inr r → Rel r r) :
    ∀ fuel s, Rel (pump body fuel s) (pump body (fuel + 1) s) := by
  intro fuel
  induction fuel with
  | zero => intro s; exact hbase s
  | succ k ih =>
    intro s
    rw [pump, pump]
    cases hb : body s with
    | inl s1 => exact ih s1
    | inr r => exact hdone s r hb

theorem pump_modes {σ : Type} (body : Session σ → Session σ ⊕ Run) (errs : List Err)
    (hread : Err.failure_reading ∈ errs) (hspec : ∀ s, IterSpec errs s (body s))
    (fuel : Nat) (s0 : Session σ) (h0 : LoopInv errs s0) :
    RunMode errs (pump body fuel s0) := by
  refine pump_induction body (LoopInv errs) (RunMode errs) ?_ ?_ fuel s0 h0
  · intro s hs
    exact Or.inl ⟨rfl, by simpa [Session.exit] using hs.1, by simpa [Session.exit] using hs.2⟩
  · intro s hs
    have h := hspec s
    cases hb : body s with
    | inl s1 =>
      rw [hb] at h
      obtain ⟨st, h1, h2, h3⟩ := h
      refine ⟨?_, fun hh => hs.2 (h3.mp hh)⟩
      intro x hx
      rw [h2, List.mem_append, List.mem_singleton] at hx
      rcases hx with hx | rfl
      · exact hs.1 x hx
      · exact h1
    | inr r =>
      rw [hb] at h
      rcases h with ⟨h1, h2, h3⟩ | ⟨h1, st, h2, ⟨h3, h4, h5⟩ | ⟨h3, h4⟩⟩
      · exact Or.inr (Or.inl ⟨h1, by rw [h2]; exact hs.1, Err.failure_reading, hread, h3⟩)
      · refine Or.inr (Or.inl ⟨h5, ?_, h4⟩)
        intro x hx
        rw [h2, List.mem_append, List.mem_singleton] at hx
        rcases hx with hx | rfl
        · exact hs.1 x hx
        · exact h3
      · exact Or.inr (Or.inr (Or.inl ⟨h1, statuses s.trace, st, h2, hs.1, h3, h4⟩))

theorem pump_succ_rel {σ : Type} (body : Session σ → Session σ ⊕ Run) (errs : List Err)
    (hspec : ∀ s, IterSpec errs s (body s)) (fuel : Nat) (s0 : Session σ) :
    SuccRel (pump body fuel s0) (pump body (fuel + 1) s0) := by
  have hret : ∀ s r, body s = .inr r → r.ret ≠ none := by
    intro s r hb
    have h := hspec s
    rw [hb] at h
    rcases h with ⟨h1, _⟩ | ⟨h1, _⟩
    · rw [h1]
      simp
    · exact h1
  refine pump_succ_induction body SuccRel ?_ ?_ fuel s0
  · intro s
    refine ⟨fun h => absurd rfl h, fun _ => ?_⟩
    have h := hspec s
    rw [pump]
    cases hb : body s with
    | inl s1 =>
      rw [hb] at h
      obtain ⟨st, _, h2, _⟩ := h
      exact Or.inl ⟨st, by simpa [pump, Session.exit] using h2⟩
    | inr r =>
      rw [hb] at h
      rcases h with ⟨_, h2, h3⟩ | ⟨_, st, h2, _⟩
      · exact Or.inr ⟨h3, by simpa [Session.exit] using h2⟩
      · exact Or.inl ⟨st, by simpa [Session.exit] using h2⟩
  · intro s r hb
    exact ⟨fun _ => rfl, fun h => absurd h (hret s r hb)⟩

/-- Status propagation follows from the mode of every run and the relation between
consecutive runs. -/
theorem status_propagation_of_modes (errs : List Err) (f : Nat → Run)
    (hmode : ∀ fuel, RunMode errs (f fuel)) (hrel : ∀ fuel, SuccRel (f fuel) (f (fuel + 1))) :
    StatusPropagation errs f := by
  intro fuel
  obtain ⟨hsame, hnext⟩ := hrel fuel
  rcases hmode fuel with ⟨h1, h2, h3⟩ | ⟨h1, h2, h3⟩ | ⟨h1, pre, st, h2, h3, h4, h5⟩ | ⟨h1, h2⟩
  · refine ⟨fun x hx => h2 x (List.mem_of_mem_dropLast hx), fun x hx => ?_⟩
    have hmem : x ∈ statuses (f fuel).trace := List.mem_of_getLast?_eq_some hx
    refine ⟨fun hc => ?_, fun _ => ⟨⟨fun _ => h3, fun _ => h1⟩, hnext, fun hn => absurd h1 hn⟩⟩
    rw [h2 x hmem] at hc
    cases hc
  · have hne : (f fuel).ret ≠ none := by rw [h1]; simp
    refine ⟨fun x hx => h2 x (List.mem_of_mem_dropLast hx), fun x hx => ?_⟩
    have hmem : x ∈ statuses (f fuel).trace := List.mem_of_getLast?_eq_some hx
    refine ⟨fun hc => ?_, fun _ => ⟨⟨fun hn => absurd hn hne, fun hn => absurd h3 hn⟩,
      fun hn => absurd hn hne, fun _ => by rw [hsame hne]⟩⟩
    rw [h2 x hmem] at hc
    cases hc
  · refine ⟨fun x hx => ?_, fun x hx => ?_⟩
    · rw [h2, List.dropLast_concat] at hx
      exact h3 x hx
    · rw [h2, List.getLast?_concat] at hx
      cases hx
      refine ⟨fun _ => ⟨h1, h5, by rw [hsame h1]⟩, fun hc => ?_⟩
      rw [h4] at hc
      cases hc
  · refine ⟨fun x hx => ?_, fun x hx => ?_⟩
    · rw [h2] at hx
      cases hx
    · rw [h2] at hx
      cases hx

theorem pump_status_propagation {σ : Type} (body : Session σ → Session σ ⊕ Run)
    (errs : List Err) (hread : Err.failure_reading ∈ errs)
    (hspec : ∀ s, IterSpec errs s (body s)) (s0 : Session σ) (h0 : LoopInv errs s0) :
    StatusPropagation errs (fun fuel => pump body fuel s0) :=
  status_propagation_of_modes errs _ (fun fuel => pump_modes body errs hread hspec fuel s0 h0)
    (fun fuel => pump_succ_rel body errs hspec fuel s0)

theorem early_status_propagation (errs : List Err) (dst : List Byte) (t : List Event)
    (ht : statuses t = []) : StatusPropagation errs (fun _ => Run.early false dst t) :=
  status_propagation_of_modes errs _ (fun _ => Or.inr (Or.inr (Or.inr ⟨rfl, ht⟩)))
    (fun _ => ⟨fun _ => rfl, fun h => by simp [Run.early] at h⟩)

theorem statuses_fputc (l : List Byte) : statuses (l.map Event.fputc) = [] := by
  induction l with
  | nil => rfl
  | cons b l _ => simp [statuses, Event.status?]

theorem compress_start_loop_inv {σ : Type} (errs : List Err) (file header : List Byte)
    (st : σ) :
    LoopInv errs (compress_start file header
      (compress_opened header ++ [Event.init Dir.comp true]) st) := by
  constructor
  · have h : statuses (compress_opened header ++ [Event.init Dir.comp true]) = [] := by
      have h1 := statuses_fputc header
      simp only [compress_opened, statuses_append, h1]
      rfl
    intro x hx
    simp only [compress_start, h] at hx
    cases hx
  · apply not_halted_of_no_error
    simp [compress_start, compress_opened]

theorem compress_streaming_status {σ : Type} (env : Env) (c : Codec lzham_compress_params σ)
    (options : comp_options) :
    StatusPropagation io_errors (fun fuel => compress_streaming env c options fuel) := by
  apply compress_streaming_elim
  · intro _
    exact early_status_propagation _ _ _ rfl
  · intro _ _ _
    exact early_status_propagation _ _ _ rfl
  · intro file header _ _ _
    have hopened : statuses (compress_opened header) = [] := by
      have h1 := statuses_fputc header
      simp only [compress_opened, statuses_append, h1]
      rfl
    refine ⟨fun _ => early_status_propagation _ _ _ ?_,
      fun _ _ _ => early_status_propagation _ _ _ ?_, fun _ _ st _ => ?_⟩
    · rw [statuses_append, hopened]
      rfl
    · rw [statuses_append, hopened]
      rfl
    · exact pump_status_propagation (compress_body env c) io_errors (by simp [io_errors])
        (compress_body_status env c io_errors (by simp [io_errors])) _
        (compress_start_loop_inv io_errors file header st)

theorem decompress_file_status {σ : Type} (b : Build) (env : Env)
    (c : Codec lzham_decompress_params σ) (options : comp_options) :
    StatusPropagation decompress_stops (fun fuel => decompress_file b env c options fuel) := by
  apply decompress_file_elim
  · intro _
    exact early_status_propagation _ _ _ rfl
  · intro _ _ _
    exact early_status_propagation _ _ _ rfl
  · intro b0 b1 b2 b3 b4 b5 b6 b7 b8 b9 b10 b11 b12 rest _ _
    refine ⟨fun _ => early_status_propagation _ _ _ rfl,
      fun _ _ => early_status_propagation _ _ _ rfl,
      fun _ _ _ => early_status_propagation _ _ _ rfl, fun _ _ _ => ?_⟩
    apply decompress_from_elim
    · intro _
      exact early_status_propagation _ _ _ rfl
    · intro _ _
      exact early_status_propagation _ _ _ rfl
    · intro _ st _
      refine pump_status_propagation _ decompress_stops (by simp [decompress_stops])
        (decompress_body_status env c _ decompress_stops (by simp [decompress_stops])
          (by simp [decompress_stops])) _ ⟨?_, ?_⟩
      · intro x hx
        have h : statuses (decompress_start (header_of b4 b5 b6 b7 b8 b9 b10 b11 b12 rest
            (header_prefix_trace b0 b1 b2 b3 b4)) st).trace = [] := rfl
        rw [h] at hx
        cases hx
      · apply not_halted_of_no_error
        simp [decompress_start, header_of, header_prefix_trace]

/-- Claim C10, amended. Status propagation: in both pumps, at every point of a run, every
status but the last was NOT_FINISHED or NEEDS_MORE_INPUT; after a status that is
neither, no further call of the codec is made, the function has returned, and it has
returned failure unless that status is SUCCESS; after NOT_FINISHED or NEEDS_MORE_INPUT
the loop is still running exactly when no I/O error (and, in `decompress_file`, no
output overrun) has been reported, and then the next iteration calls the codec again
unless the read refilling the input chunk fails. -/
theorem status_propagation {σ τ : Type} (b : Build) (env : Env)
    (cc : Codec lzham_compress_params σ) (cd : Codec lzham_decompress_params τ)
    (options : comp_options) :
    StatusPropagation io_errors (fun fuel => compress_streaming env cc options fuel) ∧
    StatusPropagation (io_errors ++ [Err.wrote_too_many])
      (fun fuel => decompress_file b env cd options fuel) :=
  ⟨compress_streaming_status env cc options, decompress_file_status b env cd options⟩

/-- Claim C10 as stated fails in `decompress_file`: with one declared byte and a
decompressor whose first call puts out two bytes and returns NOT_FINISHED, no I/O error
occurs, yet the function has returned after that call and no further call is made. -/
theorem overrun_ends_loop_without_io_error :
    statuses (decompress_file x86 (Env.ideal container_of_one) two_byte_codec
      (comp_options.default x86) 1).trace = [Status.NOT_FINISHED] ∧
    ¬ halted io_errors (decompress_file x86 (Env.ideal container_of_one) two_byte_codec
      (comp_options.default x86) 1).trace ∧
    (decompress_file x86 (Env.ideal container_of_one) two_byte_codec
      (comp_options.default x86) 1).ret = some false ∧
    statuses (decompress_file x86 (Env.ideal container_of_one) two_byte_codec
      (comp_options.default x86) 2).trace = [Status.NOT_FINISHED] ∧
    ¬ StatusPropagation io_errors (fun fuel =>
      decompress_file x86 (Env.ideal container_of_one) two_byte_codec
        (comp_options.default x86) fuel) := by
  refine ⟨by decide, by decide, by decide, by decide, fun h => ?_⟩
  have h1 := ((h 1).2 Status.NOT_FINISHED (by decide)).2 rfl
  have h2 := h1.1.mpr (by decide)
  revert h2
  decide

/-! ## Further facts about the exits -/

/-- The part of claim C4 that holds: a run of `compress_streaming` that returns success
has consumed the whole source. -/
theorem compress_streaming_success_consumed {σ : Type} (env : Env)
    (c : Codec lzham_compress_params σ) (options : comp_options) (fuel : Nat)
    (hret : (compress_streaming env c options fuel).ret = some true) :
    (compress_streaming env c options fuel).src_bytes_left = 0 := by
  have hfinish : ∀ (s : Session σ) (status : Status),
      (compress_finish s status).ret = some true →
      (compress_finish s status).src_bytes_left = 0 := by
    intro s status
    simp only [compress_finish]
    split_ifs with h1 h2
    · simp [Session.exit]
    · simp [Session.exit]
    · intro _
      simpa [Session.exit] using h2
  have hbody : ∀ s : Session σ, Sum.elim (fun _ => True)
      (fun r : Run => r.ret = some true → r.src_bytes_left = 0) (compress_body env c s) := by
    intro s
    apply compress_body_elim
    · intro r hr
      obtain ⟨k, got, _, rfl⟩ := refill_inr _ _ _ _ _ hr
      simp
    · intro s1 _
      apply compress_step_elim
      · intro res s3 _ _ _
        exact ⟨fun _ => trivial, fun _ => hfinish _ _⟩
      · intro res s3 _ _ _ _
        simp [Session.exit]
      · intro res s3 s5 _ _ _ _ _
        exact ⟨fun _ => trivial, fun _ => hfinish _ _⟩
  revert hret
  refine compress_streaming_elim env c options
    (fun f => (f fuel).ret = some true → (f fuel).src_bytes_left = 0) ?_ ?_ ?_
  · intro _
    simp [Run.early]
  · intro _ _ _
    simp [Run.early]
  · intro file header _ _ _
    refine ⟨fun _ => by simp [Run.early], fun _ _ _ => by simp [Run.early],
      fun _ _ st _ => ?_⟩
    exact pump_induction (compress_body env c) (fun _ => True)
      (fun r => r.ret = some true → r.src_bytes_left = 0)
      (fun s _ => by simp [Session.exit]) (fun s _ => hbody s) fuel _ trivial

theorem deinit_calls_append (d : Dir) (t u : List Event) :
    deinit_calls d (t ++ u) = deinit_calls d t + deinit_calls d u := by
  simp [deinit_calls]

theorem deinit_calls_eq_zero (d : Dir) (t : List Event) (h : Event.deinit d ∉ t) :
    deinit_calls d t = 0 :=
  List.count_eq_zero.mpr h

theorem deinit_post_of_returned (r : Run) (hinit : Event.init Dir.decomp true ∈ r.trace)
    (hret : r.ret ≠ none) (h1 : deinit_calls Dir.decomp r.trace = 1)
    (h0 : deinit_calls Dir.comp r.trace = 0) : DeinitPost r := by
  refine ⟨h0, ?_⟩
  rw [if_pos ⟨hinit, hret⟩]
  exact h1

theorem deinit_post_early (t : List Event) (hinit : Event.init Dir.decomp true ∉ t)
    (h : ∀ d, Event.deinit d ∉ t) : DeinitPost (Run.early false [] t) := by
  refine ⟨deinit_calls_eq_zero _ _ (h _), ?_⟩
  rw [if_neg (fun h => hinit h.1)]
  exact deinit_calls_eq_zero _ _ (h _)

theorem decompress_finish_deinit {σ : Type} (s : Session σ) (status : Status)
    (hs : DeinitInv s) : DeinitPost (decompress_finish s status) := by
  obtain ⟨h1, h2, h3⟩ := hs
  simp only [decompress_finish]
  split_ifs <;>
  · apply deinit_post_of_returned
    · simp [Session.exit, h1]
    · simp [Session.exit]
    · simp only [Session.exit, deinit_calls_append, h2]
      rfl
    · simp only [Session.exit, deinit_calls_append, h3]
      rfl

theorem decompress_exit_deinit {σ : Type} (s : Session σ) (e : Err) (hs : DeinitInv s) :
    DeinitPost (s.exit (some false) (decompress_cleanup e)) := by
  obtain ⟨h1, h2, h3⟩ := hs
  apply deinit_post_of_returned
  · simp [Session.exit, h1]
  · simp [Session.exit]
  · simp only [Session.exit, deinit_calls_append, h2, decompress_cleanup]
    simp [deinit_calls]
  · simp only [Session.exit, deinit_calls_append, h3, decompress_cleanup]
    simp [deinit_calls]

theorem deinit_inv_of_trace {σ : Type} (s s1 : Session σ) (u : List Event)
    (hu : s1.trace = s.trace ++ u) (h : ∀ d, Event.deinit d ∉ u) (hs : DeinitInv s) :
    DeinitInv s1 := by
  obtain ⟨a, b, c⟩ := hs
  refine ⟨?_, ?_, ?_⟩
  · rw [hu]
    exact List.mem_append_left _ a
  · rw [hu, deinit_calls_append, b, deinit_calls_eq_zero _ _ (h _)]
  · rw [hu, deinit_calls_append, c, deinit_calls_eq_zero _ _ (h _)]

theorem decompress_body_deinit {σ : Type} (env : Env) (c : Codec lzham_decompress_params σ)
    (out_buf_size : Nat) (s : Session σ) (hs : DeinitInv s) :
    Sum.elim DeinitInv DeinitPost (decompress_body env c out_buf_size s) := by
  apply decompress_body_elim
  · intro r hr
    obtain ⟨k, got, _, rfl⟩ := refill_inr _ _ _ _ _ hr
    have hs1 : DeinitInv ({ s with trace := s.trace ++ [Event.fread k got] } : Session σ) :=
      deinit_inv_of_trace s _ [Event.fread k got] rfl (by simp) hs
    have h := decompress_exit_deinit _ Err.failure_reading hs1
    obtain ⟨g0, g1⟩ := h
    exact ⟨g0, g1⟩
  · intro s1 hr
    have hs1 : DeinitInv s1 := by
      rcases refill_inl _ _ _ _ _ hr with ⟨_, rfl⟩ | ⟨_, k, _, _, rfl⟩
      · exact hs
      · exact deinit_inv_of_trace s _ [Event.fread k k] rfl (by simp) hs
    have hw : ∀ res : StepResult σ, DeinitInv
        (fwrite env (s1.stepped Dir.decomp (s1.call out_buf_size) res) res.out_bytes).1 := by
      intro res
      exact deinit_inv_of_trace s1 _
        [Event.step Dir.decomp (s1.call out_buf_size) res.status res.num_in_bytes
          res.out_bytes, Event.fwrite (toUint res.out_bytes.length)
            (fwrite env (s1.stepped Dir.decomp (s1.call out_buf_size) res) res.out_bytes).2]
        (by simp) (by simp) hs1
    apply decompress_step_elim
    · intro res s3 _ hs3 _
      have inv3 : DeinitInv s3 := by
        subst hs3
        exact deinit_inv_of_trace s1 _ _ (stepped_trace _ _ _ _) (by simp) hs1
      exact ⟨fun _ => inv3, fun _ => decompress_finish_deinit _ _ inv3⟩
    · intro res s3 _ hs3 _ _
      subst hs3
      exact decompress_exit_deinit _ _ (hw res)
    · intro res s3 _ hs3 _ _ _
      subst hs3
      exact decompress_exit_deinit _ _ (hw res)
    · intro res s3 s5 _ hs3 _ _ _ hs5
      have inv5 : DeinitInv s5 := by
        subst hs5 hs3
        exact hw res
      exact ⟨fun _ => inv5, fun _ => decompress_finish_deinit _ _ inv5⟩

/-- The part of claim C6 that holds: in every run of `decompress_file`,
`lzham_decompress_deinit` is called exactly once if the decompressor was initialised
and the function has returned, whatever the exit, and no deinit call is made
otherwise. -/
theorem decompress_file_deinit_once {σ : Type} (b : Build) (env : Env)
    (c : Codec lzham_decompress_params σ) (options : comp_options) (fuel : Nat) :
    DeinitPost (decompress_file b env c options fuel) := by
  refine decompress_file_elim b env c options (fun f => DeinitPost (f fuel)) ?_ ?_ ?_
  · intro _
    exact deinit_post_early _ (by simp) (by simp)
  · intro _ _ _
    exact deinit_post_early _ (by simp) (by simp)
  · intro b0 b1 b2 b3 b4 b5 b6 b7 b8 b9 b10 b11 b12 rest _ _
    refine ⟨fun _ => ?_, fun _ _ => ?_, fun _ _ _ => ?_, fun _ _ _ => ?_⟩
    · exact deinit_post_early _ (by simp [header_prefix_trace]) (by simp [header_prefix_trace])
    · exact deinit_post_early _ (by simp [header_prefix_trace]) (by simp [header_prefix_trace])
    · exact deinit_post_early _ (by simp [header_prefix_trace]) (by simp [header_prefix_trace])
    · refine decompress_from_elim b env c options _ (fun f => DeinitPost (f fuel)) ?_ ?_ ?_
      · intro _
        exact deinit_post_early _ (by simp [header_of, header_prefix_trace])
          (by simp [header_of, header_prefix_trace])
      · intro _ _
        exact deinit_post_early _ (by simp [header_of, header_prefix_trace])
          (by simp [header_of, header_prefix_trace])
      · intro _ st _
        refine pump_induction _ DeinitInv DeinitPost ?_ (decompress_body_deinit env c _) fuel _
          ?_
        · intro s hs
          refine ⟨by simpa [Session.exit] using hs.2.2, ?_⟩
          rw [if_neg (fun h => h.2 rfl)]
          simpa [Session.exit] using hs.2.1
        · exact ⟨by simp [decompress_start],
            deinit_calls_eq_zero _ _ (by simp [decompress_start, header_of,
              header_prefix_trace]),
            deinit_calls_eq_zero _ _ (by simp [decompress_start, header_of,
              header_prefix_trace])⟩

/-! ## The shape of the trace of a pump -/

theorem loop_trace_snoc (d : Dir) (X : Nat) (t0 t : List Event) (e : Event)
    (ht : LoopTrace d X t0 t) (he : Event.inLoop d X e = true) :
    LoopTrace d X t0 (t ++ [e]) := by
  obtain ⟨u, rfl, hu⟩ := ht
  refine ⟨u ++ [e], by simp, ?_⟩
  intro x hx
  rcases List.mem_append.mp hx with hx | hx
  · exact hu x hx
  · rw [List.mem_singleton.mp hx]
    exact he

theorem pump_trace_snapshot {σ : Type} (d : Dir) (X : Nat) (t0 : List Event) (s : Session σ)
    (hs : LoopTrace d X t0 s.trace) : PumpTrace d X t0 (s.exit none []) := by
  obtain ⟨u, hu, hall⟩ := hs
  exact ⟨u, [], by simp [Session.exit, hu], hall, fun _ => rfl, fun h => absurd rfl h⟩

theorem pump_trace_exit {σ : Type} (d : Dir) (X : Nat) (t0 : List Event) (s : Session σ)
    (ret : Bool) (tail : List Event) (hs : LoopTrace d X t0 s.trace) (ht : Closing tail) :
    PumpTrace d X t0 (s.exit (some ret) tail) := by
  obtain ⟨u, hu, hall⟩ := hs
  exact ⟨u, tail, by simp [Session.exit, hu], hall, fun h => by simp [Session.exit] at h,
    fun _ => ht⟩

theorem closing_cleanup (e : Err) :
    Closing (decompress_cleanup e) ∧ Closing (compress_cleanup e) := by
  constructor <;>
  · refine ⟨?_, ?_, ?_⟩
    · intro x hx
      simp only [decompress_cleanup, compress_cleanup, List.mem_cons, List.mem_singleton,
        List.not_mem_nil, or_false] at hx
      rcases hx with rfl | rfl | rfl | rfl <;> rfl
    · rfl
    · rfl

theorem closing_finish (d : Dir) (l : List Event)
    (hl : l = [] ∨ ∃ e, l = [Event.print_error e]) :
    Closing ([Event.deinit d, Event.fclose FileId.pInFile, Event.fclose FileId.pOutFile]
      ++ l) := by
  rcases hl with rfl | ⟨e, rfl⟩
  · refine ⟨?_, ?_, ?_⟩
    · intro x hx
      simp only [List.append_nil, List.mem_cons, List.mem_singleton, List.not_mem_nil,
        or_false] at hx
      rcases hx with rfl | rfl | rfl <;> rfl
    · rfl
    · rfl
  · refine ⟨?_, ?_, ?_⟩
    · intro x hx
      simp only [List.cons_append, List.nil_append, List.mem_cons, List.mem_singleton,
        List.not_mem_nil, or_false] at hx
      rcases hx with rfl | rfl | rfl | rfl <;> rfl
    · rfl
    · rfl

theorem pump_trace_of_tail (d : Dir) (X : Nat) (t0 t : List Event) (r : Run)
    (tail : List Event) (ht : LoopTrace d X t0 t) (hr : r.trace = t ++ tail)
    (hret : r.ret ≠ none) (hc : Closing tail) : PumpTrace d X t0 r := by
  obtain ⟨u, hu, hall⟩ := ht
  exact ⟨u, tail, by rw [hr, hu], hall, fun h => absurd h hret, fun _ => hc⟩

theorem decompress_finish_trace {σ : Type} (X : Nat) (t0 : List Event) (s : Session σ)
    (status : Status) (hs : LoopTrace Dir.decomp X t0 s.trace) :
    PumpTrace Dir.decomp X t0 (decompress_finish s status) := by
  simp only [decompress_finish]
  split_ifs
  · exact pump_trace_of_tail _ _ _ s.trace _
      ([Event.deinit Dir.decomp, Event.fclose FileId.pInFile, Event.fclose FileId.pOutFile] ++
        [Event.print_error (Err.failed_with_status status)]) hs
      (by simp [Session.exit]) (by simp [Session.exit]) (closing_finish _ _ (Or.inr ⟨_, rfl⟩))
  · exact pump_trace_of_tail _ _ _ s.trace _
      ([Event.deinit Dir.decomp, Event.fclose FileId.pInFile, Event.fclose FileId.pOutFile] ++
        [Event.print_error Err.failed_to_output]) hs
      (by simp [Session.exit]) (by simp [Session.exit]) (closing_finish _ _ (Or.inr ⟨_, rfl⟩))
  · exact pump_trace_of_tail _ _ _ s.trace _
      ([Event.deinit Dir.decomp, Event.fclose FileId.pInFile, Event.fclose FileId.pOutFile] ++
        [Event.print_error (Err.failed_to_read
          ((s.src_bytes_left + uintSub s.in_file_buf_size s.in_file_buf_ofs) % 2 ^ 64))]) hs
      (by simp [Session.exit]) (by simp [Session.exit]) (closing_finish _ _ (Or.inr ⟨_, rfl⟩))
  · exact pump_trace_of_tail _ _ _ s.trace _
      ([Event.deinit Dir.decomp, Event.fclose FileId.pInFile, Event.fclose FileId.pOutFile] ++
        []) hs
      (by simp [Session.exit]) (by simp [Session.exit]) (closing_finish _ _ (Or.inl rfl))

theorem compress_finish_trace {σ : Type} (X : Nat) (t0 : List Event) (s : Session σ)
    (status : Status) (hs : LoopTrace Dir.comp X t0 s.trace) :
    PumpTrace Dir.comp X t0 (compress_finish s status) := by
  simp only [compress_finish]
  split_ifs
  · exact pump_trace_of_tail _ _ _ s.trace _
      ([Event.deinit Dir.comp, Event.fclose FileId.pInFile, Event.fclose FileId.pOutFile] ++
        [Event.print_error (Err.failed_with_status status)]) hs
      (by simp [Session.exit]) (by simp [Session.exit]) (closing_finish _ _ (Or.inr ⟨_, rfl⟩))
  · exact pump_trace_of_tail _ _ _ s.trace _
      ([Event.deinit Dir.comp, Event.fclose FileId.pInFile, Event.fclose FileId.pOutFile] ++
        [Event.print_error Err.failed_to_consume_input]) hs
      (by simp [Session.exit]) (by simp [Session.exit]) (closing_finish _ _ (Or.inr ⟨_, rfl⟩))
  · exact pump_trace_of_tail _ _ _ s.trace _
      ([Event.deinit Dir.comp, Event.fclose FileId.pInFile, Event.fclose FileId.pOutFile] ++
        []) hs
      (by simp [Session.exit]) (by simp [Session.exit]) (closing_finish _ _ (Or.inl rfl))

theorem refill_trace {σ : Type} (env : Env) (n : Nat) (onFail : List Event) (d : Dir)
    (X : Nat) (t0 : List Event) (s : Session σ) (hs : LoopTrace d X t0 s.trace)
    (hfail : Closing onFail) :
    Sum.elim (fun s1 : Session σ => LoopTrace d X t0 s1.trace ∧ s1.state = s.state)
      (PumpTrace d X t0) (refill env n onFail s) := by
  cases h : refill env n onFail s with
  | inl s1 =>
    rcases refill_inl _ _ _ _ _ h with ⟨_, rfl⟩ | ⟨_, k, _, _, rfl⟩
    · exact ⟨hs, rfl⟩
    · exact ⟨loop_trace_snoc _ _ _ _ _ hs rfl, rfl⟩
  | inr r =>
    obtain ⟨k, got, _, rfl⟩ := refill_inr _ _ _ _ _ h
    exact pump_trace_of_tail d X t0 (s.trace ++ [Event.fread k got]) _ onFail
      (loop_trace_snoc d X t0 s.trace (Event.fread k got) hs rfl) rfl (by simp) hfail

theorem stepped_loop_trace {σ : Type} (d : Dir) (X : Nat) (t0 : List Event) (s : Session σ)
    (res : StepResult σ) (hs : LoopTrace d X t0 s.trace) :
    LoopTrace d X t0 (s.stepped d (s.call X) res).trace := by
  rw [stepped_trace]
  exact loop_trace_snoc _ _ _ _ _ hs (by simp [Event.inLoop, Session.call])

theorem fwrite_loop_trace {σ : Type} (env : Env) (d : Dir) (X : Nat) (t0 : List Event)
    (s : Session σ) (o : List Byte) (hs : LoopTrace d X t0 s.trace) :
    LoopTrace d X t0 (fwrite env s o).1.trace := by
  rw [fwrite_trace]
  exact loop_trace_snoc _ _ _ _ _ hs rfl

theorem decompress_step_trace {σ : Type} (env : Env) (c : Codec lzham_decompress_params σ)
    (X : Nat) (t0 : List Event) (s : Session σ) (hs : LoopTrace Dir.decomp X t0 s.trace) :
    Sum.elim (fun s1 : Session σ => LoopTrace Dir.decomp X t0 s1.trace)
      (PumpTrace Dir.decomp X t0) (decompress_step env c X s) := by
  apply decompress_step_elim
  · intro res s3 _ h3 _
    subst h3
    exact ⟨fun _ => stepped_loop_trace _ _ _ _ _ hs,
      fun _ => decompress_finish_trace _ _ _ _ (stepped_loop_trace _ _ _ _ _ hs)⟩
  · intro res s3 _ h3 _ _
    subst h3
    exact pump_trace_exit _ _ _ _ _ _
      (fwrite_loop_trace _ _ _ _ _ _ (stepped_loop_trace _ _ _ _ _ hs)) (closing_cleanup _).1
  · intro res s3 _ h3 _ _ _
    subst h3
    exact pump_trace_exit _ _ _ _ _ _
      (fwrite_loop_trace _ _ _ _ _ _ (stepped_loop_trace _ _ _ _ _ hs)) (closing_cleanup _).1
  · intro res s3 s5 _ h3 _ _ _ h5
    subst h3
    subst h5
    exact ⟨fun _ => fwrite_loop_trace _ _ _ _ _ _ (stepped_loop_trace _ _ _ _ _ hs),
      fun _ => decompress_finish_trace _ _ _ _
        (fwrite_loop_trace _ _ _ _ _ _ (stepped_loop_trace _ _ _ _ _ hs))⟩

theorem compress_step_trace {σ : Type} (env : Env) (c : Codec lzham_compress_params σ)
    (t0 : List Event) (s : Session σ)
    (hs : LoopTrace Dir.comp LZHAMTEST_COMP_OUTPUT_BUFFER_SIZE t0 s.trace) :
    Sum.elim (fun s1 : Session σ =>
        LoopTrace Dir.comp LZHAMTEST_COMP_OUTPUT_BUFFER_SIZE t0 s1.trace)
      (PumpTrace Dir.comp LZHAMTEST_COMP_OUTPUT_BUFFER_SIZE t0) (compress_step env c s) := by
  apply compress_step_elim
  · intro res s3 _ h3 _
    subst h3
    exact ⟨fun _ => stepped_loop_trace _ _ _ _ _ hs,
      fun _ => compress_finish_trace _ _ _ _ (stepped_loop_trace _ _ _ _ _ hs)⟩
  · intro res s3 _ h3 _ _
    subst h3
    exact pump_trace_exit _ _ _ _ _ _
      (fwrite_loop_trace _ _ _ _ _ _ (stepped_loop_trace _ _ _ _ _ hs)) (closing_cleanup _).2
  · intro res s3 s5 _ h3 _ _ h5
    subst h3
    subst h5
    exact ⟨fun _ => fwrite_loop_trace _ _ _ _ _ _ (stepped_loop_trace _ _ _ _ _ hs),
      fun _ => compress_finish_trace _ _ _ _
        (fwrite_loop_trace _ _ _ _ _ _ (stepped_loop_trace _ _ _ _ _ hs))⟩

theorem decompress_body_trace {σ : Type} (env : Env) (c : Codec lzham_decompress_params σ)
    (X : Nat) (t0 : List Event) (s : Session σ) (hs : LoopTrace Dir.decomp X t0 s.trace) :
    Sum.elim (fun s1 : Session σ => LoopTrace Dir.decomp X t0 s1.trace)
      (PumpTrace Dir.decomp X t0) (decompress_body env c X s) := by
  have hr := refill_trace env LZHAMTEST_DECOMP_INPUT_BUFFER_SIZE
    (decompress_cleanup Err.failure_reading) Dir.decomp X t0 s hs (closing_cleanup _).1
  apply decompress_body_elim
  · intro r h
    rw [h] at hr
    exact hr
  · intro s1 h
    rw [h] at hr
    exact decompress_step_trace env c X t0 s1 hr.1

theorem compress_body_trace {σ : Type} (env : Env) (c : Codec lzham_compress_params σ)
    (t0 : List Event) (s : Session σ)
    (hs : LoopTrace Dir.comp LZHAMTEST_COMP_OUTPUT_BUFFER_SIZE t0 s.trace) :
    Sum.elim (fun s1 : Session σ =>
        LoopTrace Dir.comp LZHAMTEST_COMP_OUTPUT_BUFFER_SIZE t0 s1.trace)
      (PumpTrace Dir.comp LZHAMTEST_COMP_OUTPUT_BUFFER_SIZE t0) (compress_body env c s) := by
  have hr := refill_trace env LZHAMTEST_COMP_INPUT_BUFFER_SIZE
    (compress_cleanup Err.failure_reading) Dir.comp LZHAMTEST_COMP_OUTPUT_BUFFER_SIZE t0 s hs
    (closing_cleanup _).2
  apply compress_body_elim
  · intro r h
    rw [h] at hr
    exact hr
  · intro s1 h
    rw [h] at hr
    exact compress_step_trace env c t0 s1 hr.1

/-- The trace of the loop of `decompress_file` entered with session `s0`. -/
theorem decompress_pump_trace {σ : Type} (env : Env) (c : Codec lzham_decompress_params σ)
    (X : Nat) (fuel : Nat) (s0 : Session σ) :
    PumpTrace Dir.decomp X s0.trace (pump (decompress_body env c X) fuel s0) :=
  pump_induction (decompress_body env c X) (fun s => LoopTrace Dir.decomp X s0.trace s.trace)
    (PumpTrace Dir.decomp X s0.trace) (fun s hs => pump_trace_snapshot _ _ _ s hs)
    (fun s hs => decompress_body_trace env c X s0.trace s hs) fuel s0
    ⟨[], by simp, fun _ h => absurd h (List.not_mem_nil _)⟩

/-- The trace of the loop of `compress_streaming` entered with session `s0`. -/
theorem compress_pump_trace {σ : Type} (env : Env) (c : Codec lzham_compress_params σ)
    (fuel : Nat) (s0 : Session σ) :
    PumpTrace Dir.comp LZHAMTEST_COMP_OUTPUT_BUFFER_SIZE s0.trace
      (pump (compress_body env c) fuel s0) :=
  pump_induction (compress_body env c)
    (fun s => LoopTrace Dir.comp LZHAMTEST_COMP_OUTPUT_BUFFER_SIZE s0.trace s.trace)
    (PumpTrace Dir.comp LZHAMTEST_COMP_OUTPUT_BUFFER_SIZE s0.trace)
    (fun s hs => pump_trace_snapshot _ _ _ s hs)
    (fun s hs => compress_body_trace env c s0.trace s hs) fuel s0
    ⟨[], by simp, fun _ h => absurd h (List.not_mem_nil _)⟩

/-! ## The output buffer of `decompress_file` -/

theorem capacities_append (t u : List Event) :
    capacities (t ++ u) = capacities t ++ capacities u := by
  simp [capacities]

/-- A trace without calls of the codec passes no capacity. -/
theorem capacities_eq_nil (t : List Event) (h : ∀ e ∈ t, Event.capacity? e = none) :
    capacities t = [] := by
  simp only [capacities, List.filterMap_eq_nil_iff]
  exact h

/-- Every call of the codec in the trace of a pump passes the capacity of its output
buffer. -/
theorem capacities_of_pump_trace (d : Dir) (X : Nat) (t0 : List Event) (r : Run)
    (hr : PumpTrace d X t0 r) (h0 : capacities t0 = []) : ∀ x ∈ capacities r.trace, x = X := by
  obtain ⟨u, tail, htrace, hu, hnone, hsome⟩ := hr
  have htail : capacities tail = [] := by
    apply capacities_eq_nil
    intro e he
    by_cases hret : r.ret = none
    · rw [hnone hret] at he
      cases he
    · have h1 := (hsome hret).1 e he
      cases e <;> first | rfl | cases h1
  intro x hx
  rw [htrace, capacities_append, capacities_append, h0, htail] at hx
  simp only [List.nil_append, List.append_nil, capacities, List.mem_filterMap] at hx
  obtain ⟨e, he, hex⟩ := hx
  have h1 := hu e he
  cases e <;> simp only [Event.capacity?, Event.inLoop, Option.some.injEq,
    Bool.and_eq_true, decide_eq_true_eq] at hex h1 <;> cases hex
  exact h1.2

/-- Every call of the codec made by `decompress_file` passes the capacity computed at
line 534 from the declared original length. -/
theorem decompress_file_capacity {σ : Type} (b : Build) (env : Env)
    (c : Codec lzham_decompress_params σ) (options : comp_options) (fuel : Nat)
    (file : List Byte) (hsrc : env.src = some file) :
    ∀ x ∈ capacities (decompress_file b env c options fuel).trace,
      x = decomp_out_buf_size b options (declared_length file) := by
  refine decompress_file_elim b env c options
    (fun f => ∀ x ∈ capacities (f fuel).trace,
      x = decomp_out_buf_size b options (declared_length file)) ?_ ?_ ?_
  · intro _ x hx
    cases hx
  · intro _ _ _ x hx
    cases hx
  · intro b0 b1 b2 b3 b4 b5 b6 b7 b8 b9 b10 b11 b12 rest hs _
    have hfile : file = b0 :: b1 :: b2 :: b3 :: b4 :: b5 :: b6 :: b7 :: b8 :: b9 :: b10 ::
        b11 :: b12 :: rest := by
      rw [hsrc] at hs
      exact Option.some.inj hs
    rw [hfile, declared_length_cons]
    refine ⟨fun _ x hx => (by cases hx), fun _ _ x hx => (by cases hx),
      fun _ _ _ x hx => (by cases hx), fun _ _ _ => ?_⟩
    refine decompress_from_elim b env c options _
      (fun f => ∀ x ∈ capacities (f fuel).trace,
        x = decomp_out_buf_size b options (le_value [b5, b6, b7, b8, b9, b10, b11, b12]))
      ?_ ?_ ?_
    · intro _ x hx
      cases hx
    · intro _ _ x hx
      cases hx
    · intro _ st _
      exact capacities_of_pump_trace _ _ _ _
        (decompress_pump_trace env c _ fuel _) rfl

/-- Claim C15. Unbuffered fallback and sizing: for every container and every codec, when
unbuffered decompression is requested and the declared original length exceeds the
ceiling (2 ^ 30 bytes, 2 ^ 27 on Xbox), every call of the codec made by
`decompress_file` passes the fixed capacity `LZHAMTEST_DECOMP_OUTPUT_BUFFER_SIZE`, the
parameters of the decompressor say that output is buffered, and the run is the run of
the chunked variant; when the declared length is at or below the ceiling, every call
passes a capacity equal to the declared length itself and the parameters say that
output is unbuffered. -/
theorem unbuffered_fallback_and_sizing {σ : Type} (b : Build) (env : Env)
    (c : Codec lzham_decompress_params σ) (options : comp_options) (fuel : Nat)
    (file : List Byte) (hsrc : env.src = some file)
    (hreq : options.m_unbuffered_decompression = true) :
    (unbuffered_ceiling b < declared_length file →
      (∀ x ∈ capacities (decompress_file b env c options fuel).trace,
        x = LZHAMTEST_DECOMP_OUTPUT_BUFFER_SIZE) ∧
      (∀ h : Header, h.orig_file_size = declared_length file →
        (decompress_params b options h).m_output_unbuffered = false) ∧
      decompress_file b env c options fuel =
        decompress_file b env c { options with m_unbuffered_decompression := false } fuel) ∧
    (declared_length file ≤ unbuffered_ceiling b →
      (∀ x ∈ capacities (decompress_file b env c options fuel).trace,
        x = declared_length file) ∧
      (∀ h : Header, h.orig_file_size = declared_length file →
        (decompress_params b options h).m_output_unbuffered = true)) := by
  have hcap := decompress_file_capacity b env c options fuel file hsrc
  have hceil : unbuffered_ceiling b ≤ 2 ^ 30 := by
    unfold unbuffered_ceiling
    split <;> decide
  constructor
  · intro hL
    have hun : ∀ h : Header, h.orig_file_size = declared_length file →
        unbuffered b options h.orig_file_size = false := by
      intro h hh
      simp [unbuffered, hreq, hh, hL]
    refine ⟨?_, fun h hh => ?_, ?_⟩
    · intro x hx
      rw [hcap x hx]
      have h1 := hun ⟨0, 0, declared_length file, 0, [], []⟩ rfl
      simp only [decomp_out_buf_size] at h1 ⊢
      rw [h1]
      rfl
    · simp only [decompress_params]
      exact hun h hh
    · simp only [decompress_file]
      rcases decompress_header_cases env with ⟨_, h⟩ | ⟨_, _, _, h⟩ |
        ⟨b0, b1, b2, b3, b4, b5, b6, b7, b8, b9, b10, b11, b12, rest, hs, hlen⟩
      · rw [h]
      · rw [h]
      · rw [decompress_header_cons env b0 b1 b2 b3 b4 b5 b6 b7 b8 b9 b10 b11 b12 rest hs hlen]
        have hfile : file = b0 :: b1 :: b2 :: b3 :: b4 :: b5 :: b6 :: b7 :: b8 :: b9 ::
            b10 :: b11 :: b12 :: rest := by
          rw [hsrc] at hs
          exact Option.some.inj hs
        rw [hfile, declared_length_cons] at hL
        split_ifs
        · rfl
        · rfl
        · rfl
        · simp [decompress_from, decompress_params, decomp_out_buf_size, unbuffered, hreq, hL]
  · intro hL
    have hun : ∀ h : Header, h.orig_file_size = declared_length file →
        unbuffered b options h.orig_file_size = true := by
      intro h hh
      simp [unbuffered, hreq, hh, Nat.not_lt.mpr hL]
    refine ⟨?_, fun h hh => ?_⟩
    · intro x hx
      rw [hcap x hx]
      have h1 := hun ⟨0, 0, declared_length file, 0, [], []⟩ rfl
      simp only [decomp_out_buf_size] at h1 ⊢
      rw [h1]
      simp only [if_true, toUint]
      omega
    · simp only [decompress_params]
      exact hun h hh

/-- Witness of `unbuffered_fallback_and_sizing`: a container declaring 2 ^ 30 + 1
bytes, read with unbuffered decompression requested, is pumped exactly as with
unbuffered decompression not requested. -/
theorem unbuffered_fallback_and_sizing_witness :
    unbuffered_ceiling x86 < declared_length container_over_ceiling ∧
    decompress_file x86 (Env.ideal container_over_ceiling) one_byte_codec
        { comp_options.default x86 with m_unbuffered_decompression := true } 1 =
      decompress_file x86 (Env.ideal container_over_ceiling) one_byte_codec
        { comp_options.default x86 with m_unbuffered_decompression := false } 1 :=
  ⟨by decide,
   ((unbuffered_fallback_and_sizing x86 (Env.ideal container_over_ceiling) one_byte_codec
    { comp_options.default x86 with m_unbuffered_decompression := true } 1
    container_over_ceiling rfl rfl).1 (by decide)).2.2⟩

/-! ## File handles -/

theorem opened_append (f : FileId) (t u : List Event) :
    opened f (t ++ u) = opened f t + opened f u := by
  induction t with
  | nil => simp [opened]
  | cons e t ih =>
    show (if e.opens f then 1 else 0) + opened f (t ++ u) = _
    rw [ih, opened]
    omega

theorem closed_append (f : FileId) (t u : List Event) :
    closed f (t ++ u) = closed f t + closed f u := by
  induction t with
  | nil => simp [closed]
  | cons e t ih =>
    show (if e.closes f then 1 else 0) + closed f (t ++ u) = _
    rw [ih, closed]
    omega

theorem opened_eq_zero (f : FileId) (t : List Event) (h : ∀ e ∈ t, e.opens f = false) :
    opened f t = 0 := by
  induction t with
  | nil => rfl
  | cons e t ih =>
    simp only [opened, h e (List.mem_cons_self _ _), ih (fun x hx => h x (List.mem_cons_of_mem _ hx))]
    rfl

theorem closed_eq_zero (f : FileId) (t : List Event) (h : ∀ e ∈ t, e.closes f = false) :
    closed f t = 0 := by
  induction t with
  | nil => rfl
  | cons e t ih =>
    simp only [closed, h e (List.mem_cons_self _ _), ih (fun x hx => h x (List.mem_cons_of_mem _ hx))]
    rfl

/-- A pump whose loop was entered with both files open and none closed has closed each
of them once when it returns. -/
theorem no_leak_of_pump_trace (d : Dir) (X : Nat) (t0 : List Event) (r : Run)
    (hr : PumpTrace d X t0 r)
    (hin : opened FileId.pInFile t0 = 1) (hout : opened FileId.pOutFile t0 = 1)
    (hcin : closed FileId.pInFile t0 = 0) (hcout : closed FileId.pOutFile t0 = 0) :
    NoLeak r := by
  intro hret
  obtain ⟨u, tail, htrace, hu, _, hsome⟩ := hr
  obtain ⟨hall, h1, h2⟩ := hsome hret
  have hou : ∀ f, opened f u = 0 := by
    intro f
    apply opened_eq_zero
    intro e he
    have h := hu e he
    cases e <;> first | rfl | cases h
  have hcu : ∀ f, closed f u = 0 := by
    intro f
    apply closed_eq_zero
    intro e he
    have h := hu e he
    cases e <;> first | rfl | cases h
  have hot : ∀ f, opened f tail = 0 := by
    intro f
    apply opened_eq_zero
    intro e he
    have h := hall e he
    cases e <;> first | rfl | cases h
  rw [htrace]
  simp only [opened_append, closed_append, hou, hcu, hot, hin, hout, hcin, hcout, h1, h2]
  exact ⟨trivial, trivial⟩

theorem no_leak_early (dst : List Byte) (t : List Event)
    (hin : closed FileId.pInFile t = opened FileId.pInFile t)
    (hout : closed FileId.pOutFile t = opened FileId.pOutFile t) :
    NoLeak (Run.early false dst t) :=
  fun _ => ⟨hin, hout⟩

theorem counts_fputc (f : FileId) (l : List Byte) :
    opened f (l.map Event.fputc) = 0 ∧ closed f (l.map Event.fputc) = 0 := by
  constructor
  · apply opened_eq_zero
    intro e he
    obtain ⟨_, _, rfl⟩ := List.mem_map.mp he
    rfl
  · apply closed_eq_zero
    intro e he
    obtain ⟨_, _, rfl⟩ := List.mem_map.mp he
    rfl

/-- The part of claim C19 that holds for `decompress_file`: on every return path each
file it opened has been closed exactly once. -/
theorem decompress_file_no_leak {σ : Type} (b : Build) (env : Env)
    (c : Codec lzham_decompress_params σ) (options : comp_options) (fuel : Nat) :
    NoLeak (decompress_file b env c options fuel) := by
  refine decompress_file_elim b env c options (fun f => NoLeak (f fuel)) ?_ ?_ ?_
  · intro _
    exact no_leak_early _ _ rfl rfl
  · intro _ _ _
    exact no_leak_early _ _ rfl rfl
  · intro b0 b1 b2 b3 b4 b5 b6 b7 b8 b9 b10 b11 b12 rest _ _
    refine ⟨fun _ => no_leak_early _ _ rfl rfl, fun _ _ => no_leak_early _ _ rfl rfl,
      fun _ _ _ => no_leak_early _ _ rfl rfl, fun _ _ _ => ?_⟩
    have ho : ∀ (f : FileId) (u : List Event),
        opened f ((header_of b4 b5 b6 b7 b8 b9 b10 b11 b12 rest
          (header_prefix_trace b0 b1 b2 b3 b4)).trace ++ u) = 1 + opened f u := by
      intro f u
      simp only [header_of, header_prefix_trace, List.append_assoc, List.cons_append,
        List.nil_append, opened, Event.opens]
      cases f <;> simp
    have hc : ∀ (f : FileId) (u : List Event),
        closed f ((header_of b4 b5 b6 b7 b8 b9 b10 b11 b12 rest
          (header_prefix_trace b0 b1 b2 b3 b4)).trace ++ u) = closed f u := by
      intro f u
      simp only [header_of, header_prefix_trace, List.append_assoc, List.cons_append,
        List.nil_append, closed, Event.closes]
      simp
    refine decompress_from_elim b env c options _ (fun f => NoLeak (f fuel)) ?_ ?_ ?_
    · intro _
      apply no_leak_early <;>
      · rw [ho, hc]
        rfl
    · intro _ _
      apply no_leak_early <;>
      · rw [ho, hc]
        rfl
    · intro _ st _
      apply no_leak_of_pump_trace _ _ _ _ (decompress_pump_trace env c _ fuel _) <;>
      · simp only [decompress_start]
        first | rw [ho] | rw [hc]
        rfl

/-- The part of claim C19 that holds for `compress_streaming`: on every return path
but the one taken when the destination cannot be created, each file it opened has been
closed exactly once. -/
theorem compress_streaming_no_leak {σ : Type} (env : Env)
    (c : Codec lzham_compress_params σ) (options : comp_options) (fuel : Nat)
    (hdst : env.src = none ∨ env.dst_ok = true) :
    NoLeak (compress_streaming env c options fuel) := by
  refine compress_streaming_elim env c options (fun f => NoLeak (f fuel)) ?_ ?_ ?_
  · intro _
    exact no_leak_early _ _ rfl rfl
  · intro file hsrc hno
    rcases hdst with h | h
    · rw [h] at hsrc
      cases hsrc
    · rw [h] at hno
      cases hno
  · intro file header _ _ _
    have h1 := fun f => (counts_fputc f header).1
    have h2 := fun f => (counts_fputc f header).2
    have ho : ∀ (f : FileId) (u : List Event),
        opened f (compress_opened header ++ u) = 1 + opened f u := by
      intro f u
      simp only [compress_opened, opened_append, h1]
      cases f <;> simp [opened, Event.opens]
    have hc : ∀ (f : FileId) (u : List Event),
        closed f (compress_opened header ++ u) = closed f u := by
      intro f u
      simp only [compress_opened, closed_append, h2]
      cases f <;> simp [closed, Event.closes]
    refine ⟨fun _ => no_leak_early _ _ ?_ ?_, fun _ _ _ => no_leak_early _ _ ?_ ?_,
      fun _ _ st _ => ?_⟩
    any_goals
      rw [ho, hc]
      rfl
    apply no_leak_of_pump_trace _ _ _ _ (compress_pump_trace env c fuel _) <;>
    · simp only [compress_start]
      first | rw [ho] | rw [hc]
      rfl

/-- Claim C19 fails in `compress_streaming`: when the source opens and the destination
cannot be created (lines 263-268), the function returns false having opened the
source and closed nothing, where `decompress_file` in the same situation closes the
source before it returns. -/
theorem compress_streaming_leaks_source_handle :
    (compress_streaming { Env.ideal [] with dst_ok := false } one_byte_codec
      (comp_options.default x86) 1).ret = some false ∧
    opened FileId.pInFile (compress_streaming { Env.ideal [] with dst_ok := false }
      one_byte_codec (comp_options.default x86) 1).trace = 1 ∧
    closed FileId.pInFile (compress_streaming { Env.ideal [] with dst_ok := false }
      one_byte_codec (comp_options.default x86) 1).trace = 0 ∧
    ¬ NoLeak (compress_streaming { Env.ideal [] with dst_ok := false } one_byte_codec
      (comp_options.default x86) 1) ∧
    closed FileId.pInFile (decompress_file x86
      { Env.ideal container_of_one with dst_ok := false } one_byte_codec
      (comp_options.default x86) 1).trace = 1 := by
  refine ⟨rfl, rfl, rfl, fun h => ?_, by decide⟩
  have h1 := (h (by decide)).1
  revert h1
  decide

/-! ## The last-chunk flag -/

theorem bytes_read_append (t u : List Event) :
    bytes_read (t ++ u) = bytes_read t + bytes_read u := by
  induction t with
  | nil => simp [bytes_read]
  | cons e t ih =>
    rw [List.cons_append]
    cases e <;> simp only [bytes_read] <;> omega

theorem flags_ok_append (P : Nat) (t u : List Event) :
    ∀ a, FlagsOk P a (t ++ u) ↔ FlagsOk P a t ∧ FlagsOk P (a + bytes_read t) u := by
  induction t with
  | nil => intro a; simp [FlagsOk, bytes_read]
  | cons e t ih =>
    intro a
    rw [List.cons_append]
    cases e <;> simp only [FlagsOk, bytes_read, ih, and_assoc]
    rw [Nat.add_assoc]

/-- Calls made on the way out of a loop do not bear on the flag discipline. -/
theorem flags_ok_closing (P : Nat) (u : List Event) (h : ∀ e ∈ u, Event.isClosing e = true) :
    ∀ a, FlagsOk P a u := by
  induction u with
  | nil => intro a; trivial
  | cons e u ih =>
    intro a
    have he := h e (List.mem_cons_self _ _)
    have hu := ih (fun x hx => h x (List.mem_cons_of_mem _ hx)) a
    cases e <;> first | exact hu | cases he

/-- The flag of the call before which the calls `pre` were made. -/
theorem flags_ok_split (P : Nat) (pre post : List Event) (d : Dir) (call : StepCall)
    (st : Status) (n : Nat) (o : List Byte) (a : Nat)
    (h : FlagsOk P a (pre ++ Event.step d call st n o :: post)) :
    (call.no_more_input_bytes_flag = true ↔ a + bytes_read pre = P) ∧
      a + bytes_read pre ≤ P := by
  rw [flags_ok_append] at h
  exact ⟨h.2.1, h.2.2.1⟩

theorem read_inv_exit {σ : Type} (P : Nat) (s : Session σ) (ret : Option Bool)
    (evs : List Event) (hs : ReadInv P s) (h : ∀ e ∈ evs, Event.isClosing e = true) :
    FlagsOk P 0 (s.exit ret evs).trace := by
  simp only [Session.exit, flags_ok_append]
  exact ⟨hs.1, flags_ok_closing P evs h _⟩

theorem read_inv_stepped {σ : Type} (P : Nat) (s : Session σ) (d : Dir) (X : Nat)
    (res : StepResult σ) (hs : ReadInv P s) : ReadInv P (s.stepped d (s.call X) res) := by
  obtain ⟨h1, h2, h3⟩ := hs
  refine ⟨?_, ?_, ?_⟩
  · simp only [stepped_trace, flags_ok_append, FlagsOk, Session.call, beq_iff_eq, and_true,
      Nat.zero_add]
    exact ⟨h1, by omega, by omega⟩
  · simp only [stepped_trace, stepped_file, bytes_read_append, bytes_read]
    omega
  · simpa using h3

theorem read_inv_fwrite {σ : Type} (env : Env) (P : Nat) (s : Session σ) (o : List Byte)
    (hs : ReadInv P s) : ReadInv P (fwrite env s o).1 := by
  obtain ⟨h1, h2, h3⟩ := hs
  refine ⟨?_, ?_, ?_⟩
  · simp only [fwrite_trace, flags_ok_append, FlagsOk, and_true]
    exact h1
  · simp only [fwrite_trace, fwrite_file, bytes_read_append, bytes_read]
    omega
  · simpa using h3

theorem read_inv_refill {σ : Type} (env : Env) (n : Nat) (onFail : List Event) (P : Nat)
    (s : Session σ) (hs : ReadInv P s) (hfail : ∀ e ∈ onFail, Event.isClosing e = true) :
    Sum.elim (ReadInv P) (fun r : Run => FlagsOk P 0 r.trace) (refill env n onFail s) := by
  obtain ⟨h1, h2, h3⟩ := hs
  cases h : refill env n onFail s with
  | inl s1 =>
    rcases refill_inl _ _ _ _ _ h with ⟨_, rfl⟩ | ⟨_, k, _, hk, rfl⟩
    · exact ⟨h1, h2, h3⟩
    · refine ⟨?_, ?_, ?_⟩
      · simp only [flags_ok_append, FlagsOk, and_true]
        exact h1
      · simp only [bytes_read_append, bytes_read, List.length_drop]
        omega
      · simp only [List.length_drop]
        omega
  | inr r =>
    obtain ⟨k, got, _, rfl⟩ := refill_inr _ _ _ _ _ h
    simp only [Sum.elim_inr, flags_ok_append, FlagsOk, and_true]
    exact ⟨h1, flags_ok_closing P onFail hfail _⟩

theorem closing_events_cleanup (e : Err) :
    (∀ x ∈ decompress_cleanup e, Event.isClosing x = true) ∧
    (∀ x ∈ compress_cleanup e, Event.isClosing x = true) :=
  ⟨(closing_cleanup e).1.1, (closing_cleanup e).2.1⟩

theorem read_inv_decompress_finish {σ : Type} (P : Nat) (s : Session σ) (status : Status)
    (hs : ReadInv P s) : FlagsOk P 0 (decompress_finish s status).trace := by
  simp only [decompress_finish]
  split_ifs <;>
  · simp only [Session.exit, flags_ok_append, FlagsOk, and_true]
    exact hs.1

theorem read_inv_compress_finish {σ : Type} (P : Nat) (s : Session σ) (status : Status)
    (hs : ReadInv P s) : FlagsOk P 0 (compress_finish s status).trace := by
  simp only [compress_finish]
  split_ifs <;>
  · simp only [Session.exit, flags_ok_append, FlagsOk, and_true]
    exact hs.1

theorem decompress_body_flags {σ : Type} (env : Env) (c : Codec lzham_decompress_params σ)
    (X P : Nat) (s : Session σ) (hs : ReadInv P s) :
    Sum.elim (ReadInv P) (fun r : Run => FlagsOk P 0 r.trace)
      (decompress_body env c X s) := by
  have hr := read_inv_refill env LZHAMTEST_DECOMP_INPUT_BUFFER_SIZE
    (decompress_cleanup Err.failure_reading) P s hs (closing_events_cleanup _).1
  apply decompress_body_elim
  · intro r h
    rw [h] at hr
    exact hr
  · intro s1 h
    rw [h] at hr
    have h1 : ReadInv P s1 := hr
    apply decompress_step_elim
    · intro res s3 _ h3 _
      subst h3
      exact ⟨fun _ => read_inv_stepped _ _ _ _ _ h1,
        fun _ => read_inv_decompress_finish _ _ _ (read_inv_stepped _ _ _ _ _ h1)⟩
    · intro res s3 _ h3 _ _
      subst h3
      exact read_inv_exit _ _ _ _ (read_inv_fwrite _ _ _ _ (read_inv_stepped _ _ _ _ _ h1))
        (closing_events_cleanup _).1
    · intro res s3 _ h3 _ _ _
      subst h3
      exact read_inv_exit _ _ _ _ (read_inv_fwrite _ _ _ _ (read_inv_stepped _ _ _ _ _ h1))
        (closing_events_cleanup _).1
    · intro res s3 s5 _ h3 _ _ _ h5
      subst h3
      have h5i : ReadInv P s5 := by
        subst h5
        exact read_inv_fwrite _ _ _ _ (read_inv_stepped _ _ _ _ _ h1)
      exact ⟨fun _ => h5i, fun _ => read_inv_decompress_finish _ _ _ h5i⟩

theorem compress_body_flags {σ : Type} (env : Env) (c : Codec lzham_compress_params σ)
    (P : Nat) (s : Session σ) (hs : ReadInv P s) :
    Sum.elim (ReadInv P) (fun r : Run => FlagsOk P 0 r.trace) (compress_body env c s) := by
  have hr := read_inv_refill env LZHAMTEST_COMP_INPUT_BUFFER_SIZE
    (compress_cleanup Err.failure_reading) P s hs (closing_events_cleanup _).2
  apply compress_body_elim
  · intro r h
    rw [h] at hr
    exact hr
  · intro s1 h
    rw [h] at hr
    have h1 : ReadInv P s1 := hr
    apply compress_step_elim
    · intro res s3 _ h3 _
      subst h3
      exact ⟨fun _ => read_inv_stepped _ _ _ _ _ h1,
        fun _ => read_inv_compress_finish _ _ _ (read_inv_stepped _ _ _ _ _ h1)⟩
    · intro res s3 _ h3 _ _
      subst h3
      exact read_inv_exit _ _ _ _ (read_inv_fwrite _ _ _ _ (read_inv_stepped _ _ _ _ _ h1))
        (closing_events_cleanup _).2
    · intro res s3 s5 _ h3 _ _ h5
      subst h3
      have h5i : ReadInv P s5 := by
        subst h5
        exact read_inv_fwrite _ _ _ _ (read_inv_stepped _ _ _ _ _ h1)
      exact ⟨fun _ => h5i, fun _ => read_inv_compress_finish _ _ _ h5i⟩

theorem flags_ok_quiet (P : Nat) (u : List Event) (h : ∀ e ∈ u, Event.quiet e = true) :
    ∀ a, FlagsOk P a u := by
  induction u with
  | nil => intro a; trivial
  | cons e u ih =>
    intro a
    have he := h e (List.mem_cons_self _ _)
    have hu := ih (fun x hx => h x (List.mem_cons_of_mem _ hx)) a
    cases e <;> first | exact hu | cases he

theorem bytes_read_quiet (u : List Event) (h : ∀ e ∈ u, Event.quiet e = true) :
    bytes_read u = 0 := by
  induction u with
  | nil => rfl
  | cons e u ih =>
    have he := h e (List.mem_cons_self _ _)
    have hu := ih (fun x hx => h x (List.mem_cons_of_mem _ hx))
    cases e <;> first | exact hu | cases he

theorem flags_ok_early (P : Nat) (dst : List Byte) (t : List Event)
    (h : ∀ e ∈ t, Event.quiet e = true) : FlagsOk P 0 (Run.early false dst t).trace :=
  flags_ok_quiet P t h 0

theorem quiet_compress_opened (header : List Byte) (u : List Event)
    (hu : ∀ e ∈ u, Event.quiet e = true) :
    ∀ e ∈ compress_opened header ++ u, Event.quiet e = true := by
  intro e he
  simp only [compress_opened, List.mem_append, List.mem_cons, List.mem_singleton,
    List.not_mem_nil, or_false, List.mem_map] at he
  rcases he with ((rfl | rfl) | ⟨_, _, rfl⟩) | he
  · rfl
  · rfl
  · rfl
  · exact hu e he

/-- The flag discipline of every run of `compress_streaming` on a source of fewer than
2 ^ 64 bytes. -/
theorem compress_streaming_flags {σ : Type} (env : Env) (c : Codec lzham_compress_params σ)
    (options : comp_options) (fuel : Nat) (file : List Byte) (hsrc : env.src = some file)
    (hlen : file.length < 2 ^ 64) :
    FlagsOk file.length 0 (compress_streaming env c options fuel).trace := by
  refine compress_streaming_elim env c options
    (fun f => FlagsOk file.length 0 (f fuel).trace) ?_ ?_ ?_
  · intro _
    exact flags_ok_early _ _ _ (by decide)
  · intro _ _ _
    exact flags_ok_early _ _ _ (by decide)
  · intro file1 header hs _ _
    have hfile : file = file1 := by
      rw [hsrc] at hs
      exact Option.some.inj hs
    subst hfile
    refine ⟨fun _ => flags_ok_early _ _ _ (quiet_compress_opened header _ (by decide)),
      fun _ _ _ => flags_ok_early _ _ _ (quiet_compress_opened header _ (by decide)),
      fun _ _ st _ => ?_⟩
    refine pump_induction (compress_body env c) (ReadInv file.length)
      (fun r => FlagsOk file.length 0 r.trace) ?_ (compress_body_flags env c _) fuel _ ?_
    · intro s hs
      exact read_inv_exit _ _ _ _ hs (fun _ h => absurd h (List.not_mem_nil _))
    · have hq := quiet_compress_opened header [Event.init Dir.comp true] (by decide)
      refine ⟨flags_ok_quiet _ _ hq 0, ?_, ?_⟩
      · simp only [compress_start, bytes_read_quiet _ hq]
        omega
      · simp only [compress_start]
        omega

/-- The flag discipline of every run of `decompress_file` on a container of fewer than
2 ^ 64 bytes: the source of the loop is what follows the thirteen header bytes. -/
theorem decompress_file_flags {σ : Type} (b : Build) (env : Env)
    (c : Codec lzham_decompress_params σ) (options : comp_options) (fuel : Nat)
    (file : List Byte) (hsrc : env.src = some file) (hlen : file.length < 2 ^ 64) :
    FlagsOk (file.drop 13).length 0 (decompress_file b env c options fuel).trace := by
  refine decompress_file_elim b env c options
    (fun f => FlagsOk (file.drop 13).length 0 (f fuel).trace) ?_ ?_ ?_
  · intro _
    exact flags_ok_early _ _ _ (by decide)
  · intro _ _ _
    exact flags_ok_early _ _ _ (by decide)
  · intro b0 b1 b2 b3 b4 b5 b6 b7 b8 b9 b10 b11 b12 rest hs _
    have hfile : file = b0 :: b1 :: b2 :: b3 :: b4 :: b5 :: b6 :: b7 :: b8 :: b9 :: b10 ::
        b11 :: b12 :: rest := by
      rw [hsrc] at hs
      exact Option.some.inj hs
    have hq : ∀ u : List Event, (∀ e ∈ u, Event.quiet e = true) →
        ∀ e ∈ header_prefix_trace b0 b1 b2 b3 b4 ++ u, Event.quiet e = true := by
      intro u hu e he
      simp only [header_prefix_trace, List.mem_append, List.mem_cons, List.mem_singleton,
        List.not_mem_nil, or_false] at he
      rcases he with (rfl | rfl | rfl | rfl | rfl | rfl) | he
      any_goals rfl
      exact hu e he
    have hq2 : ∀ u : List Event, (∀ e ∈ u, Event.quiet e = true) →
        ∀ e ∈ (header_of b4 b5 b6 b7 b8 b9 b10 b11 b12 rest
          (header_prefix_trace b0 b1 b2 b3 b4)).trace ++ u, Event.quiet e = true := by
      intro u hu e he
      simp only [header_of, List.append_assoc] at he
      refine hq _ ?_ e he
      intro x hx
      simp only [List.mem_append, List.mem_cons, List.mem_singleton,
        List.not_mem_nil, or_false] at hx
      rcases hx with rfl | (rfl | rfl | rfl | rfl | rfl | rfl | rfl | rfl) | hx
      any_goals rfl
      exact hu x hx
    have hP : (file.drop 13).length = rest.length := by
      rw [hfile]
      rfl
    rw [hP]
    refine ⟨fun _ => flags_ok_early _ _ _ (hq _ (by decide)),
      fun _ _ => flags_ok_early _ _ _ (hq _ (by decide)),
      fun _ _ _ => flags_ok_early _ _ _ (hq _ (by decide)), fun _ _ _ => ?_⟩
    refine decompress_from_elim b env c options _
      (fun f => FlagsOk rest.length 0 (f fuel).trace) ?_ ?_ ?_
    · intro _
      exact flags_ok_early _ _ _ (hq2 _ (by decide))
    · intro _ _
      exact flags_ok_early _ _ _ (hq2 _ (by decide))
    · intro _ st _
      refine pump_induction _ (ReadInv rest.length)
        (fun r => FlagsOk rest.length 0 r.trace) ?_ (decompress_body_flags env c _ _) fuel _ ?_
      · intro s hs
        exact read_inv_exit _ _ _ _ hs (fun _ h => absurd h (List.not_mem_nil _))
      · have hq3 := hq2 [Event.init Dir.decomp true] (by decide)
        have hl : file.length = rest.length + 13 := by
          rw [hfile]
          simp
        refine ⟨flags_ok_quiet _ _ hq3 0, ?_, ?_⟩
        · simp only [decompress_start, bytes_read_quiet _ hq3]
          simp [header_of]
        · simp only [decompress_start, header_of]
          omega

/-- Claim C20. Last-chunk flag: for every source of fewer than 2 ^ 64 bytes and every
codec, in every call of the codec made by `compress_streaming` and by
`decompress_file`, the flag `no_more_input_bytes_flag` is true exactly when the calls
of `fread` made before it have read every byte of the source (for `decompress_file`,
every byte after the thirteen header bytes); the bytes read never exceed the source,
so the flag is never true while unread bytes remain, and for an empty source it is
true in every call, the first included. -/
theorem last_chunk_flag {σ τ : Type} (b : Build) (env : Env)
    (cc : Codec lzham_compress_params σ) (cd : Codec lzham_decompress_params τ)
    (options : comp_options) (fuel : Nat) (file : List Byte) (hsrc : env.src = some file)
    (hlen : file.length < 2 ^ 64) :
    (∀ pre d call st n o post,
      (compress_streaming env cc options fuel).trace = pre ++ Event.step d call st n o :: post →
      (call.no_more_input_bytes_flag = true ↔ bytes_read pre = file.length) ∧
      bytes_read pre ≤ file.length ∧
      (file = [] → call.no_more_input_bytes_flag = true)) ∧
    (∀ pre d call st n o post,
      (decompress_file b env cd options fuel).trace = pre ++ Event.step d call st n o :: post →
      (call.no_more_input_bytes_flag = true ↔ bytes_read pre = (file.drop 13).length) ∧
      bytes_read pre ≤ (file.drop 13).length) := by
  constructor
  · intro pre d call st n o post ht
    have h := compress_streaming_flags env cc options fuel file hsrc hlen
    rw [ht] at h
    have h1 := flags_ok_split _ _ _ _ _ _ _ _ _ h
    rw [Nat.zero_add] at h1
    refine ⟨h1.1, h1.2, fun hnil => ?_⟩
    rw [hnil] at h1
    exact h1.1.mpr (Nat.le_zero.mp h1.2)
  · intro pre d call st n o post ht
    have h := decompress_file_flags b env cd options fuel file hsrc hlen
    rw [ht] at h
    have h1 := flags_ok_split _ _ _ _ _ _ _ _ _ h
    rw [Nat.zero_add] at h1
    exact h1

/-- Witness of `last_chunk_flag`: compressing the empty file, the first call of the
codec comes after an `fread` of no bytes and carries the flag. -/
theorem last_chunk_flag_witness :
    (compress_streaming (Env.ideal []) (idle_codec : Codec lzham_compress_params Nat)
        (comp_options.default x86) 1).trace =
      (compress_opened (write_header 26 0) ++ [Event.init Dir.comp true, Event.fread 0 0]) ++
        Event.step Dir.comp
          { in_bytes := [], num_in_bytes := 0, out_buf_size := 262144,
            no_more_input_bytes_flag := true } Status.SUCCESS 0 [] ::
        [Event.deinit Dir.comp, Event.fclose FileId.pInFile, Event.fclose FileId.pOutFile] ∧
    ((true = true) ↔
      bytes_read (compress_opened (write_header 26 0) ++
        [Event.init Dir.comp true, Event.fread 0 0]) = ([] : List Byte).length) :=
  ⟨by decide,
   ((last_chunk_flag x86 (Env.ideal []) (idle_codec : Codec lzham_compress_params Nat)
      (idle_codec : Codec lzham_decompress_params Nat) (comp_options.default x86) 1 [] rfl
      (by decide)).1
    (compress_opened (write_header 26 0) ++ [Event.init Dir.comp true, Event.fread 0 0])
    Dir.comp
    { in_bytes := [], num_in_bytes := 0, out_buf_size := 262144,
      no_more_input_bytes_flag := true } Status.SUCCESS 0 []
    [Event.deinit Dir.comp, Event.fclose FileId.pInFile, Event.fclose FileId.pOutFile]
    (by decide)).1⟩

/-! ## The options of `main_internal` -/

/-- What an option token can do: fail, make the call `srand` and leave the options as
they are, or update the options, in which case the dictionary-size exponent and the
helper-thread budget are either unchanged or within their ranges. -/
theorem parse_option_cases (b : Build) (atoi : String → Int) (c : Char) (arg : String)
    (options : comp_options) :
    parse_option b atoi c arg options = none ∨
    parse_option b atoi c arg options = some (options, [Call.srand (atoi arg)]) ∨
    ∃ o, parse_option b atoi c arg options = some (o, []) ∧
      (o.m_dict_size_log2 = options.m_dict_size_log2 ∨
        (LZHAM_MIN_DICT_SIZE_LOG2 ≤ o.m_dict_size_log2 ∧
          o.m_dict_size_log2 ≤ LZHAMTEST_MAX_POSSIBLE_DICT_SIZE b)) ∧
      (o.m_max_helper_threads = options.m_max_helper_threads ∨
        (0 ≤ o.m_max_helper_threads ∧ o.m_max_helper_threads ≤ LZHAM_MAX_HELPER_THREADS)) := by
  unfold parse_option
  by_cases h1 : c = 'u'
  · rw [if_pos h1]
    exact Or.inr (Or.inr ⟨_, rfl, Or.inl rfl, Or.inl rfl⟩)
  rw [if_neg h1]
  by_cases h2 : c = 'd'
  · rw [if_pos h2]
    by_cases hv : atoi arg < LZHAM_MIN_DICT_SIZE_LOG2 ∨
        atoi arg > LZHAMTEST_MAX_POSSIBLE_DICT_SIZE b
    · exact Or.inl (if_pos hv)
    · refine Or.inr (Or.inr ⟨_, if_neg hv, Or.inr ?_, Or.inl rfl⟩)
      simp only [not_or, not_lt, gt_iff_lt] at hv
      exact hv
  rw [if_neg h2]
  by_cases h3 : c = 'm'
  · rw [if_pos h3]
    by_cases hv : atoi arg < 0 ∨ atoi arg > LZHAM_COMP_LEVEL_UBER
    · exact Or.inl (if_pos hv)
    · exact Or.inr (Or.inr ⟨_, if_neg hv, Or.inl rfl, Or.inl rfl⟩)
  rw [if_neg h3]
  by_cases h4 : c = 't'
  · rw [if_pos h4]
    by_cases hv : atoi arg < 0 ∨ atoi arg > LZHAM_MAX_HELPER_THREADS
    · exact Or.inl (if_pos hv)
    · refine Or.inr (Or.inr ⟨_, if_neg hv, Or.inl rfl, Or.inr ?_⟩)
      simp only [not_or, not_lt, gt_iff_lt] at hv
      exact hv
  rw [if_neg h4]
  by_cases h5 : c = 'c'
  · rw [if_pos h5]
    exact Or.inr (Or.inr ⟨_, rfl, Or.inl rfl, Or.inl rfl⟩)
  rw [if_neg h5]
  by_cases h6 : c = 'v'
  · rw [if_pos h6]
    exact Or.inr (Or.inr ⟨_, rfl, Or.inl rfl, Or.inl rfl⟩)
  rw [if_neg h6]
  by_cases h7 : c = 'r'
  · rw [if_pos h7]
    exact Or.inr (Or.inr ⟨_, rfl, Or.inl rfl, Or.inl rfl⟩)
  rw [if_neg h7]
  by_cases h8 : c = 'p'
  · rw [if_pos h8]
    exact Or.inr (Or.inr ⟨_, rfl, Or.inl rfl, Or.inl rfl⟩)
  rw [if_neg h8]
  by_cases h9 : c = 'x'
  · rw [if_pos h9]
    exact Or.inr (Or.inr ⟨_, rfl, Or.inl rfl, Or.inl rfl⟩)
  rw [if_neg h9]
  by_cases h10 : c = 'e'
  · rw [if_pos h10]
    exact Or.inr (Or.inr ⟨_, rfl, Or.inl rfl, Or.inl rfl⟩)
  rw [if_neg h10]
  by_cases h11 : c = 's'
  · rw [if_pos h11]
    exact Or.inr (Or.inl rfl)
  rw [if_neg h11]
  exact Or.inl rfl

/-- An option token makes no call but `srand`. -/
theorem parse_option_calls (b : Build) (atoi : String → Int) (c : Char) (arg : String)
    (options : comp_options) (r : comp_options × List Call)
    (h : parse_option b atoi c arg options = some r) : ∀ x ∈ r.2, Call.isOperation x = false := by
  rcases parse_option_cases b atoi c arg options with h1 | h1 | ⟨o, h1, _⟩
  · rw [h1] at h
    cases h
  · rw [h1] at h
    cases h
    intro x hx
    rw [List.mem_singleton.mp hx]
    rfl
  · rw [h1] at h
    cases h
    intro x hx
    cases hx

/-- The loop on an option token: the token is handed to `parse_option` and the loop
goes on with the next token. -/
theorem parse_cmd_line_option (b : Build) (atoi : String → Int) (str : String)
    (rest : List String) (options : comp_options) (calls : List Call) (c : Char)
    (arg : List Char) (hstr : str.data = '-' :: c :: arg) :
    parse_cmd_line b atoi (str :: rest) options calls =
      match parse_option b atoi c.toLower (String.mk arg) options with
      | none => .error calls
      | some r => parse_cmd_line b atoi rest r.1 (calls ++ r.2) := by
  rw [parse_cmd_line]
  simp only [hstr, if_true]

theorem parse_option_out_of_range (b : Build) (atoi : String → Int) (str : String)
    (options : comp_options) (h : out_of_range b atoi str) :
    ∃ c arg, str.data = '-' :: c :: arg ∧
      parse_option b atoi c.toLower (String.mk arg) options = none := by
  obtain ⟨c, arg, hstr, hbad⟩ := h
  refine ⟨c, arg, hstr, ?_⟩
  unfold parse_option
  rcases hbad with ⟨hc, hv⟩ | ⟨hc, hv⟩ | ⟨hc, hv⟩
  · rw [hc]
    simp [LZHAM_MIN_DICT_SIZE_LOG2, hv]
  · rw [hc]
    simp [LZHAM_COMP_LEVEL_UBER, hv]
  · rw [hc]
    simp [LZHAM_MAX_HELPER_THREADS, hv]

/-- The loop returns `EXIT_FAILURE` when an out-of-range option comes before any other
kind of token, and has then made no call but `srand`. -/
theorem parse_cmd_line_out_of_range (b : Build) (atoi : String → Int) (tok : String)
    (post : List String) (htok : out_of_range b atoi tok) :
    ∀ (pre : List String) (options : comp_options) (calls : List Call),
      (∀ s ∈ pre, is_option s = true) → (∀ x ∈ calls, Call.isOperation x = false) →
      ∃ calls1, parse_cmd_line b atoi (pre ++ tok :: post) options calls = .error calls1 ∧
        ∀ x ∈ calls1, Call.isOperation x = false := by
  intro pre
  induction pre with
  | nil =>
    intro options calls _ hcalls
    obtain ⟨c, arg, hstr, hnone⟩ := parse_option_out_of_range b atoi tok options htok
    refine ⟨calls, ?_, hcalls⟩
    rw [List.nil_append, parse_cmd_line_option b atoi tok post options calls c arg hstr, hnone]
  | cons s pre ih =>
    intro options calls hpre hcalls
    have hs := hpre s (List.mem_cons_self _ _)
    have hpre1 : ∀ x ∈ pre, is_option x = true := fun x hx => hpre x (List.mem_cons_of_mem _ hx)
    rw [List.cons_append, parse_cmd_line]
    simp only [is_option, beq_iff_eq] at hs
    cases hd : s.data with
    | nil => rw [hd] at hs; cases hs
    | cons h tl =>
      rw [hd] at hs
      simp only [List.head?_cons, Option.some.injEq] at hs
      subst hs
      simp only [if_true]
      cases tl with
      | nil => exact ⟨calls, rfl, hcalls⟩
      | cons c arg =>
        simp only
        cases hp : parse_option b atoi c.toLower (String.mk arg) options with
        | none => exact ⟨calls, rfl, hcalls⟩
        | some r =>
          simp only
          apply ih r.1 (calls ++ r.2) hpre1
          intro x hx
          rcases List.mem_append.mp hx with hx | hx
          · exact hcalls x hx
          · exact parse_option_calls b atoi _ _ _ r hp x hx

/-- The loop on an option token within its range: the value is stored and the loop goes
on with the next token. -/
theorem parse_cmd_line_stores (b : Build) (atoi : String → Int) (str : String)
    (rest : List String) (options : comp_options) (calls : List Call) (c : Char)
    (arg : List Char) (hstr : str.data = '-' :: c :: arg) :
    (c.toLower = 'd' → LZHAM_MIN_DICT_SIZE_LOG2 ≤ atoi (String.mk arg) →
      atoi (String.mk arg) ≤ LZHAMTEST_MAX_POSSIBLE_DICT_SIZE b →
      parse_cmd_line b atoi (str :: rest) options calls =
        parse_cmd_line b atoi rest
          { options with m_dict_size_log2 := atoi (String.mk arg) } calls) ∧
    (c.toLower = 'm' → 0 ≤ atoi (String.mk arg) →
      atoi (String.mk arg) ≤ LZHAM_COMP_LEVEL_UBER →
      parse_cmd_line b atoi (str :: rest) options calls =
        parse_cmd_line b atoi rest { options with m_comp_level := atoi (String.mk arg) } calls) ∧
    (c.toLower = 't' → 0 ≤ atoi (String.mk arg) →
      atoi (String.mk arg) ≤ LZHAM_MAX_HELPER_THREADS →
      parse_cmd_line b atoi (str :: rest) options calls =
        parse_cmd_line b atoi rest
          { options with m_max_helper_threads := atoi (String.mk arg) } calls) := by
  rw [parse_cmd_line_option b atoi str rest options calls c arg hstr]
  refine ⟨fun hc h1 h2 => ?_, fun hc h1 h2 => ?_, fun hc h1 h2 => ?_⟩
  · have h : parse_option b atoi c.toLower (String.mk arg) options =
        some ({ options with m_dict_size_log2 := atoi (String.mk arg) }, []) := by
      unfold parse_option
      rw [hc, if_neg (by decide), if_pos rfl, if_neg (by omega)]
    rw [h]
    simp
  · have h : parse_option b atoi c.toLower (String.mk arg) options =
        some ({ options with m_comp_level := atoi (String.mk arg) }, []) := by
      unfold parse_option
      rw [hc, if_neg (by decide), if_neg (by decide), if_pos rfl, if_neg (by omega)]
    rw [h]
    simp
  · have h : parse_option b atoi c.toLower (String.mk arg) options =
        some ({ options with m_max_helper_threads := atoi (String.mk arg) }, []) := by
      unfold parse_option
      rw [hc, if_neg (by decide), if_neg (by decide), if_neg (by decide), if_pos rfl,
        if_neg (by omega)]
    rw [h]
    simp

/-- What the parsing loop does to the options: a dictionary-size exponent within its
range stays within it, the helper-thread budget is either the one the loop started
with or within its range, and no operation is started. -/
theorem parse_cmd_line_invariant (b : Build) (atoi : String → Int) :
    ∀ (cmd_line : List String) (options : comp_options) (calls : List Call) (p : Parsed),
      parse_cmd_line b atoi cmd_line options calls = .ok p →
      (dict_size_in_range b options → dict_size_in_range b p.options) ∧
      (p.options.m_max_helper_threads = options.m_max_helper_threads ∨
        helper_threads_in_range p.options) ∧
      ((∀ x ∈ calls, Call.options? x = none) → ∀ x ∈ p.calls, Call.options? x = none) := by
  intro cmd_line
  induction cmd_line with
  | nil =>
    intro options calls p h
    rw [parse_cmd_line] at h
    cases h
    exact ⟨fun h => h, Or.inl rfl, fun h => h⟩
  | cons str rest ih =>
    intro options calls p h
    rw [parse_cmd_line] at h
    cases hd : str.data with
    | nil =>
      rw [hd] at h
      cases h
    | cons c0 tl =>
      rw [hd] at h
      simp only at h
      by_cases hc0 : c0 = '-'
      · rw [if_pos hc0] at h
        cases tl with
        | nil => cases h
        | cons c arg =>
          simp only at h
          rcases parse_option_cases b atoi c.toLower (String.mk arg) options with
            h1 | h1 | ⟨o, h1, hdict, hthreads⟩
          · rw [h1] at h
            cases h
          · rw [h1] at h
            obtain ⟨i1, i2, i3⟩ := ih _ _ _ h
            refine ⟨i1, i2, fun hcalls => i3 ?_⟩
            intro x hx
            rcases List.mem_append.mp hx with hx | hx
            · exact hcalls x hx
            · rw [List.mem_singleton.mp hx]
              rfl
          · rw [h1] at h
            obtain ⟨i1, i2, i3⟩ := ih _ _ _ h
            refine ⟨fun hin => i1 ?_, ?_, fun hcalls => i3 ?_⟩
            · rcases hdict with hd1 | hd1
              · exact ⟨by rw [hd1]; exact hin.1, by rw [hd1]; exact hin.2⟩
              · exact hd1
            · rcases i2 with i2 | i2
              · rcases hthreads with ht | ht
                · exact Or.inl (i2.trans ht)
                · exact Or.inr ⟨by rw [i2]; exact ht.1, by rw [i2]; exact ht.2⟩
              · exact Or.inr i2
            · simpa using hcalls
      · rw [if_neg hc0] at h
        by_cases htl : tl ≠ []
        · rw [if_pos htl] at h
          cases h
        · rw [if_neg htl] at h
          cases hm : parse_mode c0.toLower with
          | none =>
            rw [hm] at h
            cases h
          | some m =>
            rw [hm] at h
            cases h
            exact ⟨fun h => h, Or.inl rfl, fun h => h⟩

/-- Every operation started by `run_mode` is started with the options the parsing loop
ended with. -/
theorem run_mode_options (ops : Ops) (p : Parsed) (hcalls : ∀ x ∈ p.calls, Call.options? x = none) :
    ∀ x ∈ (run_mode ops p).calls, ∀ o, Call.options? x = some o → o = p.options := by
  have hold : ∀ x ∈ p.calls, ∀ o, Call.options? x = some o → o = p.options := by
    intro x hx o ho
    rw [hcalls x hx] at ho
    cases ho
  have hnew : ∀ (l : List Call), (∀ x ∈ l, ∀ o, Call.options? x = some o → o = p.options) →
      ∀ x ∈ p.calls ++ l, ∀ o, Call.options? x = some o → o = p.options := by
    intro l hl x hx
    rcases List.mem_append.mp hx with hx | hx
    · exact hold x hx
    · exact hl x hx
  unfold run_mode
  split
  · exact hold
  · split
    · rename_i src_file cmp_file _
      have hl : ∀ l : List Call, (∀ x ∈ l, ∀ o, Call.options? x = some o → o = p.options) →
          ∀ x ∈ p.calls ++ [Call.compress_streaming src_file cmp_file p.options] ++ l,
            ∀ o, Call.options? x = some o → o = p.options := by
        intro l hl
        rw [List.append_assoc]
        apply hnew
        intro x hx o ho
        rcases List.mem_append.mp hx with hx | hx
        · rw [List.mem_singleton.mp hx] at ho
          cases ho
          rfl
        · exact hl x hx o ho
      by_cases h1 : (ops.compress_streaming src_file cmp_file p.options &&
          p.options.m_verify_compressed_data) = true
      · rw [if_pos h1]
        by_cases h2 : (!ops.decompress_file cmp_file ops.decomp_file p.options) = true
        · rw [if_pos h2]
          apply hl
          intro x hx o ho
          rw [List.mem_singleton.mp hx] at ho
          cases ho
          rfl
        · rw [if_neg h2]
          by_cases h3 : (!ops.compare_files ops.decomp_file src_file) = true
          · rw [if_pos h3]
            apply hl
            intro x hx o ho
            simp only [List.mem_cons, List.mem_singleton, List.not_mem_nil, or_false] at hx
            rcases hx with rfl | rfl <;> cases ho
            rfl
          · rw [if_neg h3]
            apply hl
            intro x hx o ho
            simp only [List.mem_cons, List.mem_singleton, List.not_mem_nil, or_false] at hx
            rcases hx with rfl | rfl | rfl <;> cases ho
            rfl
      · rw [if_neg h1]
        have := hl [] (fun _ h => absurd h (List.not_mem_nil _))
        simpa using this
    · exact hold
  · split
    · apply hnew
      intro x hx o ho
      rw [List.mem_singleton.mp hx] at ho
      cases ho
      rfl
    · exact hold
  · split
    · apply hnew
      intro x hx o ho
      rw [List.mem_singleton.mp hx] at ho
      cases ho
      rfl
    · exact hold

theorem initial_options_in_range (b : Build) (num_helper_threads : Int) :
    dict_size_in_range b (initial_options b num_helper_threads) ∧
    (initial_options b num_helper_threads).m_max_helper_threads = num_helper_threads := by
  unfold initial_options dict_size_in_range
  cases hx : b.xbox <;> cases hw : b.win64 <;>
    simp [comp_options.default, LZHAMTEST_DEFAULT_DICT_SIZE, LZHAMTEST_MAX_POSSIBLE_DICT_SIZE,
      LZHAM_MIN_DICT_SIZE_LOG2, LZHAM_MAX_DICT_SIZE_LOG2_X86, LZHAM_MAX_DICT_SIZE_LOG2_X64, hw]

/-- What an option token that is accepted does to the three numeric fields: the field of
its letter takes the value read by `atoi`, the others stay, and a value stored by `-t`
is within its range. -/
theorem parse_option_fields (b : Build) (atoi : String → Int) (c : Char) (arg : String)
    (options : comp_options) (r : comp_options × List Call)
    (h : parse_option b atoi c arg options = some r) :
    r.1.m_dict_size_log2 = (if c = 'd' then atoi arg else options.m_dict_size_log2) ∧
    r.1.m_comp_level = (if c = 'm' then atoi arg else options.m_comp_level) ∧
    r.1.m_max_helper_threads =
      (if c = 't' then atoi arg else options.m_max_helper_threads) ∧
    (c = 't' → 0 ≤ atoi arg ∧ atoi arg ≤ LZHAM_MAX_HELPER_THREADS) := by
  unfold parse_option at h
  by_cases h1 : c = 'u'
  · rw [if_pos h1] at h
    cases h
    subst h1
    simp
  rw [if_neg h1] at h
  by_cases h2 : c = 'd'
  · rw [if_pos h2] at h
    by_cases hv : atoi arg < LZHAM_MIN_DICT_SIZE_LOG2 ∨
        atoi arg > LZHAMTEST_MAX_POSSIBLE_DICT_SIZE b
    · simp only [if_pos hv] at h
      cases h
    · simp only [if_neg hv] at h
      cases h
      subst h2
      simp
  rw [if_neg h2] at h
  by_cases h3 : c = 'm'
  · rw [if_pos h3] at h
    by_cases hv : atoi arg < 0 ∨ atoi arg > LZHAM_COMP_LEVEL_UBER
    · simp only [if_pos hv] at h
      cases h
    · simp only [if_neg hv] at h
      cases h
      subst h3
      simp
  rw [if_neg h3] at h
  by_cases h4 : c = 't'
  · rw [if_pos h4] at h
    by_cases hv : atoi arg < 0 ∨ atoi arg > LZHAM_MAX_HELPER_THREADS
    · simp only [if_pos hv] at h
      cases h
    · simp only [if_neg hv] at h
      cases h
      subst h4
      simp only [not_or, not_lt, gt_iff_lt] at hv
      simp [hv]
  rw [if_neg h4] at h
  have hrest : r.1.m_dict_size_log2 = options.m_dict_size_log2 ∧
      r.1.m_comp_level = options.m_comp_level ∧
      r.1.m_max_helper_threads = options.m_max_helper_threads := by
    by_cases h5 : c = 'c'
    · rw [if_pos h5] at h
      cases h
      exact ⟨rfl, rfl, rfl⟩
    rw [if_neg h5] at h
    by_cases h6 : c = 'v'
    · rw [if_pos h6] at h
      cases h
      exact ⟨rfl, rfl, rfl⟩
    rw [if_neg h6] at h
    by_cases h7 : c = 'r'
    · rw [if_pos h7] at h
      cases h
      exact ⟨rfl, rfl, rfl⟩
    rw [if_neg h7] at h
    by_cases h8 : c = 'p'
    · rw [if_pos h8] at h
      cases h
      exact ⟨rfl, rfl, rfl⟩
    rw [if_neg h8] at h
    by_cases h9 : c = 'x'
    · rw [if_pos h9] at h
      cases h
      exact ⟨rfl, rfl, rfl⟩
    rw [if_neg h9] at h
    by_cases h10 : c = 'e'
    · rw [if_pos h10] at h
      cases h
      exact ⟨rfl, rfl, rfl⟩
    rw [if_neg h10] at h
    by_cases h11 : c = 's'
    · rw [if_pos h11] at h
      cases h
      exact ⟨rfl, rfl, rfl⟩
    rw [if_neg h11] at h
    cases h
  rw [if_neg h2, if_neg h3, if_neg h4]
  exact ⟨hrest.1, hrest.2.1, hrest.2.2, fun h => absurd h h4⟩

theorem option_value_cons_option (atoi : String → Int) (letter : Char) (start : Int)
    (str : String) (rest : List String) (c : Char) (arg : List Char)
    (hstr : str.data = '-' :: c :: arg) :
    option_value atoi letter start (str :: rest) =
      option_value atoi letter
        (if c.toLower = letter then atoi (String.mk arg) else start) rest := by
  have h1 : is_option str = true := by simp [is_option, hstr]
  have h2 : option_letter str = some c.toLower := by simp [option_letter, hstr]
  have h3 : option_arg str = String.mk arg := by simp [option_arg, hstr]
  rw [option_value, if_pos h1, h2, h3]
  simp only [Option.some.injEq]

theorem option_given_cons_option (letter : Char) (str : String) (rest : List String)
    (c : Char) (arg : List Char) (hstr : str.data = '-' :: c :: arg) :
    option_given letter (str :: rest) = (c.toLower == letter || option_given letter rest) := by
  have h1 : is_option str = true := by simp [is_option, hstr]
  have h2 : option_letter str = some c.toLower := by simp [option_letter, hstr]
  rw [option_given, h1, h2, Bool.true_and]
  by_cases hc : c.toLower = letter <;> simp [hc]

theorem not_is_option_of_head (str : String) (c0 : Char) (tl : List Char)
    (hstr : str.data = c0 :: tl) (hc0 : ¬ c0 = '-') : is_option str = false := by
  simp [is_option, hstr, hc0]

/-- The fields `m_dict_size_log2`, `m_comp_level` and `m_max_helper_threads` the parsing
loop ends with are those the option tokens ahead of the mode token give them: for each
the value of the last option with its letter, and the value the loop started with when
there is none. -/
theorem parse_cmd_line_values (b : Build) (atoi : String → Int) :
    ∀ (cmd_line : List String) (options : comp_options) (calls : List Call) (p : Parsed),
      parse_cmd_line b atoi cmd_line options calls = .ok p →
      p.options.m_dict_size_log2 =
        option_value atoi 'd' options.m_dict_size_log2 cmd_line ∧
      p.options.m_comp_level = option_value atoi 'm' options.m_comp_level cmd_line ∧
      p.options.m_max_helper_threads =
        option_value atoi 't' options.m_max_helper_threads cmd_line := by
  intro cmd_line
  induction cmd_line with
  | nil =>
    intro options calls p h
    rw [parse_cmd_line] at h
    cases h
    exact ⟨rfl, rfl, rfl⟩
  | cons str rest ih =>
    intro options calls p h
    rw [parse_cmd_line] at h
    cases hd : str.data with
    | nil =>
      rw [hd] at h
      cases h
    | cons c0 tl =>
      rw [hd] at h
      simp only at h
      by_cases hc0 : c0 = '-'
      · rw [if_pos hc0] at h
        subst hc0
        cases tl with
        | nil => cases h
        | cons c arg =>
          simp only at h
          cases hp : parse_option b atoi c.toLower (String.mk arg) options with
          | none =>
            rw [hp] at h
            cases h
          | some r =>
            rw [hp] at h
            obtain ⟨i1, i2, i3⟩ := ih _ _ _ h
            obtain ⟨f1, f2, f3, _⟩ := parse_option_fields b atoi _ _ _ r hp
            rw [option_value_cons_option atoi 'd' _ str rest c arg hd,
              option_value_cons_option atoi 'm' _ str rest c arg hd,
              option_value_cons_option atoi 't' _ str rest c arg hd, ← f1, ← f2, ← f3]
            exact ⟨i1, i2, i3⟩
      · rw [if_neg hc0] at h
        by_cases htl : tl ≠ []
        · rw [if_pos htl] at h
          cases h
        · rw [if_neg htl] at h
          cases hm : parse_mode c0.toLower with
          | none =>
            rw [hm] at h
            cases h
          | some m =>
            rw [hm] at h
            cases h
            have hno := not_is_option_of_head str c0 tl hd hc0
            simp only [option_value, hno, Bool.false_eq_true, if_false]
            exact ⟨trivial, trivial, trivial⟩

/-- The helper-thread budget the parsing loop ends with: within its range when a `-t`
option stands ahead of the mode token, the budget the loop started with when none
does. -/
theorem parse_cmd_line_threads (b : Build) (atoi : String → Int) :
    ∀ (cmd_line : List String) (options : comp_options) (calls : List Call) (p : Parsed),
      parse_cmd_line b atoi cmd_line options calls = .ok p →
      (option_given 't' cmd_line = true → helper_threads_in_range p.options) ∧
      (option_given 't' cmd_line = false →
        p.options.m_max_helper_threads = options.m_max_helper_threads) := by
  intro cmd_line
  induction cmd_line with
  | nil =>
    intro options calls p h
    rw [parse_cmd_line] at h
    cases h
    exact ⟨fun hg => (by cases hg), fun _ => rfl⟩
  | cons str rest ih =>
    intro options calls p h
    have hinv := parse_cmd_line_invariant b atoi (str :: rest) options calls p h
    rw [parse_cmd_line] at h
    cases hd : str.data with
    | nil =>
      rw [hd] at h
      cases h
    | cons c0 tl =>
      rw [hd] at h
      simp only at h
      by_cases hc0 : c0 = '-'
      · rw [if_pos hc0] at h
        subst hc0
        cases tl with
        | nil => cases h
        | cons c arg =>
          simp only at h
          cases hp : parse_option b atoi c.toLower (String.mk arg) options with
          | none =>
            rw [hp] at h
            cases h
          | some r =>
            rw [hp] at h
            obtain ⟨i1, i2⟩ := ih _ _ _ h
            obtain ⟨_, _, f3, f4⟩ := parse_option_fields b atoi _ _ _ r hp
            have hrest := (parse_cmd_line_invariant b atoi rest _ _ p h).2.1
            rw [option_given_cons_option 't' str rest c arg hd]
            by_cases hc : c.toLower = 't'
            · refine ⟨fun _ => ?_, fun hg => ?_⟩
              · rcases hrest with hrest | hrest
                · rw [if_pos hc] at f3
                  have hr := f4 hc
                  exact ⟨by rw [hrest, f3]; exact hr.1, by rw [hrest, f3]; exact hr.2⟩
                · exact hrest
              · simp [hc] at hg
            · rw [if_neg hc] at f3
              refine ⟨fun hg => i1 ?_, fun hg => ?_⟩
              · simpa [hc] using hg
              · rw [i2 (by simpa [hc] using hg), f3]
      · rw [if_neg hc0] at h
        by_cases htl : tl ≠ []
        · rw [if_pos htl] at h
          cases h
        · rw [if_neg htl] at h
          cases hm : parse_mode c0.toLower with
          | none =>
            rw [hm] at h
            cases h
          | some m =>
            rw [hm] at h
            cases h
            have hno := not_is_option_of_head str c0 tl hd hc0
            rw [option_given, hno, Bool.false_and]
            exact ⟨fun hg => (by cases hg), fun _ => rfl⟩

/-- An accepted option token is taken by `parse_option`. -/
theorem parse_option_accepted (b : Build) (atoi : String → Int) (str : String)
    (options : comp_options) (h : accepted_option b atoi str) :
    ∃ c arg r, str.data = '-' :: c :: arg ∧
      parse_option b atoi c.toLower (String.mk arg) options = some r := by
  obtain ⟨c, arg, hstr, hok⟩ := h
  have key : ∃ r, parse_option b atoi c.toLower (String.mk arg) options = some r := by
    unfold parse_option
    rcases hok with ⟨hc, h1, h2⟩ | ⟨hc, h1, h2⟩ | ⟨hc, h1, h2⟩ | hc
    · rw [hc, if_neg (by decide), if_pos rfl]
      have hv : ¬ (atoi (String.mk arg) < LZHAM_MIN_DICT_SIZE_LOG2 ∨
          atoi (String.mk arg) > LZHAMTEST_MAX_POSSIBLE_DICT_SIZE b) := by
        unfold LZHAM_MIN_DICT_SIZE_LOG2
        omega
      simp only [if_neg hv]
      exact ⟨_, rfl⟩
    · rw [hc, if_neg (by decide), if_neg (by decide), if_pos rfl]
      have hv : ¬ (atoi (String.mk arg) < 0 ∨
          atoi (String.mk arg) > LZHAM_COMP_LEVEL_UBER) := by
        unfold LZHAM_COMP_LEVEL_UBER
        omega
      simp only [if_neg hv]
      exact ⟨_, rfl⟩
    · rw [hc, if_neg (by decide), if_neg (by decide), if_neg (by decide), if_pos rfl]
      have hv : ¬ (atoi (String.mk arg) < 0 ∨
          atoi (String.mk arg) > LZHAM_MAX_HELPER_THREADS) := by
        unfold LZHAM_MAX_HELPER_THREADS
        omega
      simp only [if_neg hv]
      exact ⟨_, rfl⟩
    · simp only [List.mem_cons, List.mem_singleton, List.not_mem_nil, or_false] at hc
      rcases hc with hc | hc | hc | hc | hc | hc | hc | hc <;> rw [hc] <;> simp
  obtain ⟨r, hr⟩ := key
  exact ⟨c, arg, r, hstr, hr⟩

/-- The loop takes every accepted option and then the mode token: it ends with the mode
of that token and with the tokens after it. -/
theorem parse_cmd_line_accepts (b : Build) (atoi : String → Int) (mode : String)
    (c0 : Char) (m : op_mode_t) (rest : List String) (hmode : mode.data = [c0])
    (hm : parse_mode c0.toLower = some m) :
    ∀ (pre : List String) (options : comp_options) (calls : List Call),
      (∀ s ∈ pre, accepted_option b atoi s) →
      ∃ p, parse_cmd_line b atoi (pre ++ mode :: rest) options calls = .ok p ∧
        p.op_mode = m ∧ p.cmd_line = rest := by
  intro pre
  induction pre with
  | nil =>
    intro options calls _
    have hc0 : ¬ c0 = '-' := by
      intro hc
      rw [hc] at hm
      revert hm
      cases m <;> decide
    rw [List.nil_append, parse_cmd_line]
    simp only [hmode, if_neg hc0, ne_eq, not_true_eq_false, if_false, hm]
    exact ⟨_, rfl, rfl, rfl⟩
  | cons s pre ih =>
    intro options calls hpre
    obtain ⟨c, arg, r, hstr, hr⟩ :=
      parse_option_accepted b atoi s options (hpre s (List.mem_cons_self _ _))
    rw [List.cons_append, parse_cmd_line_option b atoi s _ options calls c arg hstr, hr]
    exact ih r.1 (calls ++ r.2) (fun x hx => hpre x (List.mem_cons_of_mem _ hx))

/-- The operation `run_mode` starts in each mode when the tokens left are those the mode
needs: it is started with the options the parsing loop ended with. -/
theorem run_mode_starts (ops : Ops) (p : Parsed) :
    (∀ src dst, p.op_mode = op_mode_t.OP_MODE_COMPRESS → p.cmd_line = [src, dst] →
      Call.compress_streaming src dst p.options ∈ (run_mode ops p).calls) ∧
    (∀ src dst, p.op_mode = op_mode_t.OP_MODE_DECOMPRESS → p.cmd_line = [src, dst] →
      Call.decompress_file src dst p.options ∈ (run_mode ops p).calls) ∧
    (∀ path, p.op_mode = op_mode_t.OP_MODE_ALL → p.cmd_line = [path] →
      Call.test_recursive path p.options ∈ (run_mode ops p).calls) := by
  refine ⟨fun src dst hm hc => ?_, fun src dst hm hc => ?_, fun path hm hc => ?_⟩
  · simp only [run_mode, hm, hc]
    split_ifs <;> simp
  · simp only [run_mode, hm, hc]
    simp
  · simp only [run_mode, hm, hc]
    simp

theorem option_value_before_mode (b : Build) (atoi : String → Int) (letter : Char)
    (mode : String) (c0 : Char) (m : op_mode_t) (rest : List String)
    (hmode : mode.data = [c0]) (hm : parse_mode c0.toLower = some m) :
    ∀ (pre : List String) (start : Int), (∀ s ∈ pre, accepted_option b atoi s) →
      option_value atoi letter start (pre ++ mode :: rest) =
        option_value atoi letter start pre := by
  intro pre
  induction pre with
  | nil =>
    intro start _
    have hc0 : ¬ c0 = '-' := by
      intro hc
      rw [hc] at hm
      revert hm
      cases m <;> decide
    have hno := not_is_option_of_head mode c0 [] hmode hc0
    simp only [List.nil_append, option_value, hno, Bool.false_eq_true, if_false]
  | cons s pre ih =>
    intro start hpre
    obtain ⟨c, arg, hstr, _⟩ := hpre s (List.mem_cons_self _ _)
    rw [List.cons_append, option_value_cons_option atoi letter _ s _ c arg hstr,
      option_value_cons_option atoi letter _ s _ c arg hstr]
    exact ih _ (fun x hx => hpre x (List.mem_cons_of_mem _ hx))

/-- Claim C12. Out-of-range option values are rejected: for every command line in which
a `-d`, `-m` or `-t` token with a value outside [15, platform maximum], [0, 4] or
[0, 16] comes before any token that is not an option (so ahead of the mode token),
`main_internal` returns `EXIT_FAILURE` and has started no operation; when the loop
meets such a token with a value inside its range, it stores that very value in
`m_dict_size_log2`, `m_comp_level` or `m_max_helper_threads` and goes on with the next
token; and for every command line made of options that are accepted, a mode token
and the tokens `rest`, the loop ends well, with the mode of the mode token, with
`rest`, and with options whose three fields are the values of the last `-d`, `-m` and
`-t` options as read by `atoi` (the values `main_internal` starts from for an option not
given), and these are the options `main_internal` starts the compressor, the
decompressor or the corpus run with when `rest` has the tokens the mode needs. -/
theorem out_of_range_options_rejected (b : Build) (atoi : String → Int) :
    (∀ (ops : Ops) (pre : List String) (tok : String) (post : List String)
        (num_helper_threads : Int),
      (∀ s ∈ pre, is_option s = true) → out_of_range b atoi tok →
      (main_internal b atoi ops (pre ++ tok :: post) num_helper_threads).exit_status =
        EXIT_FAILURE ∧
      ∀ x ∈ (main_internal b atoi ops (pre ++ tok :: post) num_helper_threads).calls,
        Call.isOperation x = false) ∧
    (∀ (str : String) (rest : List String) (options : comp_options) (calls : List Call)
        (c : Char) (arg : List Char), str.data = '-' :: c :: arg →
      (c.toLower = 'd' → 15 ≤ atoi (String.mk arg) →
        atoi (String.mk arg) ≤ LZHAMTEST_MAX_POSSIBLE_DICT_SIZE b →
        parse_cmd_line b atoi (str :: rest) options calls =
          parse_cmd_line b atoi rest
            { options with m_dict_size_log2 := atoi (String.mk arg) } calls) ∧
      (c.toLower = 'm' → 0 ≤ atoi (String.mk arg) → atoi (String.mk arg) ≤ 4 →
        parse_cmd_line b atoi (str :: rest) options calls =
          parse_cmd_line b atoi rest
            { options with m_comp_level := atoi (String.mk arg) } calls) ∧
      (c.toLower = 't' → 0 ≤ atoi (String.mk arg) → atoi (String.mk arg) ≤ 16 →
        parse_cmd_line b atoi (str :: rest) options calls =
          parse_cmd_line b atoi rest
            { options with m_max_helper_threads := atoi (String.mk arg) } calls)) ∧
    (∀ (ops : Ops) (pre : List String) (mode : String) (c0 : Char) (m : op_mode_t)
        (rest : List String) (num_helper_threads : Int),
      (∀ s ∈ pre, accepted_option b atoi s) → mode.data = [c0] →
      parse_mode c0.toLower = some m →
      ∃ p, parse_cmd_line b atoi (pre ++ mode :: rest)
          (initial_options b num_helper_threads) [] = .ok p ∧
        p.op_mode = m ∧ p.cmd_line = rest ∧
        p.options.m_dict_size_log2 =
          option_value atoi 'd' (initial_options b num_helper_threads).m_dict_size_log2 pre ∧
        p.options.m_comp_level =
          option_value atoi 'm' (initial_options b num_helper_threads).m_comp_level pre ∧
        p.options.m_max_helper_threads = option_value atoi 't' num_helper_threads pre ∧
        (∀ src dst, m = op_mode_t.OP_MODE_COMPRESS → rest = [src, dst] →
          Call.compress_streaming src dst p.options ∈
            (main_internal b atoi ops (pre ++ mode :: rest) num_helper_threads).calls) ∧
        (∀ src dst, m = op_mode_t.OP_MODE_DECOMPRESS → rest = [src, dst] →
          Call.decompress_file src dst p.options ∈
            (main_internal b atoi ops (pre ++ mode :: rest) num_helper_threads).calls) ∧
        (∀ path, m = op_mode_t.OP_MODE_ALL → rest = [path] →
          Call.test_recursive path p.options ∈
            (main_internal b atoi ops (pre ++ mode :: rest) num_helper_threads).calls)) := by
  refine ⟨?_, ?_, ?_⟩
  · intro ops pre tok post n hpre htok
    obtain ⟨calls1, hparse, hcalls⟩ := parse_cmd_line_out_of_range b atoi tok post htok pre
      (initial_options b n) [] hpre (fun _ h => absurd h (List.not_mem_nil _))
    have hlen : (pre ++ tok :: post).length ≠ 0 := by simp
    simp only [main_internal, if_neg hlen, hparse]
    exact ⟨trivial, hcalls⟩
  · intro str rest options calls c arg hstr
    exact parse_cmd_line_stores b atoi str rest options calls c arg hstr
  · intro ops pre mode c0 m rest n hpre hmode hm
    obtain ⟨p, hp, hpm, hpc⟩ := parse_cmd_line_accepts b atoi mode c0 m rest hmode hm pre
      (initial_options b n) [] hpre
    obtain ⟨v1, v2, v3⟩ := parse_cmd_line_values b atoi _ _ _ p hp
    rw [option_value_before_mode b atoi _ mode c0 m rest hmode hm pre _ hpre] at v1 v2 v3
    rw [(initial_options_in_range b n).2] at v3
    have hlen : (pre ++ mode :: rest).length ≠ 0 := by simp
    have hrun : main_internal b atoi ops (pre ++ mode :: rest) n = run_mode ops p := by
      simp only [main_internal, if_neg hlen, hp]
    obtain ⟨s1, s2, s3⟩ := run_mode_starts ops p
    rw [hrun]
    refine ⟨p, hp, hpm, hpc, v1, v2, v3, ?_, ?_, ?_⟩
    · intro src dst h1 h2
      exact s1 src dst (hpm.trans h1) (hpc.trans h2)
    · intro src dst h1 h2
      exact s2 src dst (hpm.trans h1) (hpc.trans h2)
    · intro path h1 h2
      exact s3 path (hpm.trans h1) (hpc.trans h2)

/-- Witness of `out_of_range_options_rejected`: on the 32-bit build the command line
`-v -d27 c in out` is rejected, and `-d20 c in out` starts the compressor with the
dictionary-size exponent 20. -/
theorem out_of_range_options_rejected_witness :
    (main_internal x86 atoi_decimal Ops.succeeding ["-v", "-d27", "c", "in", "out"]
      7).exit_status = EXIT_FAILURE ∧
    ∃ o : comp_options, o.m_dict_size_log2 = 20 ∧
      Call.compress_streaming "in" "out" o ∈
        (main_internal x86 atoi_decimal Ops.succeeding ["-d20", "c", "in", "out"] 7).calls :=
  ⟨((out_of_range_options_rejected x86 atoi_decimal).1 Ops.succeeding ["-v"] "-d27"
      ["c", "in", "out"] 7 (by decide)
      ⟨'d', ['2', '7'], rfl, Or.inl ⟨by decide, Or.inr (by decide)⟩⟩).1,
   match (out_of_range_options_rejected x86 atoi_decimal).2.2 Ops.succeeding ["-d20"] "c"
      'c' op_mode_t.OP_MODE_COMPRESS ["in", "out"] 7
      (fun s hs => by
        rw [List.mem_singleton.mp hs]
        exact ⟨'d', ['2', '0'], rfl, Or.inl ⟨by decide, by decide, by decide⟩⟩)
      rfl rfl with
   | ⟨p, _, _, _, hd, _, _, hcomp, _, _⟩ =>
     ⟨p.options, hd.trans (by decide), hcomp "in" "out" rfl rfl⟩⟩

/-- Claim C13, amended. Options invariant after parsing: for every command line and
every `num_helper_threads`, every operation `main_internal` starts is started with a
dictionary-size exponent in [`LZHAM_MIN_DICT_SIZE_LOG2`, platform maximum]; its
helper-thread budget is in [0, `LZHAM_MAX_HELPER_THREADS`] when a `-t` option stands
ahead of the mode token, and is the value of `num_helper_threads` as passed when none
does; so the budget is either in range or that value, and it is in range whenever
`num_helper_threads` itself is. -/
theorem options_invariant (b : Build) (atoi : String → Int) (ops : Ops)
    (cmd_line : List String) (num_helper_threads : Int) :
    ∀ x ∈ (main_internal b atoi ops cmd_line num_helper_threads).calls,
      ∀ o, Call.options? x = some o →
        dict_size_in_range b o ∧
        (o.m_max_helper_threads = num_helper_threads ∨ helper_threads_in_range o) ∧
        (0 ≤ num_helper_threads → num_helper_threads ≤ LZHAM_MAX_HELPER_THREADS →
          helper_threads_in_range o) ∧
        (option_given 't' cmd_line = true → helper_threads_in_range o) ∧
        (option_given 't' cmd_line = false →
          o.m_max_helper_threads = num_helper_threads) := by
  have hinit := initial_options_in_range b num_helper_threads
  have key : ∀ o : comp_options, dict_size_in_range b o →
      (option_given 't' cmd_line = true → helper_threads_in_range o) →
      (option_given 't' cmd_line = false → o.m_max_helper_threads = num_helper_threads) →
      dict_size_in_range b o ∧
        (o.m_max_helper_threads = num_helper_threads ∨ helper_threads_in_range o) ∧
        (0 ≤ num_helper_threads → num_helper_threads ≤ LZHAM_MAX_HELPER_THREADS →
          helper_threads_in_range o) ∧
        (option_given 't' cmd_line = true → helper_threads_in_range o) ∧
        (option_given 't' cmd_line = false →
          o.m_max_helper_threads = num_helper_threads) := by
    intro o h1 h2 h3
    have h4 : o.m_max_helper_threads = num_helper_threads ∨ helper_threads_in_range o := by
      cases hg : option_given 't' cmd_line with
      | true => exact Or.inr (h2 hg)
      | false => exact Or.inl (h3 hg)
    refine ⟨h1, h4, fun h5 h6 => ?_, h2, h3⟩
    rcases h4 with h4 | h4
    · exact ⟨by rw [h4]; exact h5, by rw [h4]; exact h6⟩
    · exact h4
  intro x hx o ho
  unfold main_internal at hx
  simp only at hx
  by_cases hlen : cmd_line.length = 0
  · rw [if_pos hlen] at hx
    rw [List.mem_singleton.mp hx] at ho
    cases ho
    have hnil := List.length_eq_zero.mp hlen
    refine key _ hinit.1 (fun hg => ?_) (fun _ => hinit.2)
    rw [hnil] at hg
    cases hg
  · rw [if_neg hlen] at hx
    cases hp : parse_cmd_line b atoi cmd_line (initial_options b num_helper_threads) [] with
    | error calls =>
      rw [hp] at hx
      have hnone : ∀ (pre : List String) (opts : comp_options) (cs cs1 : List Call),
          parse_cmd_line b atoi pre opts cs = .error cs1 →
          (∀ y ∈ cs, Call.options? y = none) → ∀ y ∈ cs1, Call.options? y = none := by
        intro pre
        induction pre with
        | nil =>
          intro opts cs cs1 h
          rw [parse_cmd_line] at h
          cases h
        | cons str rest ih =>
          intro opts cs cs1 h hcs
          rw [parse_cmd_line] at h
          cases hd : str.data with
          | nil =>
            rw [hd] at h
            cases h
            exact hcs
          | cons c0 tl =>
            rw [hd] at h
            simp only at h
            by_cases hc0 : c0 = '-'
            · rw [if_pos hc0] at h
              cases tl with
              | nil =>
                cases h
                exact hcs
              | cons c arg =>
                simp only at h
                rcases parse_option_cases b atoi c.toLower (String.mk arg) opts with
                  h1 | h1 | ⟨o1, h1, _⟩
                · rw [h1] at h
                  cases h
                  exact hcs
                · rw [h1] at h
                  refine ih _ _ _ h ?_
                  intro y hy
                  rcases List.mem_append.mp hy with hy | hy
                  · exact hcs y hy
                  · rw [List.mem_singleton.mp hy]
                    rfl
                · rw [h1] at h
                  refine ih _ _ _ h ?_
                  simpa using hcs
            · rw [if_neg hc0] at h
              by_cases htl : tl ≠ []
              · rw [if_pos htl] at h
                cases h
                exact hcs
              · rw [if_neg htl] at h
                cases hm : parse_mode c0.toLower with
                | none =>
                  rw [hm] at h
                  cases h
                  exact hcs
                | some m =>
                  rw [hm] at h
                  cases h
      rw [hnone cmd_line _ [] calls hp (fun _ h => absurd h (List.not_mem_nil _)) x hx] at ho
      cases ho
    | ok p =>
      rw [hp] at hx
      obtain ⟨i1, _, i3⟩ := parse_cmd_line_invariant b atoi cmd_line _ [] p hp
      obtain ⟨t1, t2⟩ := parse_cmd_line_threads b atoi cmd_line _ [] p hp
      have ho1 := run_mode_options ops p (i3 (fun _ h => absurd h (List.not_mem_nil _))) x hx o ho
      rw [ho1]
      exact key _ (i1 hinit.1) t1 (fun hg => (t2 hg).trans hinit.2)

/-- Witness of `options_invariant`: the command line `-t4 c in out` run with 31 as
`num_helper_threads` starts the compressor with the helper-thread budget 4, which is in
range. -/
theorem options_invariant_witness :
    Call.compress_streaming "in" "out"
        { comp_options.default x86 with m_max_helper_threads := 4 } ∈
      (main_internal x86 atoi_decimal Ops.succeeding ["-t4", "c", "in", "out"] 31).calls ∧
    helper_threads_in_range { comp_options.default x86 with m_max_helper_threads := 4 } :=
  ⟨by decide,
   ((options_invariant x86 atoi_decimal Ops.succeeding ["-t4", "c", "in", "out"] 31
      (Call.compress_streaming "in" "out"
        { comp_options.default x86 with m_max_helper_threads := 4 }) (by decide)
      { comp_options.default x86 with m_max_helper_threads := 4 } rfl).2.2.2.1 (by decide))⟩

/-- Claim C13 as stated fails: `main` on a Windows machine with 32 processors passes 31 as
`num_helper_threads`, and `main_internal` run on `c in out` with that value starts the
compressor with a helper-thread budget of 31, above `LZHAM_MAX_HELPER_THREADS`. -/
theorem default_thread_budget_unchecked :
    main_num_helper_threads x86 true 32 = 31 ∧
    (main_internal x86 atoi_decimal Ops.succeeding ["c", "in", "out"] 31).calls =
      [Call.compress_streaming "in" "out"
        { comp_options.default x86 with m_max_helper_threads := 31 }] ∧
    ¬ helper_threads_in_range { comp_options.default x86 with m_max_helper_threads := 31 } := by
  refine ⟨by decide, by decide, ?_⟩
  unfold helper_threads_in_range LZHAM_MAX_HELPER_THREADS
  simp

/-! ## The corpus run -/

/-- The options of file number `k` of a corpus run: the options drawn from the calls of
`rand` starting at `k` when randomization is on, the options given otherwise. -/
theorem test_files_calls (b : Build) (rand : Nat → Int) (cmp_file decomp_file : String)
    (options : comp_options) (P : comp_options → Prop)
    (hP : ∀ k, P (if options.m_randomize_params then randomize b rand k options else options)) :
    ∀ (files : List CorpusFile) (s : CorpusState),
      (∀ x ∈ s.calls, ∀ o, Call.options? x = some o → P o) →
      ∀ x ∈ (test_files b rand cmp_file decomp_file options files s).calls,
        ∀ o, Call.options? x = some o → P o := by
  intro files
  induction files with
  | nil =>
    intro s hs x hx o ho
    rw [test_files] at hx
    simp only [List.mem_append, List.mem_cons, List.mem_singleton, List.not_mem_nil,
      or_false] at hx
    rcases hx with hx | rfl | rfl
    · exact hs x hx o ho
    · cases ho
    · cases ho
  | cons f rest ih =>
    intro s hs
    have hsnoc : ∀ (l : List Call) (c : Call), (∀ x ∈ l, ∀ o, Call.options? x = some o → P o) →
        (∀ o, Call.options? c = some o → P o) →
        ∀ x ∈ l ++ [c], ∀ o, Call.options? x = some o → P o := by
      intro l c hl hc x hx
      rcases List.mem_append.mp hx with hx | hx
      · exact hl x hx
      · rw [List.mem_singleton.mp hx]
        exact hc
    have h2 := hsnoc s.calls (Call.compress_streaming f.name cmp_file
      (if options.m_randomize_params then randomize b rand s.rands options else options)) hs
      (fun o ho => by cases ho; exact hP s.rands)
    have h3 := hsnoc _ (Call.decompress_file cmp_file decomp_file
      (if options.m_randomize_params then randomize b rand s.rands options else options)) h2
      (fun o ho => by cases ho; exact hP s.rands)
    have h4 := hsnoc _ (Call.compare_files decomp_file f.name) h3 (fun o ho => by cases ho)
    rw [test_files]
    by_cases hr : (!f.readable) = true
    · rw [if_pos hr]
      exact ih _ hs
    rw [if_neg hr]
    by_cases hw : (!ensure_file_is_writable f.cmp_writable) = true
    · rw [if_pos hw]
      exact hs
    rw [if_neg hw]
    simp only
    by_cases hc : (!f.compress_streaming
        (if options.m_randomize_params then randomize b rand s.rands options else options)) = true
    · rw [if_pos hc]
      exact h2
    rw [if_neg hc]
    by_cases hv : (if options.m_randomize_params then randomize b rand s.rands options
        else options).m_verify_compressed_data = true
    · rw [if_pos hv]
      by_cases hdw : (!ensure_file_is_writable f.decomp_writable) = true
      · rw [if_pos hdw]
        exact h2
      rw [if_neg hdw]
      by_cases hd : (!f.decompress_file
          (if options.m_randomize_params then randomize b rand s.rands options else options)) = true
      · rw [if_pos hd]
        exact h3
      rw [if_neg hd]
      by_cases hcmp : (!f.compare_files) = true
      · rw [if_pos hcmp]
        exact h4
      rw [if_neg hcmp]
      exact ih _ h4
    · rw [if_neg hv]
      exact ih _ h2

theorem randomize_in_range (b : Build) (rand : Nat → Int) (k : Nat) (options : comp_options)
    (hrand : ∀ i, 0 ≤ rand i) :
    (0 ≤ (randomize b rand k options).m_comp_level ∧
      (randomize b rand k options).m_comp_level ≤ LZHAM_TOTAL_COMP_LEVELS - 1) ∧
    dict_size_in_range b (randomize b rand k options) ∧
    helper_threads_in_range (randomize b rand k options) := by
  have hmax : LZHAM_MIN_DICT_SIZE_LOG2 ≤ LZHAMTEST_MAX_POSSIBLE_DICT_SIZE b := by
    unfold LZHAMTEST_MAX_POSSIBLE_DICT_SIZE
    split <;> decide
  simp only [randomize, dict_size_in_range, helper_threads_in_range, LZHAM_TOTAL_COMP_LEVELS,
    LZHAM_MAX_HELPER_THREADS, LZHAM_MIN_DICT_SIZE_LOG2] at hmax ⊢
  have e1 := Int.tmod_eq_emod (hrand k) (by decide : (0 : Int) ≤ 5)
  have e2 := Int.tmod_eq_emod (hrand (k + 1))
    (by omega : (0 : Int) ≤ LZHAMTEST_MAX_POSSIBLE_DICT_SIZE b - 15 + 1)
  have e3 := Int.tmod_eq_emod (hrand (k + 2)) (by decide : (0 : Int) ≤ 16 + 1)
  rw [e1, e2, e3]
  have := Int.emod_nonneg (rand (k + 1))
    (by omega : LZHAMTEST_MAX_POSSIBLE_DICT_SIZE b - 15 + 1 ≠ 0)
  have := Int.emod_lt_of_pos (rand (k + 1))
    (by omega : 0 < LZHAMTEST_MAX_POSSIBLE_DICT_SIZE b - 15 + 1)
  omega

/-- Claim C14. Randomized options stay in range: whenever `rand` returns non-negative
values, the options drawn for a file have compression level in
[0, `LZHAM_TOTAL_COMP_LEVELS` - 1], dictionary-size exponent in
[`LZHAM_MIN_DICT_SIZE_LOG2`, `LZHAMTEST_MAX_POSSIBLE_DICT_SIZE`] and helper-thread
budget in [0, `LZHAM_MAX_HELPER_THREADS`]; with randomization on, every pump started by
`test_recursive` is started with such options; and every triple of values in these
ranges is drawn for some non-negative output of `rand`. -/
theorem randomized_options_stay_in_range (b : Build) (options : comp_options) :
    (∀ (rand : Nat → Int) (k : Nat), (∀ i, 0 ≤ rand i) →
      (0 ≤ (randomize b rand k options).m_comp_level ∧
        (randomize b rand k options).m_comp_level ≤ LZHAM_TOTAL_COMP_LEVELS - 1) ∧
      dict_size_in_range b (randomize b rand k options) ∧
      helper_threads_in_range (randomize b rand k options)) ∧
    (∀ (rand : Nat → Int) (files : Option (List CorpusFile)) (cmp_file decomp_file : String),
      (∀ i, 0 ≤ rand i) → options.m_randomize_params = true →
      ∀ x ∈ (test_recursive b rand files cmp_file decomp_file options).calls,
        ∀ o, Call.options? x = some o →
          (0 ≤ o.m_comp_level ∧ o.m_comp_level ≤ LZHAM_TOTAL_COMP_LEVELS - 1) ∧
          dict_size_in_range b o ∧ helper_threads_in_range o) ∧
    (∀ (k : Nat) (l d t : Int), 0 ≤ l → l ≤ LZHAM_TOTAL_COMP_LEVELS - 1 →
      LZHAM_MIN_DICT_SIZE_LOG2 ≤ d → d ≤ LZHAMTEST_MAX_POSSIBLE_DICT_SIZE b →
      0 ≤ t → t ≤ LZHAM_MAX_HELPER_THREADS →
      ∃ rand : Nat → Int, (∀ i, 0 ≤ rand i) ∧
        (randomize b rand k options).m_comp_level = l ∧
        (randomize b rand k options).m_dict_size_log2 = d ∧
        (randomize b rand k options).m_max_helper_threads = t) := by
  refine ⟨fun rand k hrand => randomize_in_range b rand k options hrand, ?_, ?_⟩
  · intro rand files cmp_file decomp_file hrand hon
    unfold test_recursive
    cases files with
    | none =>
      intro x hx
      cases hx
    | some files =>
      refine test_files_calls b rand cmp_file decomp_file options _ ?_ files _ ?_
      · intro k
        rw [hon, if_pos rfl]
        exact randomize_in_range b rand k options hrand
      · intro x hx
        cases hx
  · intro k l d t hl0 hl1 hd0 hd1 ht0 ht1
    refine ⟨fun i => if i = k then l else if i = k + 1 then d - LZHAM_MIN_DICT_SIZE_LOG2
      else if i = k + 2 then t else 0, ?_, ?_, ?_, ?_⟩
    · intro i
      simp only [LZHAM_MIN_DICT_SIZE_LOG2] at hd0 ⊢
      split_ifs <;> omega
    · simp only [randomize, LZHAM_TOTAL_COMP_LEVELS, if_true] at hl1 ⊢
      rw [Int.tmod_eq_emod hl0 (by decide)]
      omega
    · have h1 : ¬ (k + 1 = k) := by omega
      simp only [randomize, LZHAM_MIN_DICT_SIZE_LOG2, h1, if_false, if_true] at hd0 ⊢
      rw [Int.tmod_eq_emod (by omega) (by omega)]
      have := Int.emod_eq_of_lt (by omega : 0 ≤ d - 15)
        (by omega : d - 15 < LZHAMTEST_MAX_POSSIBLE_DICT_SIZE b - 15 + 1)
      omega
    · have h1 : ¬ (k + 2 = k) := by omega
      have h2 : ¬ (k + 2 = k + 1) := by omega
      simp only [randomize, LZHAM_MAX_HELPER_THREADS, h1, h2, if_false, if_true] at ht1 ⊢
      rw [Int.tmod_eq_emod ht0 (by decide)]
      omega

/-- Witness of `randomized_options_stay_in_range`: the options drawn from the outputs
3, 10, 17, ... of `rand` on the 32-bit build. -/
theorem randomized_options_stay_in_range_witness :
    dict_size_in_range x86
      (randomize x86 (fun k => 7 * (k : Int) + 3) 0 (comp_options.default x86)) ∧
    helper_threads_in_range
      (randomize x86 (fun k => 7 * (k : Int) + 3) 0 (comp_options.default x86)) :=
  ((randomized_options_stay_in_range x86 (comp_options.default x86)).1
    (fun k => 7 * (k : Int) + 3) 0 (fun i => by show 0 ≤ 7 * (i : Int) + 3; omega)).2

/-- The totals of a corpus run in which every step on every readable file succeeds,
from the state `s` on. -/
theorem test_files_totals (b : Build) (rand : Nat → Int) (cmp_file decomp_file : String)
    (options : comp_options) :
    ∀ (files : List CorpusFile) (s : CorpusState),
      (∀ f ∈ files, f.readable = true → f.succeeds) →
      s.total_files_compressed < 2 ^ 32 → s.total_source_size < 2 ^ 64 →
      (test_files b rand cmp_file decomp_file options files s).ret = true ∧
      (test_files b rand cmp_file decomp_file options files s).skipped =
        s.skipped ++ (unreadable_files files).map (fun f => f.name) ∧
      ∃ n S c, (test_files b rand cmp_file decomp_file options files s).report =
          some (n, S, c) ∧
        n = (s.total_files_compressed + (readable_files files).length) % 2 ^ 32 ∧
        S = (s.total_source_size + total_size (readable_files files)) % 2 ^ 64 := by
  intro files
  induction files with
  | nil =>
    intro s _ hn hS
    rw [test_files]
    refine ⟨rfl, by simp [unreadable_files], s.total_files_compressed,
      s.total_source_size, s.total_comp_size, rfl, ?_, ?_⟩
    · simp only [readable_files, List.filter_nil, List.length_nil]
      omega
    · simp only [readable_files, total_size, List.filter_nil, List.map_nil, List.sum_nil]
      omega
  | cons f rest ih =>
    intro s hall hn hS
    have hrest : ∀ g ∈ rest, g.readable = true → g.succeeds :=
      fun g hg => hall g (List.mem_cons_of_mem _ hg)
    rw [test_files]
    by_cases hr : f.readable = true
    · obtain ⟨h1, h2, h3, h4, h5⟩ := hall f (List.mem_cons_self _ _) hr
      have hcount : ∀ s1 : CorpusState, s1.skipped = s.skipped →
          s1.total_files_compressed = s.total_files_compressed →
          s1.total_source_size = s.total_source_size →
          (test_files b rand cmp_file decomp_file options rest (s1.count f)).ret = true ∧
          (test_files b rand cmp_file decomp_file options rest (s1.count f)).skipped =
            s.skipped ++ (unreadable_files (f :: rest)).map (fun f => f.name) ∧
          ∃ n S c, (test_files b rand cmp_file decomp_file options rest (s1.count f)).report =
              some (n, S, c) ∧
            n = (s.total_files_compressed + (readable_files (f :: rest)).length) % 2 ^ 32 ∧
            S = (s.total_source_size + total_size (readable_files (f :: rest))) % 2 ^ 64 := by
        intro s1 e1 e2 e3
        obtain ⟨i1, i2, n, S, c, i3, i4, i5⟩ := ih (s1.count f) hrest
          (Nat.mod_lt _ (by decide)) (Nat.mod_lt _ (by decide))
        refine ⟨i1, ?_, n, S, c, i3, ?_, ?_⟩
        · rw [i2]
          simp [CorpusState.count, e1, unreadable_files, hr]
        · rw [i4]
          simp only [CorpusState.count, e2, readable_files, List.filter_cons, hr, if_true,
            List.length_cons]
          omega
        · rw [i5]
          simp only [CorpusState.count, e3, readable_files, total_size, List.filter_cons, hr,
            if_true, List.map_cons, List.sum_cons]
          omega
      rw [if_neg (by simp [hr]), if_neg (by simp [h1])]
      simp only
      rw [if_neg (by simp [h2])]
      by_cases hv : (if options.m_randomize_params then randomize b rand s.rands options
          else options).m_verify_compressed_data = true
      · rw [if_pos hv, if_neg (by simp [h3]), if_neg (by simp [h4]), if_neg (by simp [h5])]
        exact hcount _ rfl rfl rfl
      · rw [if_neg hv]
        exact hcount _ rfl rfl rfl
    · have hr1 : f.readable = false := by simpa using hr
      rw [if_pos (by simp [hr1])]
      obtain ⟨i1, i2, n, S, c, i3, i4, i5⟩ :=
        ih { s with skipped := s.skipped ++ [f.name] } hrest hn hS
      refine ⟨i1, ?_, n, S, c, i3, ?_, ?_⟩
      · rw [i2]
        simp [unreadable_files, hr1]
      · rw [i4]
        simp [readable_files, hr1]
      · rw [i5]
        simp [readable_files, hr1]

theorem readable_unreadable_length (files : List CorpusFile) :
    (readable_files files).length + (unreadable_files files).length = files.length := by
  induction files with
  | nil => rfl
  | cons f rest ih =>
    cases hr : f.readable <;>
      simp only [readable_files, unreadable_files, List.filter_cons, hr, Bool.not_true,
        Bool.not_false, if_true, if_false, Bool.false_eq_true, List.length_cons] at ih ⊢ <;>
      omega

/-- The totals of a corpus run that returns true, from the state `s` on, whatever the
files. -/
theorem test_files_report (b : Build) (rand : Nat → Int) (cmp_file decomp_file : String)
    (options : comp_options) :
    ∀ (files : List CorpusFile) (s : CorpusState),
      s.total_files_compressed < 2 ^ 32 → s.total_source_size < 2 ^ 64 →
      (test_files b rand cmp_file decomp_file options files s).ret = true →
      (test_files b rand cmp_file decomp_file options files s).skipped =
        s.skipped ++ (unreadable_files files).map (fun f => f.name) ∧
      ∃ n S c, (test_files b rand cmp_file decomp_file options files s).report =
          some (n, S, c) ∧
        n = (s.total_files_compressed + (readable_files files).length) % 2 ^ 32 ∧
        S = (s.total_source_size + total_size (readable_files files)) % 2 ^ 64 := by
  intro files
  induction files with
  | nil =>
    intro s hn hS _
    rw [test_files]
    refine ⟨by simp [unreadable_files], s.total_files_compressed,
      s.total_source_size, s.total_comp_size, rfl, ?_, ?_⟩
    · simp only [readable_files, List.filter_nil, List.length_nil]
      omega
    · simp only [readable_files, total_size, List.filter_nil, List.map_nil, List.sum_nil]
      omega
  | cons f rest ih =>
    intro s hn hS
    rw [test_files]
    by_cases hr : f.readable = true
    · have hcount : ∀ s1 : CorpusState, s1.skipped = s.skipped →
          s1.total_files_compressed = s.total_files_compressed →
          s1.total_source_size = s.total_source_size →
          (test_files b rand cmp_file decomp_file options rest (s1.count f)).ret = true →
          (test_files b rand cmp_file decomp_file options rest (s1.count f)).skipped =
            s.skipped ++ (unreadable_files (f :: rest)).map (fun f => f.name) ∧
          ∃ n S c, (test_files b rand cmp_file decomp_file options rest (s1.count f)).report =
              some (n, S, c) ∧
            n = (s.total_files_compressed + (readable_files (f :: rest)).length) % 2 ^ 32 ∧
            S = (s.total_source_size + total_size (readable_files (f :: rest))) % 2 ^ 64 := by
        intro s1 e1 e2 e3 hret
        obtain ⟨i2, n, S, c, i3, i4, i5⟩ := ih (s1.count f)
          (Nat.mod_lt _ (by decide)) (Nat.mod_lt _ (by decide)) hret
        refine ⟨?_, n, S, c, i3, ?_, ?_⟩
        · rw [i2]
          simp [CorpusState.count, e1, unreadable_files, hr]
        · rw [i4]
          simp only [CorpusState.count, e2, readable_files, List.filter_cons, hr, if_true,
            List.length_cons]
          omega
        · rw [i5]
          simp only [CorpusState.count, e3, readable_files, total_size, List.filter_cons, hr,
            if_true, List.map_cons, List.sum_cons]
          omega
      have habort : ∀ s1 : CorpusState, s1.abort.ret = true →
          s1.abort.skipped = s.skipped ++ (unreadable_files (f :: rest)).map (fun f => f.name) ∧
          ∃ n S c, s1.abort.report = some (n, S, c) ∧
            n = (s.total_files_compressed + (readable_files (f :: rest)).length) % 2 ^ 32 ∧
            S = (s.total_source_size + total_size (readable_files (f :: rest))) % 2 ^ 64 :=
        fun s1 h => by cases h
      rw [if_neg (by simp [hr])]
      by_cases hw : (!ensure_file_is_writable f.cmp_writable) = true
      · rw [if_pos hw]
        exact habort _
      rw [if_neg hw]
      simp only
      by_cases hc : (!f.compress_streaming
          (if options.m_randomize_params then randomize b rand s.rands options
            else options)) = true
      · rw [if_pos hc]
        exact habort _
      rw [if_neg hc]
      by_cases hv : (if options.m_randomize_params then randomize b rand s.rands options
          else options).m_verify_compressed_data = true
      · rw [if_pos hv]
        by_cases hdw : (!ensure_file_is_writable f.decomp_writable) = true
        · rw [if_pos hdw]
          exact habort _
        rw [if_neg hdw]
        by_cases hd : (!f.decompress_file
            (if options.m_randomize_params then randomize b rand s.rands options
              else options)) = true
        · rw [if_pos hd]
          exact habort _
        rw [if_neg hd]
        by_cases hcmp : (!f.compare_files) = true
        · rw [if_pos hcmp]
          exact habort _
        rw [if_neg hcmp]
        exact hcount _ rfl rfl rfl
      · rw [if_neg hv]
        exact hcount _ rfl rfl rfl
    · have hr1 : f.readable = false := by simpa using hr
      rw [if_pos (by simp [hr1])]
      intro hret
      obtain ⟨i2, n, S, c, i3, i4, i5⟩ :=
        ih { s with skipped := s.skipped ++ [f.name] } hn hS hret
      refine ⟨?_, n, S, c, i3, ?_, ?_⟩
      · rw [i2]
        simp [unreadable_files, hr1]
      · rw [i4]
        simp [readable_files, hr1]
      · rw [i5]
        simp [readable_files, hr1]

/-- Claim C16. Corpus aggregation: for every enumerated list of fewer than 2 ^ 32 files,
when every step on every readable file succeeds (the temporary files can be created,
compression, decompression and comparison succeed) `test_recursive` returns true; and
whenever it returns true, which is when it reports, it reports as files processed the
number of files that could be opened for reading, that is the number of files less the
unreadable ones, each of which is reported as skipped without ending the run, and as
total source size the sum of the sizes of the readable files (that sum being below
2 ^ 64). -/
theorem corpus_aggregation (b : Build) (rand : Nat → Int) (cmp_file decomp_file : String)
    (options : comp_options) (files : List CorpusFile)
    (hcount : files.length < 2 ^ 32)
    (hsum : total_size (readable_files files) < 2 ^ 64) :
    ((∀ f ∈ files, f.readable = true → f.succeeds) →
      (test_recursive b rand (some files) cmp_file decomp_file options).ret = true) ∧
    ((test_recursive b rand (some files) cmp_file decomp_file options).ret = true →
      (∃ c, (test_recursive b rand (some files) cmp_file decomp_file options).report =
        some ((readable_files files).length, total_size (readable_files files), c)) ∧
      (test_recursive b rand (some files) cmp_file decomp_file options).skipped =
        (unreadable_files files).map (fun f => f.name)) ∧
    (readable_files files).length = files.length - (unreadable_files files).length := by
  have hlen := readable_unreadable_length files
  refine ⟨fun hall => ?_, fun hret => ?_, by omega⟩
  · exact (test_files_totals b rand cmp_file decomp_file options files CorpusState.initial hall
      (by decide) (by decide)).1
  · obtain ⟨h2, n, S, c, h3, h4, h5⟩ := test_files_report b rand cmp_file decomp_file options
      files CorpusState.initial (by decide) (by decide) hret
    refine ⟨⟨c, ?_⟩, by simpa [CorpusState.initial] using h2⟩
    unfold test_recursive
    simp only [CorpusState.initial, Nat.zero_add] at h4 h5
    rw [h3, h4, h5, Nat.mod_eq_of_lt hsum, Nat.mod_eq_of_lt (by omega)]

/-- Witness of `corpus_aggregation`: a corpus of a file of 10 bytes, an unreadable file
and a file of 5 bytes is reported as 2 files of 15 bytes in all. -/
theorem corpus_aggregation_witness :
    (test_recursive x86 (fun _ => 0)
      (some [CorpusFile.good "a" 10, CorpusFile.unreadable "b", CorpusFile.good "c" 5])
      "cmp" "dec" (comp_options.default x86)).ret = true ∧
    ∃ c, (test_recursive x86 (fun _ => 0)
      (some [CorpusFile.good "a" 10, CorpusFile.unreadable "b", CorpusFile.good "c" 5])
      "cmp" "dec" (comp_options.default x86)).report = some (2, 15, c) :=
  ⟨(corpus_aggregation x86 (fun _ => 0) "cmp" "dec" (comp_options.default x86)
      [CorpusFile.good "a" 10, CorpusFile.unreadable "b", CorpusFile.good "c" 5]
      (by decide) (by decide)).1
      (by
        intro f hf _
        simp only [List.mem_cons, List.mem_singleton, List.not_mem_nil, or_false] at hf
        rcases hf with rfl | rfl | rfl <;> exact ⟨rfl, fun _ => rfl, rfl, fun _ => rfl, rfl⟩),
   ((corpus_aggregation x86 (fun _ => 0) "cmp" "dec" (comp_options.default x86)
      [CorpusFile.good "a" 10, CorpusFile.unreadable "b", CorpusFile.good "c" 5]
      (by decide) (by decide)).2.1 rfl).1⟩

/-- The temporary files at the end of a corpus run from the state `s` on: removed when
the run returns true, left behind when it returns false. -/
theorem test_files_temps (b : Build) (rand : Nat → Int) (cmp_file decomp_file : String)
    (options : comp_options) :
    ∀ (files : List CorpusFile) (s : CorpusState),
      TempsKept cmp_file decomp_file s.calls s.cmp_file_exists s.decomp_file_exists →
      ((test_files b rand cmp_file decomp_file options files s).ret = true →
        (test_files b rand cmp_file decomp_file options files s).cmp_file_exists = false ∧
        (test_files b rand cmp_file decomp_file options files s).decomp_file_exists = false ∧
        Call.remove cmp_file ∈ (test_files b rand cmp_file decomp_file options files s).calls ∧
        Call.remove decomp_file ∈
          (test_files b rand cmp_file decomp_file options files s).calls) ∧
      ((test_files b rand cmp_file decomp_file options files s).ret = false →
        TempsKept cmp_file decomp_file
          (test_files b rand cmp_file decomp_file options files s).calls
          (test_files b rand cmp_file decomp_file options files s).cmp_file_exists
          (test_files b rand cmp_file decomp_file options files s).decomp_file_exists) := by
  intro files
  induction files with
  | nil =>
    intro s _
    rw [test_files]
    exact ⟨fun _ => ⟨rfl, rfl, by simp, by simp⟩, fun h => by cases h⟩
  | cons f rest ih =>
    intro s hs
    have habort : ∀ s1 : CorpusState,
        TempsKept cmp_file decomp_file s1.calls s1.cmp_file_exists s1.decomp_file_exists →
        (s1.abort.ret = true →
          s1.abort.cmp_file_exists = false ∧ s1.abort.decomp_file_exists = false ∧
          Call.remove cmp_file ∈ s1.abort.calls ∧ Call.remove decomp_file ∈ s1.abort.calls) ∧
        (s1.abort.ret = false →
          TempsKept cmp_file decomp_file s1.abort.calls s1.abort.cmp_file_exists
            s1.abort.decomp_file_exists) :=
      fun s1 h1 => ⟨fun h => (by cases h), fun _ => h1⟩
    have h2 : ∀ o, TempsKept cmp_file decomp_file
        (s.calls ++ [Call.compress_streaming f.name cmp_file o]) true s.decomp_file_exists := by
      intro o
      obtain ⟨a1, _, a3⟩ := hs
      refine ⟨?_, fun _ => rfl, ?_⟩
      · intro name hmem
        rcases List.mem_append.mp hmem with h | h
        · exact a1 name h
        · cases List.mem_singleton.mp h
      · rintro ⟨o1, hmem⟩
        rcases List.mem_append.mp hmem with h | h
        · exact a3 ⟨o1, h⟩
        · cases List.mem_singleton.mp h
    have h3 : ∀ o, TempsKept cmp_file decomp_file
        (s.calls ++ [Call.compress_streaming f.name cmp_file o] ++
          [Call.decompress_file cmp_file decomp_file o]) true true := by
      intro o
      obtain ⟨a1, _, _⟩ := h2 o
      refine ⟨?_, fun _ => rfl, fun _ => rfl⟩
      intro name hmem
      rcases List.mem_append.mp hmem with h | h
      · exact a1 name h
      · cases List.mem_singleton.mp h
    have h4 : ∀ o, TempsKept cmp_file decomp_file
        (s.calls ++ [Call.compress_streaming f.name cmp_file o] ++
          [Call.decompress_file cmp_file decomp_file o] ++
          [Call.compare_files decomp_file f.name]) true true := by
      intro o
      obtain ⟨a1, _, _⟩ := h3 o
      refine ⟨?_, fun _ => rfl, fun _ => rfl⟩
      intro name hmem
      rcases List.mem_append.mp hmem with h | h
      · exact a1 name h
      · cases List.mem_singleton.mp h
    rw [test_files]
    by_cases hr : (!f.readable) = true
    · rw [if_pos hr]
      exact ih _ hs
    rw [if_neg hr]
    by_cases hw : (!ensure_file_is_writable f.cmp_writable) = true
    · rw [if_pos hw]
      exact habort s hs
    rw [if_neg hw]
    simp only
    by_cases hc : (!f.compress_streaming
        (if options.m_randomize_params then randomize b rand s.rands options else options)) = true
    · rw [if_pos hc]
      exact habort _ (h2 _)
    rw [if_neg hc]
    by_cases hv : (if options.m_randomize_params then randomize b rand s.rands options
        else options).m_verify_compressed_data = true
    · rw [if_pos hv]
      by_cases hdw : (!ensure_file_is_writable f.decomp_writable) = true
      · rw [if_pos hdw]
        exact habort _ (h2 _)
      rw [if_neg hdw]
      by_cases hd : (!f.decompress_file
          (if options.m_randomize_params then randomize b rand s.rands options else options)) = true
      · rw [if_pos hd]
        exact habort _ (h3 _)
      rw [if_neg hd]
      by_cases hcmp : (!f.compare_files) = true
      · rw [if_pos hcmp]
        exact habort _ (h4 _)
      rw [if_neg hcmp]
      exact ih _ (h4 _)
    · rw [if_neg hv]
      exact ih _ (h2 _)

/-- Claim C17, amended. Temporary files: when `test_recursive` returns true it has
removed both temporary files; when it returns false (no file list, temporary file not
writable, failed compression, failed decompression, failed comparison) it has called
`remove` on nothing, so the compressed file is still there once a compression has been
started, and the decompressed file once a decompression has been started. -/
theorem temp_files_removed_on_success_only (b : Build) (rand : Nat → Int)
    (files : Option (List CorpusFile)) (cmp_file decomp_file : String)
    (options : comp_options) :
    ((test_recursive b rand files cmp_file decomp_file options).ret = true →
      (test_recursive b rand files cmp_file decomp_file options).cmp_file_exists = false ∧
      (test_recursive b rand files cmp_file decomp_file options).decomp_file_exists = false ∧
      Call.remove cmp_file ∈ (test_recursive b rand files cmp_file decomp_file options).calls ∧
      Call.remove decomp_file ∈
        (test_recursive b rand files cmp_file decomp_file options).calls) ∧
    ((test_recursive b rand files cmp_file decomp_file options).ret = false →
      (∀ name, Call.remove name ∉
        (test_recursive b rand files cmp_file decomp_file options).calls) ∧
      ((∃ src o, Call.compress_streaming src cmp_file o ∈
          (test_recursive b rand files cmp_file decomp_file options).calls) →
        (test_recursive b rand files cmp_file decomp_file options).cmp_file_exists = true) ∧
      ((∃ o, Call.decompress_file cmp_file decomp_file o ∈
          (test_recursive b rand files cmp_file decomp_file options).calls) →
        (test_recursive b rand files cmp_file decomp_file options).decomp_file_exists =
          true)) := by
  have h0 : TempsKept cmp_file decomp_file CorpusState.initial.calls
      CorpusState.initial.cmp_file_exists CorpusState.initial.decomp_file_exists :=
    ⟨fun _ h => (by cases h), fun ⟨_, _, h⟩ => (by cases h), fun ⟨_, h⟩ => (by cases h)⟩
  unfold test_recursive
  cases files with
  | none => exact ⟨fun h => (by cases h), fun _ => h0⟩
  | some files => exact test_files_temps b rand cmp_file decomp_file options files _ h0

/-- Witness of `temp_files_removed_on_success_only`: a corpus run on one good file
returns true and leaves no temporary file. -/
theorem temp_files_removed_on_success_only_witness :
    (test_recursive x86 (fun _ => 0) (some [CorpusFile.good "a" 10]) "cmp" "dec"
      (comp_options.default x86)).cmp_file_exists = false ∧
    (test_recursive x86 (fun _ => 0) (some [CorpusFile.good "a" 10]) "cmp" "dec"
      (comp_options.default x86)).decomp_file_exists = false :=
  ⟨((temp_files_removed_on_success_only x86 (fun _ => 0) (some [CorpusFile.good "a" 10])
      "cmp" "dec" (comp_options.default x86)).1 rfl).1,
   ((temp_files_removed_on_success_only x86 (fun _ => 0) (some [CorpusFile.good "a" 10])
      "cmp" "dec" (comp_options.default x86)).1 rfl).2.1⟩

/-- Claim C17 as stated fails: on a corpus of one file whose compression fails,
`test_recursive` returns false after the compressed temporary file was created, calls
`remove` on nothing and leaves that file behind. -/
theorem failed_compression_leaves_temp_file :
    (test_recursive x86 (fun _ => 0) (some [CorpusFile.incompressible "a" 10]) "cmp" "dec"
      (comp_options.default x86)).ret = false ∧
    (test_recursive x86 (fun _ => 0) (some [CorpusFile.incompressible "a" 10]) "cmp" "dec"
      (comp_options.default x86)).cmp_file_exists = true ∧
    (test_recursive x86 (fun _ => 0) (some [CorpusFile.incompressible "a" 10]) "cmp" "dec"
      (comp_options.default x86)).calls =
        [Call.compress_streaming "a" "cmp" (comp_options.default x86)] := by
  refine ⟨rfl, rfl, rfl⟩

/-! ## The comparison of two files -/

theorem toInt64_of_lt (n : Nat) (h : n < 2 ^ 63) : toInt64 n = n := by
  unfold toInt64
  omega

theorem uintOfInt64_min (c n : Nat) (hc : c < 2 ^ 32) :
    uintOfInt64 (min (c : Int) (n : Int)) = min c n := by
  unfold uintOfInt64
  omega

/-- The loop of `compare_files` on two files of the same length, all of whose reads
succeed, returns whether they are equal once it is given enough iterations. -/
theorem compare_loop_eq (env : CompareEnv) (c : Nat) (hc0 : 0 < c) (hc : c < 2 ^ 32)
    (h1 : ∀ k, env.fread1_ok k = true) (h2 : ∀ k, env.fread2_ok k = true) :
    ∀ (fuel : Nat) (rest1 rest2 : List Byte) (chunks : Nat),
      rest1.length = rest2.length → rest1.length ≤ fuel * c →
      (compare_loop env c fuel
        { rest1 := rest1, rest2 := rest2, bytes_remaining := rest1.length,
          chunks := chunks }).ret = some (decide (rest1 = rest2)) := by
  intro fuel
  induction fuel with
  | zero =>
    intro rest1 rest2 chunks hlen hfuel
    have h0 : rest1.length = 0 := by omega
    have e1 : rest1 = [] := List.length_eq_zero.mp h0
    have e2 : rest2 = [] := List.length_eq_zero.mp (by omega)
    subst e1
    subst e2
    rw [compare_loop]
    simp
  | succ fuel ih =>
    intro rest1 rest2 chunks hlen hfuel
    rw [compare_loop]
    by_cases h0 : rest1.length = 0
    · have e1 : rest1 = [] := List.length_eq_zero.mp h0
      have e2 : rest2 = [] := List.length_eq_zero.mp (by omega)
      subst e1
      subst e2
      simp
    · have hne : ((rest1.length : Nat) : Int) ≠ 0 := by omega
      simp only [hne, if_false]
      rw [uintOfInt64_min c rest1.length hc]
      have hm0 : min c rest1.length ≠ 0 := by omega
      have hm1 : min c rest1.length ≤ rest1.length := Nat.min_le_right _ _
      have hm2 : min c rest1.length ≤ rest2.length := by omega
      simp only [fread_item, h1, h2, hm0, hm1, hm2, ne_eq, not_false_eq_true, decide_True,
        Bool.and_self, Bool.not_true, Bool.false_eq_true, if_false]
      by_cases ht : rest1.take (min c rest1.length) = rest2.take (min c rest1.length)
      · simp only [ht, not_true_eq_false, if_false]
        have hcast : ((rest1.length : Nat) : Int) - ((min c rest1.length : Nat) : Int) =
            (((rest1.drop (min c rest1.length)).length : Nat) : Int) := by
          rw [List.length_drop]
          omega
        rw [hcast]
        rw [ih _ _ _ (by simp only [List.length_drop]; omega) (by
          simp only [List.length_drop]
          have : (fuel + 1) * c = fuel * c + c := by ring
          omega)]
        congr 1
        apply decide_eq_decide.mpr
        constructor
        · intro hd
          rw [← List.take_append_drop (min c rest1.length) rest1,
            ← List.take_append_drop (min c rest1.length) rest2, ht, hd]
        · intro he
          rw [he]
      · simp only [ht, not_false_eq_true, if_true]
        congr 1
        symm
        apply decide_eq_false
        intro he
        exact ht (by rw [he])

/-- The size test of `compare_files` comes before any read. -/
theorem compare_files_sizes (env : CompareEnv) (fuel : Nat) (hr : env.readable)
    (hlen1 : env.content1.length < 2 ^ 63) (hlen2 : env.content2.length < 2 ^ 63)
    (hne : env.content1.length ≠ env.content2.length) :
    compare_files env fuel =
      { ret := some false, error := some CompareErr.not_the_same_size, reads := 0 } := by
  obtain ⟨o1, o2, _, _⟩ := hr
  simp only [compare_files, open_file_with_retries, o1, o2, if_true,
    toInt64_of_lt _ hlen1, toInt64_of_lt _ hlen2]
  rw [if_pos (by omega)]

/-- Claim C18. Verification compare is exact: for every pair of files that open and whose
reads succeed (of fewer than 2 ^ 63 bytes each), `compare_files`, given enough
iterations for its 1 MiB chunks, returns true exactly when the two files have the same
length and the same byte at every position, that is, when they are equal as
sequences; this covers a final partial chunk and empty files; and when the lengths
differ it returns false without having read any content. -/
theorem compare_files_exact (env : CompareEnv) (fuel : Nat) (hr : env.readable)
    (hlen1 : env.content1.length < 2 ^ 63) (hlen2 : env.content2.length < 2 ^ 63)
    (hfuel : env.content1.length ≤ fuel * (1024 * 1024)) :
    (compare_files env fuel).ret = some (decide (env.content1 = env.content2)) ∧
    ((compare_files env fuel).ret = some true ↔
      env.content1.length = env.content2.length ∧
        ∀ i : Nat, env.content1[i]? = env.content2[i]?) ∧
    (env.content1.length ≠ env.content2.length →
      (compare_files env fuel).ret = some false ∧ (compare_files env fuel).reads = 0) := by
  have hret : (compare_files env fuel).ret = some (decide (env.content1 = env.content2)) := by
    by_cases hne : env.content1.length = env.content2.length
    · obtain ⟨o1, o2, r1, r2⟩ := hr
      simp only [compare_files, open_file_with_retries, o1, o2, if_true,
        toInt64_of_lt _ hlen1, toInt64_of_lt _ hlen2]
      rw [if_neg (by omega)]
      exact compare_loop_eq env (1024 * 1024) (by decide) (by decide) r1 r2 fuel _ _ 0 hne hfuel
    · rw [compare_files_sizes env fuel hr hlen1 hlen2 hne]
      have hd : decide (env.content1 = env.content2) = false :=
        decide_eq_false (fun he => hne (by rw [he]))
      rw [hd]
  refine ⟨hret, ?_, ?_⟩
  · rw [hret]
    simp only [Option.some.injEq, decide_eq_true_eq]
    constructor
    · intro he
      rw [he]
      exact ⟨rfl, fun _ => rfl⟩
    · intro h
      exact List.ext_getElem? h.2
  · intro hne
    rw [compare_files_sizes env fuel hr hlen1 hlen2 hne]
    exact ⟨rfl, rfl⟩

/-- Witness of `compare_files_exact`: two files of the same three bytes compare equal
in one iteration. -/
theorem compare_files_exact_witness :
    (compare_files (CompareEnv.ideal [1, 2, 3] [1, 2, 3]) 1).ret = some (decide
      ((CompareEnv.ideal [1, 2, 3] [1, 2, 3]).content1 =
        (CompareEnv.ideal [1, 2, 3] [1, 2, 3]).content2)) :=
  (compare_files_exact (CompareEnv.ideal [1, 2, 3] [1, 2, 3]) 1
    ⟨rfl, rfl, fun _ => rfl, fun _ => rfl⟩ (by decide) (by decide) (by decide)).1

/-! ## The self-test -/

/-- The text of the self-test has 88 characters. -/
theorem simple_test_text_length : simple_test_text.length = 88 := by decide

/-- What the self-test checks, whatever the codec behind `ilzham`: `simple_test`
returns `EXIT_SUCCESS` exactly when compressing the 88-character text succeeds,
decompressing the result succeeds, the two adler32 values agree and the decompressed
bytes are the text; in every other case it returns `EXIT_FAILURE`. -/
theorem simple_test_checks_round_trip (codec : MemoryCodec) (options : comp_options) :
    (simple_test codec options = EXIT_SUCCESS ↔
      ∃ cmp adler out,
        codec.lzham_compress_memory
          { m_dict_size_log2 := options.m_dict_size_log2, m_max_helper_threads := 1,
            m_level := options.m_comp_level, m_compress_flags := [] } 1024 simple_test_text =
          (Status.SUCCESS, cmp, adler) ∧
        codec.lzham_decompress_memory
          { m_dict_size_log2 := options.m_dict_size_log2,
            m_compute_adler32 := options.m_compute_adler32_during_decomp,
            m_output_unbuffered := false } 1024 cmp = (Status.SUCCESS, out, adler) ∧
        out = simple_test_text) ∧
    (simple_test codec options = EXIT_SUCCESS ∨ simple_test codec options = EXIT_FAILURE) := by
  have hne : EXIT_FAILURE ≠ EXIT_SUCCESS := by decide
  unfold simple_test
  simp only
  cases hcomp : codec.lzham_compress_memory
    { m_dict_size_log2 := options.m_dict_size_log2, m_max_helper_threads := 1,
      m_level := options.m_comp_level, m_compress_flags := [] } 1024 simple_test_text with
  | mk s1 rest1 =>
  obtain ⟨cmp, a1⟩ := rest1
  simp only
  by_cases h1 : s1 = Status.SUCCESS
  · subst h1
    rw [if_neg (by simp)]
    cases hdec : codec.lzham_decompress_memory
      { m_dict_size_log2 := options.m_dict_size_log2,
        m_compute_adler32 := options.m_compute_adler32_during_decomp,
        m_output_unbuffered := false } 1024 cmp with
    | mk s2 rest2 =>
    obtain ⟨out, a2⟩ := rest2
    simp only
    by_cases h2 : s2 = Status.SUCCESS
    · subst h2
      rw [if_neg (by simp)]
      by_cases h3 : a1 ≠ a2 ∨ out.length ≠ simple_test_text.length ∨
          out.take simple_test_text.length ≠ simple_test_text
      · rw [if_pos h3]
        refine ⟨⟨fun h => absurd h hne, ?_⟩, Or.inr rfl⟩
        rintro ⟨cmp1, adler, out1, e1, e2, e3⟩
        simp only [Prod.mk.injEq, true_and] at e1
        obtain ⟨rfl, rfl⟩ := e1
        rw [hdec] at e2
        simp only [Prod.mk.injEq, true_and] at e2
        obtain ⟨rfl, rfl⟩ := e2
        subst e3
        simp at h3
      · rw [if_neg h3]
        simp only [not_or, not_not] at h3
        refine ⟨⟨fun _ => ⟨cmp, a1, out, rfl, ?_, ?_⟩, fun _ => rfl⟩, Or.inl rfl⟩
        · rw [hdec, h3.1]
        · have := List.take_of_length_le (Nat.le_of_eq h3.2.1)
          rw [← h3.2.2, this]
    · rw [if_pos h2]
      refine ⟨⟨fun h => absurd h hne, ?_⟩, Or.inr rfl⟩
      rintro ⟨cmp1, adler, out1, e1, e2, _⟩
      simp only [Prod.mk.injEq, true_and] at e1
      obtain ⟨rfl, rfl⟩ := e1
      rw [hdec] at e2
      simp only [Prod.mk.injEq] at e2
      exact (h2 e2.1).elim
  · rw [if_pos h1]
    refine ⟨⟨fun h => absurd h hne, ?_⟩, Or.inr rfl⟩
    rintro ⟨cmp1, adler, out1, e1, _, _⟩
    simp only [Prod.mk.injEq] at e1
    exact (h1 e1.1).elim

/-! ## The container of thirteen bytes -/

theorem write_header_length (e : Int) (n : Nat) : (write_header e n).length = 13 := by
  rw [write_header_eq]
  rfl

/-- Claim C23. A container that is exactly the 13-byte header written by
`compress_streaming`, whatever its exponent and declared length (so also with a valid
tag and a valid exponent), is rejected by `decompress_file` as too small: the function
returns false after the size check, having read no header byte and not having opened
the destination file. -/
theorem header_only_container_rejected {σ : Type} (b : Build) (env : Env)
    (c : Codec lzham_decompress_params σ) (options : comp_options) (fuel : Nat)
    (e : Int) (n : Nat) (hsrc : env.src = some (write_header e n)) :
    decompress_file b env c options fuel = Run.early false []
      [Event.fopen FileId.pInFile true, Event.print_error Err.too_small,
        Event.fclose FileId.pInFile] ∧
    (decompress_file b env c options fuel).ret = some false ∧
    Event.print_error Err.too_small ∈ (decompress_file b env c options fuel).trace ∧
    (∀ v, Event.fgetc v ∉ (decompress_file b env c options fuel).trace) ∧
    (∀ ok, Event.fopen FileId.pOutFile ok ∉ (decompress_file b env c options fuel).trace) ∧
    (decompress_file b env c options fuel).dst = [] := by
  have h := decompress_file_small b env c options fuel (write_header e n) hsrc
    (by rw [write_header_length]; decide)
  rw [h]
  refine ⟨rfl, rfl, by simp [Run.early], ?_, ?_, rfl⟩
  · intro v hv
    simp [Run.early] at hv
  · intro ok hok
    simp [Run.early] at hok

/-- Witness of `header_only_container_rejected`: the header with exponent 26 and
declared length 0, alone in a file. -/
theorem header_only_container_rejected_witness :
    (decompress_file x86 (Env.ideal (write_header 26 0))
      (idle_codec : Codec lzham_decompress_params Nat) (comp_options.default x86) 1).ret =
      some false :=
  (header_only_container_rejected x86 (Env.ideal (write_header 26 0))
    (idle_codec : Codec lzham_decompress_params Nat) (comp_options.default x86) 1 26 0 rfl).2.1

/-! ## The options of each file of a corpus run -/

/-- Claim C24. Randomization frame: the options drawn for a file differ from the options
of the run at most in compression level, dictionary-size exponent, helper-thread
budget, unbuffered decompression, forced polar codes and deterministic parsing: the
verify, checksum, extreme-parsing and randomize flags are those of the run; every pump
`test_recursive` starts is started, when the randomize flag is set, with options drawn
in this way from the options of the run (not from an earlier draw), and, when the flag
is clear, with the options of the run themselves. -/
theorem randomization_frame (b : Build) (rand : Nat → Int) (options : comp_options) :
    (∀ k, (randomize b rand k options).m_verify_compressed_data =
        options.m_verify_compressed_data ∧
      (randomize b rand k options).m_compute_adler32_during_decomp =
        options.m_compute_adler32_during_decomp ∧
      (randomize b rand k options).m_extreme_parsing = options.m_extreme_parsing ∧
      (randomize b rand k options).m_randomize_params = options.m_randomize_params) ∧
    (∀ (files : Option (List CorpusFile)) (cmp_file decomp_file : String),
      ∀ x ∈ (test_recursive b rand files cmp_file decomp_file options).calls,
        ∀ o, Call.options? x = some o →
          (options.m_randomize_params = true → ∃ k, o = randomize b rand k options) ∧
          (options.m_randomize_params = false → o = options) ∧
          o.m_verify_compressed_data = options.m_verify_compressed_data ∧
          o.m_compute_adler32_during_decomp = options.m_compute_adler32_during_decomp ∧
          o.m_extreme_parsing = options.m_extreme_parsing ∧
          o.m_randomize_params = options.m_randomize_params) := by
  refine ⟨fun k => ⟨rfl, rfl, rfl, rfl⟩, ?_⟩
  intro files cmp_file decomp_file
  unfold test_recursive
  cases files with
  | none =>
    intro x hx
    cases hx
  | some files =>
    refine test_files_calls b rand cmp_file decomp_file options _ ?_ files _ ?_
    · intro k
      by_cases hr : options.m_randomize_params = true
      · rw [if_pos hr]
        exact ⟨fun _ => ⟨k, rfl⟩, fun h => (by rw [hr] at h; cases h), rfl, rfl, rfl, rfl⟩
      · rw [if_neg hr]
        exact ⟨fun h => absurd h hr, fun _ => rfl, rfl, rfl, rfl, rfl⟩
    · intro x hx
      cases hx

/-- Witness of `randomization_frame`: with the randomize and verify flags set, the
compressor of the first file is started with options that keep the verify flag. -/
theorem randomization_frame_witness :
    Call.compress_streaming "a" "cmp"
        (randomize x86 (fun _ => 0) 0
          { comp_options.default x86 with
            m_randomize_params := true, m_verify_compressed_data := true }) ∈
      (test_recursive x86 (fun _ => 0) (some [CorpusFile.good "a" 10]) "cmp" "dec"
        { comp_options.default x86 with
          m_randomize_params := true, m_verify_compressed_data := true }).calls ∧
    (randomize x86 (fun _ => 0) 0
      { comp_options.default x86 with
        m_randomize_params := true, m_verify_compressed_data := true }).m_verify_compressed_data =
      true :=
  ⟨by decide,
   ((randomization_frame x86 (fun _ => 0)
      { comp_options.default x86 with
        m_randomize_params := true, m_verify_compressed_data := true }).2
      (some [CorpusFile.good "a" 10]) "cmp" "dec"
      (Call.compress_streaming "a" "cmp"
        (randomize x86 (fun _ => 0) 0
          { comp_options.default x86 with
            m_randomize_params := true, m_verify_compressed_data := true }))
      (by decide) _ rfl).2.2.1⟩

/-! ## The input cursor and the bytes offered to the codec -/

theorem consumed_append (t u : List Event) : consumed (t ++ u) = consumed t + consumed u := by
  induction t with
  | nil => simp [consumed]
  | cons e t ih =>
    rw [List.cons_append]
    cases e <;> simp only [consumed] <;> omega

theorem cursor_from_append (t u : List Event) :
    ∀ a, cursor_from a (t ++ u) = cursor_from (cursor_from a t) u := by
  induction t with
  | nil => intro a; rfl
  | cons e t ih =>
    intro a
    rw [List.cons_append]
    cases e <;> simp only [cursor_from, ih]

theorem chunk_from_append (t u : List Event) :
    ∀ a, chunk_from a (t ++ u) = chunk_from (chunk_from a t) u := by
  induction t with
  | nil => intro a; rfl
  | cons e t ih =>
    intro a
    rw [List.cons_append]
    cases e <;> simp only [chunk_from, ih]

theorem cursor_ok_append (t u : List Event) :
    ∀ a b, CursorOk a b (t ++ u) ↔
      CursorOk a b t ∧ CursorOk (chunk_from a t) (cursor_from b t) u := by
  induction t with
  | nil => intro a b; simp [CursorOk, chunk_from, cursor_from]
  | cons e t ih =>
    intro a b
    rw [List.cons_append]
    cases e <;> simp only [CursorOk, chunk_from, cursor_from, ih, and_assoc]

theorem feeds_append (payload : List Byte) (t u : List Event) :
    ∀ r c, Feeds payload r c (t ++ u) ↔
      Feeds payload r c t ∧ Feeds payload (r + bytes_read t) (c + consumed t) u := by
  induction t with
  | nil => intro r c; simp [Feeds, bytes_read, consumed]
  | cons e t ih =>
    intro r c
    rw [List.cons_append]
    cases e <;> simp only [Feeds, bytes_read, consumed, ih, and_assoc, Nat.add_assoc]

/-- Calls made on the way out of a loop bear on neither discipline. -/
theorem feeds_closing (payload : List Byte) (u : List Event)
    (h : ∀ e ∈ u, Event.isClosing e = true) :
    ∀ a b, Feeds payload a b u ∧ CursorOk a b u := by
  induction u with
  | nil => intro a b; exact ⟨trivial, trivial⟩
  | cons e u ih =>
    intro a b
    have he := h e (List.mem_cons_self _ _)
    have hu := ih (fun x hx => h x (List.mem_cons_of_mem _ hx)) a b
    cases e <;> first | exact hu | cases he

/-- Calls made before a loop bear on neither discipline and move neither count. -/
theorem feeds_quiet (payload : List Byte) (u : List Event)
    (h : ∀ e ∈ u, Event.quiet e = true) :
    ∀ a b, Feeds payload a b u ∧ CursorOk a b u ∧ consumed u = 0 ∧ cursor_from b u = b ∧
      chunk_from a u = a := by
  induction u with
  | nil => intro a b; exact ⟨trivial, trivial, rfl, rfl, rfl⟩
  | cons e u ih =>
    intro a b
    have he := h e (List.mem_cons_self _ _)
    have hu := ih (fun x hx => h x (List.mem_cons_of_mem _ hx)) a b
    cases e <;> first | exact hu | cases he

theorem feed_post_exit {σ : Type} (payload : List Byte) (s : Session σ) (ret : Bool)
    (evs : List Event) (hs : FeedInv payload s) (h : ∀ e ∈ evs, Event.isClosing e = true) :
    FeedPost payload (s.exit (some ret) evs) := by
  refine ⟨?_, ?_, fun hret => by simp [Session.exit] at hret⟩
  · simp only [Session.exit, feeds_append]
    exact ⟨hs.1, (feeds_closing payload evs h _ _).1⟩
  · simp only [Session.exit, cursor_ok_append]
    exact ⟨hs.2.1, (feeds_closing payload evs h _ _).2⟩

theorem feed_post_snapshot {σ : Type} (payload : List Byte) (s : Session σ)
    (hs : FeedInv payload s) : FeedPost payload (s.exit none []) := by
  obtain ⟨h1, h2, h3, h4, h5, h6, h7, h8, h9, h10, h11⟩ := hs
  have hlen : s.file.length = payload.length - bytes_read s.trace := by
    rw [← h6, List.length_drop]
  refine ⟨by simpa [Session.exit] using h1, by simpa [Session.exit] using h2, fun _ => ?_⟩
  simp only [Session.exit, List.append_nil]
  refine ⟨h3, h10, h11, ?_, ?_⟩ <;> omega

theorem feed_inv_stepped {σ : Type} (payload : List Byte) (s : Session σ) (d : Dir) (X : Nat)
    (res : StepResult σ) (hs : FeedInv payload s)
    (hn : res.num_in_bytes ≤ (s.call X).num_in_bytes) :
    FeedInv payload (s.stepped d (s.call X) res) := by
  obtain ⟨h1, h2, h3, h4, h5, h6, h7, h8, h9, h10, h11⟩ := hs
  have hoffer : (s.call X).num_in_bytes = s.in_file_buf_size - s.in_file_buf_ofs := by
    simp only [Session.call, uintSub]
    omega
  rw [hoffer] at hn
  have hofs : (s.stepped d (s.call X) res).in_file_buf_ofs =
      s.in_file_buf_ofs + res.num_in_bytes := by
    rw [stepped_in_file_buf_ofs]
    simp only [toUint]
    split <;> omega
  refine ⟨?_, ?_, ?_, ?_, ?_, ?_, ?_, ?_, ?_, ?_, ?_⟩
  · simp only [stepped_trace, feeds_append, Feeds, and_true, Nat.zero_add]
    refine ⟨h1, ?_, ?_, ?_, h7⟩
    · simp only [Session.call]
      exact h5
    · rw [hoffer]
      omega
    · omega
  · simp only [stepped_trace, cursor_ok_append, CursorOk, and_true]
    refine ⟨h2, ?_, ?_⟩
    · rw [hoffer, ← h10, ← h11]
    · rw [← h10, ← h11]
      omega
  · rw [hofs]
    simp only [stepped_in_file_buf_size]
    omega
  · simpa using h4
  · rw [hofs]
    simp only [stepped_in_file_buf, stepped_trace, bytes_read_append, consumed_append,
      bytes_read, consumed, Nat.add_zero]
    rw [← List.drop_drop, h5, List.drop_drop]
  · simpa [bytes_read_append, bytes_read] using h6
  · simpa [bytes_read_append, bytes_read] using h7
  · rw [hofs]
    simp only [stepped_in_file_buf_size, stepped_trace, bytes_read_append, consumed_append,
      bytes_read, consumed, Nat.add_zero]
    omega
  · simpa using h9
  · rw [hofs]
    simp only [stepped_trace, cursor_from_append, cursor_from, ← h10]
  · simp only [stepped_in_file_buf_size, stepped_trace, chunk_from_append, chunk_from, ← h11]

theorem feed_inv_fwrite {σ : Type} (env : Env) (payload : List Byte) (s : Session σ)
    (o : List Byte) (hs : FeedInv payload s) : FeedInv payload (fwrite env s o).1 := by
  obtain ⟨h1, h2, h3, h4, h5, h6, h7, h8, h9, h10, h11⟩ := hs
  refine ⟨?_, ?_, ?_, ?_, ?_, ?_, ?_, ?_, ?_, ?_, ?_⟩
  · simp only [fwrite_trace, feeds_append, Feeds, and_true]
    exact h1
  · simp only [fwrite_trace, cursor_ok_append, CursorOk, and_true]
    exact h2
  · simpa using h3
  · simpa using h4
  · simpa [bytes_read_append, bytes_read, consumed_append, consumed] using h5
  · simpa [bytes_read_append, bytes_read] using h6
  · simpa [bytes_read_append, bytes_read] using h7
  · simpa [bytes_read_append, bytes_read, consumed_append, consumed] using h8
  · simpa using h9
  · simpa [cursor_from_append, cursor_from] using h10
  · simpa [chunk_from_append, chunk_from] using h11

/-- A read is attempted only when the cursor equals the chunk size. -/
theorem refill_inr_cursor {σ : Type} (env : Env) (n : Nat) (onFail : List Event)
    (s : Session σ) (r : Run) (h : refill env n onFail s = .inr r) :
    s.in_file_buf_ofs = s.in_file_buf_size := by
  by_cases hc : s.in_file_buf_ofs = s.in_file_buf_size
  · exact hc
  · unfold refill at h
    rw [if_neg hc] at h
    cases h

theorem feed_inv_refill {σ : Type} (env : Env) (n : Nat) (onFail : List Event)
    (payload : List Byte) (s : Session σ) (hs : FeedInv payload s)
    (hfail : ∀ e ∈ onFail, Event.isClosing e = true) :
    Sum.elim (FeedInv payload) (FeedPost payload) (refill env n onFail s) := by
  obtain ⟨h1, h2, h3, h4, h5, h6, h7, h8, h9, h10, h11⟩ := hs
  have hlen : s.file.length = payload.length - bytes_read s.trace := by
    rw [← h6, List.length_drop]
  cases h : refill env n onFail s with
  | inl s1 =>
    rcases refill_inl _ _ _ _ _ h with ⟨_, rfl⟩ | ⟨hc, k, hk, hkl, rfl⟩
    · exact ⟨h1, h2, h3, h4, h5, h6, h7, h8, h9, h10, h11⟩
    · have hk32 : k < 2 ^ 32 := by
        rw [hk]
        exact Nat.mod_lt _ (by decide)
      refine ⟨?_, ?_, ?_, ?_, ?_, ?_, ?_, ?_, ?_, ?_, ?_⟩
      · simp only [feeds_append, Feeds, and_true, Nat.zero_add]
        exact ⟨h1, by omega⟩
      · simp only [cursor_ok_append, CursorOk, and_true]
        exact ⟨h2, by rw [← h10, ← h11]; exact hc⟩
      · exact Nat.zero_le _
      · exact hk32
      · simp only [List.drop_zero, bytes_read_append, bytes_read, consumed_append, consumed,
          Nat.add_zero]
        have hcr : consumed s.trace = bytes_read s.trace := by omega
        rw [hcr, ← List.take_drop, h6]
      · simp only [bytes_read_append, bytes_read, Nat.add_zero]
        rw [← List.drop_drop, h6]
      · simp only [bytes_read_append, bytes_read, Nat.add_zero]
        omega
      · simp only [bytes_read_append, bytes_read, consumed_append, consumed, Nat.add_zero]
        omega
      · simp only [List.length_drop]
        omega
      · simp only [cursor_from_append, cursor_from]
      · simp only [chunk_from_append, chunk_from]
  | inr r =>
    have hc := refill_inr_cursor _ _ _ _ _ h
    obtain ⟨k, got, _, rfl⟩ := refill_inr _ _ _ _ _ h
    refine ⟨?_, ?_, fun hret => by simp at hret⟩
    · simp only [feeds_append, Feeds, and_true, Nat.zero_add]
      exact ⟨⟨h1, by omega⟩, (feeds_closing payload onFail hfail _ _).1⟩
    · simp only [cursor_ok_append, CursorOk, and_true]
      exact ⟨⟨h2, by rw [← h10, ← h11]; exact hc⟩, (feeds_closing payload onFail hfail _ _).2⟩

theorem feed_post_decompress_finish {σ : Type} (payload : List Byte) (s : Session σ)
    (status : Status) (hs : FeedInv payload s) :
    FeedPost payload (decompress_finish s status) := by
  simp only [decompress_finish]
  split_ifs <;>
  · refine ⟨?_, ?_, fun hret => by simp [Session.exit] at hret⟩
    · simp only [Session.exit, feeds_append, Feeds, and_true]
      exact hs.1
    · simp only [Session.exit, cursor_ok_append, CursorOk, and_true]
      exact hs.2.1

theorem feed_post_compress_finish {σ : Type} (payload : List Byte) (s : Session σ)
    (status : Status) (hs : FeedInv payload s) :
    FeedPost payload (compress_finish s status) := by
  simp only [compress_finish]
  split_ifs <;>
  · refine ⟨?_, ?_, fun hret => by simp [Session.exit] at hret⟩
    · simp only [Session.exit, feeds_append, Feeds, and_true]
      exact hs.1
    · simp only [Session.exit, cursor_ok_append, CursorOk, and_true]
      exact hs.2.1

theorem decompress_body_feeds {σ : Type} (env : Env) (c : Codec lzham_decompress_params σ)
    (hc : c.within_offer) (X : Nat) (payload : List Byte) (s : Session σ)
    (hs : FeedInv payload s) :
    Sum.elim (FeedInv payload) (FeedPost payload) (decompress_body env c X s) := by
  have hr := feed_inv_refill env LZHAMTEST_DECOMP_INPUT_BUFFER_SIZE
    (decompress_cleanup Err.failure_reading) payload s hs (closing_events_cleanup _).1
  apply decompress_body_elim
  · intro r h
    rw [h] at hr
    exact hr
  · intro s1 h
    rw [h] at hr
    have h1 : FeedInv payload s1 := hr
    have hstep : ∀ res, res = c.step s1.state (s1.call X) →
        FeedInv payload (s1.stepped Dir.decomp (s1.call X) res) := by
      intro res hres
      exact feed_inv_stepped _ _ _ _ _ h1 (by rw [hres]; exact hc _ _)
    apply decompress_step_elim
    · intro res s3 hres h3 _
      subst h3
      exact ⟨fun _ => hstep res hres, fun _ => feed_post_decompress_finish _ _ _ (hstep res hres)⟩
    · intro res s3 hres h3 _ _
      subst h3
      exact feed_post_exit _ _ _ _ (feed_inv_fwrite _ _ _ _ (hstep res hres))
        (closing_events_cleanup _).1
    · intro res s3 hres h3 _ _ _
      subst h3
      exact feed_post_exit _ _ _ _ (feed_inv_fwrite _ _ _ _ (hstep res hres))
        (closing_events_cleanup _).1
    · intro res s3 s5 hres h3 _ _ _ h5
      subst h3
      have h5i : FeedInv payload s5 := by
        subst h5
        exact feed_inv_fwrite _ _ _ _ (hstep res hres)
      exact ⟨fun _ => h5i, fun _ => feed_post_decompress_finish _ _ _ h5i⟩

theorem compress_body_feeds {σ : Type} (env : Env) (c : Codec lzham_compress_params σ)
    (hc : c.within_offer) (payload : List Byte) (s : Session σ) (hs : FeedInv payload s) :
    Sum.elim (FeedInv payload) (FeedPost payload) (compress_body env c s) := by
  have hr := feed_inv_refill env LZHAMTEST_COMP_INPUT_BUFFER_SIZE
    (compress_cleanup Err.failure_reading) payload s hs (closing_events_cleanup _).2
  apply compress_body_elim
  · intro r h
    rw [h] at hr
    exact hr
  · intro s1 h
    rw [h] at hr
    have h1 : FeedInv payload s1 := hr
    have hstep : ∀ res, res = c.step s1.state (s1.call LZHAMTEST_COMP_OUTPUT_BUFFER_SIZE) →
        FeedInv payload
          (s1.stepped Dir.comp (s1.call LZHAMTEST_COMP_OUTPUT_BUFFER_SIZE) res) := by
      intro res hres
      exact feed_inv_stepped _ _ _ _ _ h1 (by rw [hres]; exact hc _ _)
    apply compress_step_elim
    · intro res s3 hres h3 _
      subst h3
      exact ⟨fun _ => hstep res hres, fun _ => feed_post_compress_finish _ _ _ (hstep res hres)⟩
    · intro res s3 hres h3 _ _
      subst h3
      exact feed_post_exit _ _ _ _ (feed_inv_fwrite _ _ _ _ (hstep res hres))
        (closing_events_cleanup _).2
    · intro res s3 s5 hres h3 _ _ h5
      subst h3
      have h5i : FeedInv payload s5 := by
        subst h5
        exact feed_inv_fwrite _ _ _ _ (hstep res hres)
      exact ⟨fun _ => h5i, fun _ => feed_post_compress_finish _ _ _ h5i⟩

theorem feed_post_early (payload : List Byte) (dst : List Byte) (t : List Event)
    (h : ∀ e ∈ t, Event.quiet e = true) : FeedPost payload (Run.early false dst t) :=
  ⟨(feeds_quiet payload t h 0 0).1, (feeds_quiet payload t h 0 0).2.1,
    fun hret => by simp [Run.early] at hret⟩

theorem feed_inv_start {σ : Type} (payload : List Byte) (s : Session σ)
    (hq : ∀ e ∈ s.trace, Event.quiet e = true) (hfile : s.file = payload)
    (hleft : s.src_bytes_left = payload.length) (hsize : s.in_file_buf_size = 0)
    (hofs : s.in_file_buf_ofs = 0) (hbuf : s.in_file_buf = []) : FeedInv payload s := by
  obtain ⟨q1, q2, q3, q4, q5⟩ := feeds_quiet payload s.trace hq 0 0
  have q6 := bytes_read_quiet s.trace hq
  refine ⟨q1, q2, ?_, ?_, ?_, ?_, ?_, ?_, ?_, ?_, ?_⟩
  · rw [hofs, hsize]
  · rw [hsize]
    decide
  · rw [hbuf, q6, q3]
    simp
  · rw [q6, hfile]
    rfl
  · rw [q6]
    exact Nat.zero_le _
  · rw [q6, q3, hsize, hofs]
  · rw [hleft, hfile]
  · rw [hofs, q4]
  · rw [hsize, q5]

/-- The cursor and feeding disciplines of every run of `compress_streaming` on a source
of fewer than 2 ^ 64 bytes, with a codec that never reports consuming more than it was
offered. -/
theorem compress_streaming_feeds {σ : Type} (env : Env) (c : Codec lzham_compress_params σ)
    (hc : c.within_offer) (options : comp_options) (fuel : Nat) (file : List Byte)
    (hsrc : env.src = some file) (hlen : file.length < 2 ^ 64) :
    FeedPost file (compress_streaming env c options fuel) := by
  refine compress_streaming_elim env c options (fun f => FeedPost file (f fuel)) ?_ ?_ ?_
  · intro _
    exact feed_post_early _ _ _ (by decide)
  · intro _ _ _
    exact feed_post_early _ _ _ (by decide)
  · intro file1 header hs _ _
    have hfile : file = file1 := by
      rw [hsrc] at hs
      exact Option.some.inj hs
    subst hfile
    refine ⟨fun _ => feed_post_early _ _ _ (quiet_compress_opened header _ (by decide)),
      fun _ _ _ => feed_post_early _ _ _ (quiet_compress_opened header _ (by decide)),
      fun _ _ st _ => ?_⟩
    refine pump_induction (compress_body env c) (FeedInv file) (FeedPost file)
      (fun s hs => feed_post_snapshot _ s hs) (compress_body_feeds env c hc _) fuel _ ?_
    refine feed_inv_start _ _ (quiet_compress_opened header [Event.init Dir.comp true]
      (by decide)) rfl ?_ rfl rfl rfl
    simp only [compress_start]
    omega

/-- The cursor and feeding disciplines of every run of `decompress_file` on a container
of fewer than 2 ^ 64 bytes, with a codec that never reports consuming more than it was
offered: the source of the loop is what follows the thirteen header bytes. -/
theorem decompress_file_feeds {σ : Type} (b : Build) (env : Env)
    (c : Codec lzham_decompress_params σ) (hc : c.within_offer) (options : comp_options)
    (fuel : Nat) (file : List Byte) (hsrc : env.src = some file)
    (hlen : file.length < 2 ^ 64) :
    FeedPost (file.drop 13) (decompress_file b env c options fuel) := by
  refine decompress_file_elim b env c options
    (fun f => FeedPost (file.drop 13) (f fuel)) ?_ ?_ ?_
  · intro _
    exact feed_post_early _ _ _ (by decide)
  · intro _ _ _
    exact feed_post_early _ _ _ (by decide)
  · intro b0 b1 b2 b3 b4 b5 b6 b7 b8 b9 b10 b11 b12 rest hs _
    have hfile : file = b0 :: b1 :: b2 :: b3 :: b4 :: b5 :: b6 :: b7 :: b8 :: b9 :: b10 ::
        b11 :: b12 :: rest := by
      rw [hsrc] at hs
      exact Option.some.inj hs
    have hq : ∀ u : List Event, (∀ e ∈ u, Event.quiet e = true) →
        ∀ e ∈ header_prefix_trace b0 b1 b2 b3 b4 ++ u, Event.quiet e = true := by
      intro u hu e he
      simp only [header_prefix_trace, List.mem_append, List.mem_cons, List.mem_singleton,
        List.not_mem_nil, or_false] at he
      rcases he with (rfl | rfl | rfl | rfl | rfl | rfl) | he
      any_goals rfl
      exact hu e he
    have hq2 : ∀ u : List Event, (∀ e ∈ u, Event.quiet e = true) →
        ∀ e ∈ (header_of b4 b5 b6 b7 b8 b9 b10 b11 b12 rest
          (header_prefix_trace b0 b1 b2 b3 b4)).trace ++ u, Event.quiet e = true := by
      intro u hu e he
      simp only [header_of, List.append_assoc] at he
      refine hq _ ?_ e he
      intro x hx
      simp only [List.mem_append, List.mem_cons, List.mem_singleton,
        List.not_mem_nil, or_false] at hx
      rcases hx with rfl | (rfl | rfl | rfl | rfl | rfl | rfl | rfl | rfl) | hx
      any_goals rfl
      exact hu x hx
    have hP : file.drop 13 = rest := by
      rw [hfile]
      rfl
    rw [hP]
    refine ⟨fun _ => feed_post_early _ _ _ (hq _ (by decide)),
      fun _ _ => feed_post_early _ _ _ (hq _ (by decide)),
      fun _ _ _ => feed_post_early _ _ _ (hq _ (by decide)), fun _ _ _ => ?_⟩
    refine decompress_from_elim b env c options _ (fun f => FeedPost rest (f fuel)) ?_ ?_ ?_
    · intro _
      exact feed_post_early _ _ _ (hq2 _ (by decide))
    · intro _ _
      exact feed_post_early _ _ _ (hq2 _ (by decide))
    · intro _ st _
      refine pump_induction _ (FeedInv rest) (FeedPost rest)
        (fun s hs => feed_post_snapshot _ s hs) (decompress_body_feeds env c hc _ _) fuel _ ?_
      have hl : file.length = rest.length + 13 := by
        rw [hfile]
        simp
      refine feed_inv_start _ _ (hq2 [Event.init Dir.decomp true] (by decide)) rfl ?_
        rfl rfl rfl
      simp only [decompress_start, header_of]
      omega

/-- The cursor at the call before which the calls `pre` were made. -/
theorem cursor_ok_split (pre post : List Event) (d : Dir) (call : StepCall)
    (st : Status) (n : Nat) (o : List Byte)
    (h : CursorOk 0 0 (pre ++ Event.step d call st n o :: post)) :
    call.num_in_bytes = chunk_from 0 pre - cursor_from 0 pre ∧
      cursor_from 0 pre + n ≤ chunk_from 0 pre := by
  rw [cursor_ok_append] at h
  simp only [CursorOk] at h
  exact ⟨h.2.1, h.2.2.1⟩

/-- The cursor at the refill before which the calls `pre` were made. -/
theorem cursor_ok_split_fread (pre post : List Event) (k got : Nat)
    (h : CursorOk 0 0 (pre ++ Event.fread k got :: post)) :
    cursor_from 0 pre = chunk_from 0 pre := by
  rw [cursor_ok_append] at h
  simp only [CursorOk] at h
  exact h.2.1

theorem copy_codec_within_offer {π : Type} : (copy_codec : Codec π Nat).within_offer := by
  intro st call
  exact Nat.min_le_right _ _

theorem greedy_codec_within_offer {π : Type} : (greedy_codec : Codec π Nat).within_offer := by
  intro st call
  exact Nat.le_refl _

/-! ## Cursor bookkeeping and pump transparency -/

/-- Claim C21. Cursor bookkeeping: for every source of fewer than 2 ^ 64 bytes and
codecs that never report consuming more bytes than they were offered, in every run of
`compress_streaming` and of `decompress_file`, whatever the number of iterations made:
every call of the codec is offered `in_file_buf_size - in_file_buf_ofs` bytes and the
cursor plus the count the codec reports stays within the chunk size, so the assertion
holds after the cursor is advanced; every `fread` comes when the cursor equals the chunk
size; and between iterations `in_file_buf_ofs` and `in_file_buf_size` are the values
`cursor_from` and `chunk_from` replay from the calls made (the cursor is zero after a
refill and grows by what each call reports, without wrapping), the cursor is within the
chunk size, and `src_bytes_left`, the rest of the chunk and the bytes the codec has
consumed add up to the length of the source (for `decompress_file`, of what follows the
thirteen header bytes). -/
theorem cursor_bookkeeping {σ τ : Type} (b : Build) (env : Env)
    (cc : Codec lzham_compress_params σ) (cd : Codec lzham_decompress_params τ)
    (hcc : cc.within_offer) (hcd : cd.within_offer)
    (options : comp_options) (fuel : Nat) (file : List Byte) (hsrc : env.src = some file)
    (hlen : file.length < 2 ^ 64) :
    ((∀ pre d call st n o post,
        (compress_streaming env cc options fuel).trace =
          pre ++ Event.step d call st n o :: post →
        call.num_in_bytes = chunk_from 0 pre - cursor_from 0 pre ∧
        cursor_from 0 pre + n ≤ chunk_from 0 pre) ∧
      (∀ pre k got post,
        (compress_streaming env cc options fuel).trace = pre ++ Event.fread k got :: post →
        cursor_from 0 pre = chunk_from 0 pre) ∧
      ((compress_streaming env cc options fuel).ret = none →
        (compress_streaming env cc options fuel).in_file_buf_ofs ≤
          (compress_streaming env cc options fuel).in_file_buf_size ∧
        (compress_streaming env cc options fuel).in_file_buf_ofs =
          cursor_from 0 (compress_streaming env cc options fuel).trace ∧
        (compress_streaming env cc options fuel).in_file_buf_size =
          chunk_from 0 (compress_streaming env cc options fuel).trace ∧
        (compress_streaming env cc options fuel).src_bytes_left +
          ((compress_streaming env cc options fuel).in_file_buf_size -
            (compress_streaming env cc options fuel).in_file_buf_ofs) +
          consumed (compress_streaming env cc options fuel).trace = file.length)) ∧
    ((∀ pre d call st n o post,
        (decompress_file b env cd options fuel).trace =
          pre ++ Event.step d call st n o :: post →
        call.num_in_bytes = chunk_from 0 pre - cursor_from 0 pre ∧
        cursor_from 0 pre + n ≤ chunk_from 0 pre) ∧
      (∀ pre k got post,
        (decompress_file b env cd options fuel).trace = pre ++ Event.fread k got :: post →
        cursor_from 0 pre = chunk_from 0 pre) ∧
      ((decompress_file b env cd options fuel).ret = none →
        (decompress_file b env cd options fuel).in_file_buf_ofs ≤
          (decompress_file b env cd options fuel).in_file_buf_size ∧
        (decompress_file b env cd options fuel).in_file_buf_ofs =
          cursor_from 0 (decompress_file b env cd options fuel).trace ∧
        (decompress_file b env cd options fuel).in_file_buf_size =
          chunk_from 0 (decompress_file b env cd options fuel).trace ∧
        (decompress_file b env cd options fuel).src_bytes_left +
          ((decompress_file b env cd options fuel).in_file_buf_size -
            (decompress_file b env cd options fuel).in_file_buf_ofs) +
          consumed (decompress_file b env cd options fuel).trace =
            (file.drop 13).length)) := by
  have hc := compress_streaming_feeds env cc hcc options fuel file hsrc hlen
  have hd := decompress_file_feeds b env cd hcd options fuel file hsrc hlen
  refine ⟨⟨?_, ?_, ?_⟩, ⟨?_, ?_, ?_⟩⟩
  · intro pre d call st n o post ht
    have h := hc.2.1
    rw [ht] at h
    exact cursor_ok_split _ _ _ _ _ _ _ h
  · intro pre k got post ht
    have h := hc.2.1
    rw [ht] at h
    exact cursor_ok_split_fread _ _ _ _ h
  · intro hret
    have h := hc.2.2 hret
    exact ⟨h.1, h.2.1, h.2.2.1, h.2.2.2.2⟩
  · intro pre d call st n o post ht
    have h := hd.2.1
    rw [ht] at h
    exact cursor_ok_split _ _ _ _ _ _ _ h
  · intro pre k got post ht
    have h := hd.2.1
    rw [ht] at h
    exact cursor_ok_split_fread _ _ _ _ h
  · intro hret
    have h := hd.2.2 hret
    exact ⟨h.1, h.2.1, h.2.2.1, h.2.2.2.2⟩

/-- Witness of `cursor_bookkeeping`: compressing the two bytes 5, 6 with a codec that
takes one byte per call, after one iteration the loop is still running with the cursor
at 1 of 2, nothing left to read and one byte consumed. -/
theorem cursor_bookkeeping_witness :
    (compress_streaming (Env.ideal [5, 6]) (copy_codec : Codec lzham_compress_params Nat)
      (comp_options.default x86) 1).ret = none ∧
    (compress_streaming (Env.ideal [5, 6]) (copy_codec : Codec lzham_compress_params Nat)
      (comp_options.default x86) 1).in_file_buf_ofs = 1 ∧
    (compress_streaming (Env.ideal [5, 6]) (copy_codec : Codec lzham_compress_params Nat)
      (comp_options.default x86) 1).in_file_buf_size = 2 ∧
    (compress_streaming (Env.ideal [5, 6]) (copy_codec : Codec lzham_compress_params Nat)
        (comp_options.default x86) 1).src_bytes_left +
      ((compress_streaming (Env.ideal [5, 6]) (copy_codec : Codec lzham_compress_params Nat)
          (comp_options.default x86) 1).in_file_buf_size -
        (compress_streaming (Env.ideal [5, 6]) (copy_codec : Codec lzham_compress_params Nat)
          (comp_options.default x86) 1).in_file_buf_ofs) +
      consumed (compress_streaming (Env.ideal [5, 6])
        (copy_codec : Codec lzham_compress_params Nat) (comp_options.default x86) 1).trace =
      ([5, 6] : List Byte).length :=
  ⟨by decide, by decide, by decide,
    ((cursor_bookkeeping x86 (Env.ideal [5, 6])
      (copy_codec : Codec lzham_compress_params Nat)
      (greedy_codec : Codec lzham_decompress_params Nat) copy_codec_within_offer
      greedy_codec_within_offer (comp_options.default x86) 1 [5, 6] rfl
      (by decide)).1.2.2 (by decide)).2.2.2⟩

end Lzham
